import Mathlib

/-!
ProtoMol: building a topology from an XML force field.

A shallow embedding of `ProtoMol::buildTopologyFromXML`
(`src/protomol/topology/BuildTopologyFromXML.cpp`) and of
`AnalysisCollection::run` (`src/protomol/analysis/AnalysisCollection.cpp`),
and theorems about them.

Modelling conventions.

* `std::string` is a list of characters (`Str`).
* Numbers read from XML attributes with `atof` are finite and are exact
  rationals; rounding is not modelled.  A C++ `float`/`Real` variable whose
  value can be non-finite (the result of a division or of `sqrt`) has type
  `Scalar`, the rationals extended by one element `nan` that stands for a
  value that is not a finite number.  The builder only ever compares such a
  value against zero.
* `report << error << ... << endr` and `THROW` abort the build: the model
  returns `Except.error` with the kind of the message.  Indexing a vector
  outside its bounds is undefined behaviour in C++; the model stops there
  with `BuildError.outOfRange`.
* The XML document is given as the tree the builder navigates: the mass
  records and the sequence of children of `<forcefield>`.
* The heavy-atom group size is a 32-bit `int`: `atoi` and the running total
  keep the low 32 bits in two's complement (`toInt32`), as the compiled
  program does.
-/

namespace ProtoMol

/-- A `std::string`, as its sequence of characters. -/
abbrev Str := List Char

/-! ## Numbers -/

/-- Value of a `float`/`Real` variable that need not be finite: a rational,
or `nan` for the result of a division by zero or of the square root of a
negative number. -/
inductive Scalar where
  | fin (q : ℚ)
  | nan
  deriving DecidableEq

namespace Scalar

/-- Floating-point addition. -/
def add : Scalar → Scalar → Scalar
  | fin a, fin b => fin (a + b)
  | _, _ => nan

/-- Floating-point multiplication. -/
def mul : Scalar → Scalar → Scalar
  | fin a, fin b => fin (a * b)
  | _, _ => nan

/-- Floating-point division; dividing by zero gives no finite number. -/
def div : Scalar → Scalar → Scalar
  | fin a, fin b => if b = 0 then nan else fin (a / b)
  | _, _ => nan

/-- The C++ test `x != 0`, which holds for a NaN. -/
def neZero : Scalar → Bool
  | fin q => decide (q ≠ 0)
  | nan => true

end Scalar

/-- Values that come from headers outside the source tree: the unit
conversion factors of namespace `Constant` and the library square root on
non-negative arguments. -/
structure Constant where
  NM_ANGSTROM : ℚ
  ANGSTROM_NM : ℚ
  KJ_KCAL : ℚ
  SQRTCOULOMBCONSTANT : ℚ
  sqrt : ℚ → ℚ

/-- The call `sqrt(x)` on a finite argument: NaN below zero. -/
def Constant.fsqrt (K : Constant) (x : ℚ) : Scalar :=
  if x < 0 then Scalar.nan else Scalar.fin (K.sqrt x)

/-! ## Heavy-atom group size (lines 304-321) -/

/-- The expression `name[pos]` on a `std::string`: the character at `pos`,
and the terminator at `pos = size`. -/
def charAt (name : Str) (pos : Nat) : Char :=
  name.getD pos (Char.ofNat 0)

/-- Conversion of an integer to a 32-bit `int`: the low 32 bits, read in
two's complement. -/
def toInt32 (x : Int) : Int :=
  (x + 2147483648) % 4294967296 - 2147483648

/-- The number that a string of decimal digits spells. -/
def digitsValue (number : Str) : Int :=
  number.foldl (fun acc c => acc * 10 + ((c.toNat : Int) - 48)) 0

/-- The call `atoi(number.c_str())` on a string of decimal digits, which is
`(int) strtol(number.c_str(), NULL, 10)`: `strtol` returns the number the
digits spell, or `LONG_MAX` (64 bits) when the number is larger, and the
conversion to `int` keeps the low 32 bits. -/
def atoi (number : Str) : Int :=
  toInt32 (min (digitsValue number) 9223372036854775807)

/-- The inner loop `while (isdigit(name[++pos])) number += name[pos];`.
Returns the collected digits and the value of `pos` when the loop exits;
`none` when the step budget is used up. -/
def digitLoop (name : Str) : Nat → Nat → Str → Option (Str × Nat)
  | 0, _, _ => none
  | fuel + 1, pos, number =>
    let pos1 := pos + 1
    if (charAt name pos1).isDigit then
      digitLoop name fuel pos1 (number ++ [charAt name pos1])
    else
      some (number, pos1)

/-- The loop `for (unsigned pos = 0; pos < name.size(); ++pos)` of lines
312-320, started at `pos` with running total `hvy`.  The total is an `int`:
the sum of line 319 keeps the low 32 bits. -/
def hvyLoop (name : Str) : Nat → Nat → Int → Option Int
  | 0, _, _ => none
  | fuel + 1, pos, hvy =>
    if pos < name.length then
      if charAt name pos = 'H' then
        match digitLoop name (name.length + 1) pos [] with
        | none => none
        | some (number, pos1) =>
          let number1 := if number = [] then ['1'] else number
          hvyLoop name fuel (pos1 + 1) (toInt32 (hvy + atoi number1))
      else
        hvyLoop name fuel (pos + 1) hvy
    else
      some hvy

/-- The value assigned to `tempatom.hvyAtom` for an atom called `name`. -/
def hvyAtom (name : Str) : Option Int :=
  if name = ['H'] then some 0 else hvyLoop name (name.length + 1) 0 1

/-! ## Input: the XML document and the PDB atom records -/

/-- One `PDB::Atom` record, as far as the builder reads it. -/
structure PDBAtom where
  elementName : Str
  elementNum : Int
  residueName : Str
  residueNum : Int
  deriving DecidableEq

/-- A child of the first `<particles>` element: `index` and `mass`. -/
structure mass_index where
  index : Int
  mass : ℚ
  deriving DecidableEq

/-- A child of `<particles>` inside a `NonbondedForce`. -/
structure electrostatic_index where
  index : Int
  charge : ℚ
  epsilon : ℚ
  sigma : ℚ
  deriving DecidableEq

/-- A child of `<bonds>`. -/
structure XMLBond where
  particle1 : Int
  particle2 : Int
  length : ℚ
  k : ℚ
  deriving DecidableEq

/-- A child of `<angles>`. -/
structure XMLAngle where
  particle1 : Int
  particle2 : Int
  particle3 : Int
  angle : ℚ
  k : ℚ
  deriving DecidableEq

/-- A child of `<torsions>`. -/
structure XMLTorsion where
  particle1 : Int
  particle2 : Int
  particle3 : Int
  particle4 : Int
  periodicity : Int
  phase : ℚ
  k : ℚ
  deriving DecidableEq

/-- A child of `<exceptions>`. -/
structure XMLException where
  particle1 : Int
  particle2 : Int
  chargeProd : ℚ
  epsilon : ℚ
  sigma : ℚ
  deriving DecidableEq

/-- A child of `<particles>` inside a `GBSAOBCForce`. -/
structure XMLGBSAParticle where
  index : Int
  radius : ℚ
  scale : ℚ
  deriving DecidableEq

/-- A child element of `<forcefield>`.  For a `<force>` element the
constructor is its `type` attribute and the arguments are the `count`
attribute and the children of each container the builder opens in it.
`other` is any element that no branch of the builder selects. -/
inductive XMLForce where
  | NonbondedForce (particlesCount : Int) (particles : List electrostatic_index)
      (exceptionsCount : Int) (exceptions : List XMLException)
  | HarmonicBondForce (count : Int) (bonds : List XMLBond)
  | HarmonicAngleForce (count : Int) (angles : List XMLAngle)
  | PeriodicTorsionForce (count : Int) (torsions : List XMLTorsion)
  | GBSAOBCForce (count : Int) (particles : List XMLGBSAParticle)
  | other
  deriving DecidableEq

/-- The document: the mass records of the first `<particles>` element and
the children of `<forcefield>` in document order. -/
structure XMLDocument where
  masses : List mass_index
  forces : List XMLForce
  deriving DecidableEq

/-! ## The topology -/

/-- Why a build stopped. -/
inductive BuildError where
  | electrostaticsCount
  | electrostaticsUndefined
  | massUndefined
  | epsilonError
  | sigmaError
  | atomOutOfSequence
  | bondsCount
  | anglesCount
  | dihedralsCount
  | exceptionsCount
  | gbsaCount
  | gbsaBounds
  | outOfRange
  deriving DecidableEq

/-- An `AtomType`; a default-constructed one has an empty name. -/
structure AtomType where
  name : Str := []
  mass : ℚ := 0
  charge : ℚ := 0
  symbolName : Str := []
  sigma : ℚ := 0
  epsilon : ℚ := 0
  sigma14 : ℚ := 0
  epsilon14 : ℚ := 0
  vdwR : ℚ := 0
  deriving DecidableEq

/-- A `GBSAAtomParameters` object: the three values the builder stores and
the sizes of the buffers it sets up. -/
structure GBSAAtomParameters where
  vanDerWaalRadius : ℚ := 0
  offsetRadius : ℚ := 0
  scalingFactor : ℚ := 0
  bornRadiusDerivatives : Option Nat := none
  Lvalues : Option Nat := none
  Uvalues : Option Nat := none
  distij : Option Nat := none
  expTerm : Nat := 0
  filTerm : Nat := 0
  partialTerm : Nat := 0
  deriving DecidableEq

/-- An `Atom` of the topology. -/
structure Atom where
  name : Str := []
  type : Nat := 0
  residue_name : Str := []
  residue_seq : Int := 0
  scaledCharge : ℚ := 0
  scaledMass : ℚ := 0
  hvyAtom : Int := 0
  atomNum : Int := 0
  mybonds : List Nat := []
  myGBSA_T : Option GBSAAtomParameters := none
  deriving DecidableEq

/-- A `Bond`. -/
structure Bond where
  atom1 : Int
  atom2 : Int
  springConstant : ℚ
  restLength : ℚ
  deriving DecidableEq

/-- An `Angle`. -/
structure Angle where
  atom1 : Int
  atom2 : Int
  atom3 : Int
  restAngle : ℚ
  forceConstant : ℚ
  ureyBradleyConstant : ℚ
  ureyBradleyRestLength : ℚ
  deriving DecidableEq

/-- A `Torsion`. -/
structure Torsion where
  atom1 : Int
  atom2 : Int
  atom3 : Int
  atom4 : Int
  multiplicity : Int
  periodicity : List Int
  phaseShift : List ℚ
  forceConstant : List ℚ
  deriving DecidableEq

/-- The class handed to `ExclusionTable::add`. -/
inductive ExclusionClass where
  | EXCLUSION_NONE
  | EXCLUSION_MODIFIED
  | EXCLUSION_FULL
  deriving DecidableEq

/-- One `LennardJonesParameters` record. -/
structure LennardJonesParameters where
  A : Scalar
  B : Scalar
  A14 : Scalar
  B14 : Scalar
  deriving DecidableEq

/-- The global implicit-solvent settings written at lines 572-578. -/
structure GBSASettings where
  doGBSAOpenMM : Int
  obcType : Int
  alphaObc : ℚ
  betaObc : ℚ
  gammaObc : ℚ
  dielecOffset : ℚ
  deriving DecidableEq

/-- The fields of `GenericTopology` that the builder writes and that are
modelled.  `exclusions` is the
sequence of calls `exclusions.add(p1, p2, c)` and `lennardJonesParameters`
the sequence of calls `lennardJonesParameters.set(i, j, params)`, both
oldest first; `gbsaAllocations` lists the atom index of every
`new GBSAAtomParameters()` executed. -/
structure GenericTopology where
  atoms : List Atom := []
  atomTypes : List AtomType := []
  bonds : List Bond := []
  angles : List Angle := []
  dihedrals : List Torsion := []
  exclusions : List (Int × Int × ExclusionClass) := []
  coulombScalingFactor : Scalar := Scalar.fin 0
  LJScalingFactor : Scalar := Scalar.fin 0
  implicitSolvent : Option GBSASettings := none
  gbsaAllocations : List Nat := []
  lennardJonesParameters : List ((Nat × Nat) × LennardJonesParameters) := []
  deriving DecidableEq

/-- Reading `v[i]` for an `int` index `i`. -/
def vectorAt {α : Type} (v : List α) (i : Int) : Except BuildError α :=
  if 0 ≤ i then
    match v[i.toNat]? with
    | some x => .ok x
    | none => .error .outOfRange
  else .error .outOfRange

/-! ## Lookup tables (lines 110-171) -/

/-- The loop of lines 138-168 over the children of `<forcefield>`: every
`NonbondedForce` appends its particles to `electrostatics` and then compares
the size of the whole vector with its `count`. -/
def readElectrostatics :
    List XMLForce → List electrostatic_index → Except BuildError (List electrostatic_index)
  | [], electrostatics => .ok electrostatics
  | .NonbondedForce fnbcount particles _ _ :: rest, electrostatics =>
    let electrostatics1 := electrostatics ++ particles
    if (electrostatics1.length : Int) ≠ fnbcount then .error .electrostaticsCount
    else readElectrostatics rest electrostatics1
  | _ :: rest, electrostatics => readElectrostatics rest electrostatics

/-- The call `std::find(v.begin(), v.end(), key)` on the electrostatics. -/
def findElectrostatics (v : List electrostatic_index) (key : Int) :
    Option electrostatic_index :=
  v.find? (fun e => decide (key = e.index))

/-- The call `std::find(v.begin(), v.end(), key)` on the masses. -/
def findMass (v : List mass_index) (key : Int) : Option mass_index :=
  v.find? (fun m => decide (key = m.index))

/-! ## Atoms and atom types (lines 190-330) -/

/-- The name part of a type name: `name.substr(0, name.find('_'))`. -/
def namePart (name : Str) : Str :=
  name.takeWhile (fun c => decide (c ≠ '_'))

/-- The test of lines 212-214 on type `t`. -/
def typeMatches (elementName : Str) (tempepsilon tempsigma : ℚ) (t : AtomType) : Bool :=
  decide (elementName = namePart t.name) && decide (t.epsilon = tempepsilon) &&
    decide (t.sigma = tempsigma)

/-- The scan of lines 195-218: the index of the first matching type, and
`atomTypes.size()` when the loop ends without a match. -/
def scanTypes (atomTypes : List AtomType) (elementName : Str)
    (tempepsilon tempsigma : ℚ) : Nat :=
  atomTypes.findIdx (typeMatches elementName tempepsilon tempsigma)

/-- The text `ss.str()` after `ss << atype`. -/
def decimal (n : Nat) : Str := (Nat.repr n).toList

/-- Lines 235-280: a type whose name is still empty is filled in from the
atom's records, a type that has a name is compared with them. -/
def updateType (K : Constant) (masses : List mass_index) (a : PDBAtom)
    (e : electrostatic_index) (atype : Nat) (tempatomtype : AtomType) :
    Except BuildError AtomType :=
  if tempatomtype.name.length = 0 then
    match findMass masses (a.elementNum - 1) with
    | none => .error .massUndefined
    | some m =>
      .ok { name := a.elementName ++ ['_'] ++ decimal atype
            mass := m.mass
            charge := e.charge
            symbolName := a.elementName.take 1
            sigma := e.sigma * K.NM_ANGSTROM
            epsilon := e.epsilon * K.KJ_KCAL
            sigma14 := e.sigma * K.NM_ANGSTROM
            epsilon14 := e.epsilon * K.KJ_KCAL
            vdwR := e.sigma * K.NM_ANGSTROM }
  else if tempatomtype.epsilon ≠ e.epsilon * K.KJ_KCAL then .error .epsilonError
  else if tempatomtype.sigma ≠ e.sigma * K.NM_ANGSTROM then .error .sigmaError
  else .ok tempatomtype

/-- Lines 288-323: the atom record for input record `a`.  The heavy-atom
scan always returns a value (`hvyAtom_some`), so the default of `getD` is
never taken. -/
def makeAtom (K : Constant) (a : PDBAtom) (e : electrostatic_index) (atype : Nat)
    (t : AtomType) : Atom :=
  { name := a.elementName
    type := atype
    residue_name := a.residueName
    residue_seq := a.residueNum
    scaledCharge := e.charge * K.SQRTCOULOMBCONSTANT
    scaledMass := t.mass
    hvyAtom := (hvyAtom a.elementName).getD 0
    atomNum := a.elementNum - 1 }

/-- The values `tempepsilon` and `tempsigma` of lines 198-203. -/
def tempEpsilonSigma (K : Constant) (it_electrostatics : Option electrostatic_index) : ℚ × ℚ :=
  match it_electrostatics with
  | some e => (e.epsilon * K.KJ_KCAL, e.sigma * K.NM_ANGSTROM)
  | none => (0, 0)

/-- One pass of the atom loop (lines 191-330) for input record `a` at
position `i`. -/
def addAtom (K : Constant) (masses : List mass_index)
    (electrostatics : List electrostatic_index) (topo : GenericTopology)
    (i : Nat) (a : PDBAtom) : Except BuildError GenericTopology :=
  let it_electrostatics := findElectrostatics electrostatics (a.elementNum - 1)
  let temp := tempEpsilonSigma K it_electrostatics
  let atype := scanTypes topo.atomTypes a.elementName temp.1 temp.2
  match it_electrostatics with
  | none => .error .electrostaticsUndefined
  | some e =>
    let resized : List AtomType :=
      if atype = topo.atomTypes.length then topo.atomTypes ++ [{}] else topo.atomTypes
    match updateType K masses a e atype (resized.getD atype {}) with
    | .error err => .error err
    | .ok t =>
      let tempatom := makeAtom K a e atype t
      if tempatom.atomNum ≠ (i : Int) then .error .atomOutOfSequence
      else .ok { topo with atomTypes := resized.set atype t, atoms := topo.atoms ++ [tempatom] }

/-- The atom loop from position `i` on. -/
def addAtoms (K : Constant) (masses : List mass_index)
    (electrostatics : List electrostatic_index) :
    GenericTopology → Nat → List PDBAtom → Except BuildError GenericTopology
  | topo, _, [] => .ok topo
  | topo, i, a :: rest =>
    match addAtom K masses electrostatics topo i a with
    | .error err => .error err
    | .ok topo1 => addAtoms K masses electrostatics topo1 (i + 1) rest

/-! ## Forces (lines 342-649) -/

/-- Conversion of an `int` to `unsigned` (32 bits). -/
def toUnsigned (i : Int) : Nat := (i % 4294967296).toNat

/-- The local variables that live across the loop over `<forcefield>`. -/
structure ForceState where
  topo : GenericTopology
  ignoredBonds : Int := 0
  ignoredAngles : Int := 0
  GBSA_data_initialized : Bool := false

/-- A loop over the children of a container, stopped by the first error. -/
def forEach {σ α : Type} (body : σ → α → Except BuildError σ) :
    σ → List α → Except BuildError σ
  | s, [] => .ok s
  | s, x :: xs =>
    match body s x with
    | .error err => .error err
    | .ok s1 => forEach body s1 xs

/-- The statement `atoms[i].mybonds.push_back(b)`. -/
def pushMybond (atoms : List Atom) (i : Int) (b : Nat) : Except BuildError (List Atom) :=
  match vectorAt atoms i with
  | .error err => .error err
  | .ok a => .ok (atoms.set i.toNat { a with mybonds := a.mybonds ++ [b] })

/-- The body of the bond loop (lines 383-395). -/
def addBond (K : Constant) (st : ForceState) (x : XMLBond) : Except BuildError ForceState :=
  let tempbond : Bond :=
    { restLength := x.length * K.NM_ANGSTROM
      springConstant := x.k * K.KJ_KCAL * K.ANGSTROM_NM * K.ANGSTROM_NM * (1 / 2)
      atom1 := x.particle1
      atom2 := x.particle2 }
  let bonds := st.topo.bonds ++ [tempbond]
  match pushMybond st.topo.atoms tempbond.atom1 (bonds.length - 1) with
  | .error err => .error err
  | .ok atoms1 =>
    match pushMybond atoms1 tempbond.atom2 (bonds.length - 1) with
    | .error err => .error err
    | .ok atoms2 =>
      .ok { st with
            topo := { st.topo with bonds := bonds, atoms := atoms2 }
            ignoredBonds :=
              if tempbond.springConstant = 0 then st.ignoredBonds + 1 else st.ignoredBonds }

/-- The body of the angle loop (lines 422-434). -/
def addAngle (K : Constant) (st : ForceState) (x : XMLAngle) : Except BuildError ForceState :=
  let tempangle : Angle :=
    { atom1 := x.particle1
      atom2 := x.particle2
      atom3 := x.particle3
      restAngle := x.angle
      forceConstant := x.k * K.KJ_KCAL * (1 / 2)
      ureyBradleyConstant := 0
      ureyBradleyRestLength := 0 }
  .ok { st with
        topo := { st.topo with angles := st.topo.angles ++ [tempangle] }
        ignoredAngles :=
          if tempangle.forceConstant = 0 then st.ignoredAngles + 1 else st.ignoredAngles }

/-- The body of the torsion loop (lines 461-471). -/
def addTorsion (K : Constant) (st : ForceState) (x : XMLTorsion) :
    Except BuildError ForceState :=
  let torsion : Torsion :=
    { atom1 := x.particle1
      atom2 := x.particle2
      atom3 := x.particle3
      atom4 := x.particle4
      periodicity := [x.periodicity]
      phaseShift := [x.phase]
      forceConstant := [x.k * K.KJ_KCAL]
      multiplicity := 1 }
  .ok { st with topo := { st.topo with dihedrals := st.topo.dihedrals ++ [torsion] } }

/-- The variables of the exception loop: the exclusion calls made so far,
the three `float` accumulators and the entry counter. -/
structure ExceptionAcc where
  exclusions : List (Int × Int × ExclusionClass)
  qq_ratio : Scalar := Scalar.fin 0
  lj_ratio : Scalar := Scalar.fin 0
  rcount : Scalar := Scalar.fin 0
  lcount : Int := 0

/-- The value `calc_epsilon` of lines 516-517 for the pair `(p1, p2)`. -/
def calcEpsilon (K : Constant) (topo : GenericTopology) (p1 p2 : Int) :
    Except BuildError Scalar :=
  match vectorAt topo.atoms p1 with
  | .error err => .error err
  | .ok a1 =>
    match vectorAt topo.atomTypes a1.type with
    | .error err => .error err
    | .ok t1 =>
      match vectorAt topo.atoms p2 with
      | .error err => .error err
      | .ok a2 =>
        match vectorAt topo.atomTypes a2.type with
        | .error err => .error err
        | .ok t2 => .ok (K.fsqrt (t1.epsilon * t2.epsilon))

/-- The value `calc_charge` of lines 527-528 for the pair `(p1, p2)`. -/
def calcCharge (K : Constant) (topo : GenericTopology) (p1 p2 : Int) :
    Except BuildError Scalar :=
  match vectorAt topo.atoms p1 with
  | .error err => .error err
  | .ok a1 =>
    match vectorAt topo.atoms p2 with
    | .error err => .error err
    | .ok a2 =>
      .ok (Scalar.div (Scalar.fin (a1.scaledCharge * a2.scaledCharge * 1))
        (Scalar.fin (K.SQRTCOULOMBCONSTANT * K.SQRTCOULOMBCONSTANT)))

/-- The body of the exception loop (lines 506-545). -/
def addException (K : Constant) (topo : GenericTopology) (acc : ExceptionAcc)
    (x : XMLException) : Except BuildError ExceptionAcc :=
  let lcount := acc.lcount + 1
  let epsilon : ℚ := x.epsilon * K.KJ_KCAL
  let chargeProd : ℚ := x.chargeProd
  let p1 := x.particle1
  let p2 := x.particle2
  match calcEpsilon K topo p1 p2 with
  | .error err => .error err
  | .ok calc_epsilon =>
    if epsilon ≠ 0 ∧ calc_epsilon.neZero = true then
      let exclusions := acc.exclusions ++ [(p1, p2, ExclusionClass.EXCLUSION_MODIFIED)]
      match calcCharge K topo p1 p2 with
      | .error err => .error err
      | .ok calc_charge =>
        if calc_charge.neZero = true then
          .ok { exclusions := exclusions
                qq_ratio := acc.qq_ratio.add (Scalar.div (Scalar.fin chargeProd) calc_charge)
                lj_ratio := acc.lj_ratio.add (Scalar.div (Scalar.fin epsilon) calc_epsilon)
                rcount := acc.rcount.add (Scalar.fin 1)
                lcount := lcount }
        else
          .ok { acc with exclusions := exclusions, lcount := lcount }
    else
      .ok { acc with
            exclusions := acc.exclusions ++ [(p1, p2, ExclusionClass.EXCLUSION_FULL)]
            lcount := lcount }

/-- The exceptions branch for one `NonbondedForce` (lines 482-559). -/
def addExceptions (K : Constant) (st : ForceState) (fhacount : Int)
    (exceptions : List XMLException) : Except BuildError ForceState :=
  match forEach (addException K st.topo) { exclusions := st.topo.exclusions } exceptions with
  | .error err => .error err
  | .ok acc =>
    let topo1 : GenericTopology :=
      { st.topo with
        exclusions := acc.exclusions
        coulombScalingFactor := acc.qq_ratio.div acc.rcount
        LJScalingFactor := acc.lj_ratio.div acc.rcount }
    if acc.lcount ≠ fhacount then .error .exceptionsCount
    else .ok { st with topo := topo1 }

/-- The object that lines 621-642 create and fill for one particle. -/
def newGBSAAtomParameters (atomsSize : Nat) (radius scale : ℚ) : GBSAAtomParameters :=
  let fresh : GBSAAtomParameters := {}
  let g1 : GBSAAtomParameters :=
    { fresh with vanDerWaalRadius := radius, offsetRadius := 9 / 100, scalingFactor := scale }
  let g2 := if g1.bornRadiusDerivatives = none then
    { g1 with bornRadiusDerivatives := some atomsSize } else g1
  let g3 := if g2.Lvalues = none then { g2 with Lvalues := some atomsSize } else g2
  let g4 := if g3.Uvalues = none then { g3 with Uvalues := some atomsSize } else g3
  let g5 := if g4.distij = none then { g4 with distij := some atomsSize } else g4
  { g5 with expTerm := atomsSize, filTerm := atomsSize, partialTerm := atomsSize }

/-- The body of the GBSA particle loop (lines 609-642). -/
def addGBSAParticle (K : Constant) (atomsSize : Nat) (st : ForceState)
    (x : XMLGBSAParticle) : Except BuildError ForceState :=
  let radius : ℚ := x.radius * K.NM_ANGSTROM
  let scale : ℚ := x.scale
  let i := x.index
  if toUnsigned i ≥ atomsSize then .error .gbsaBounds
  else
    match vectorAt st.topo.atoms i with
    | .error err => .error err
    | .ok tempatom =>
      .ok { st with
            topo := { st.topo with
                      atoms := st.topo.atoms.set i.toNat
                        { tempatom with
                          myGBSA_T := some (newGBSAAtomParameters atomsSize radius scale) }
                      gbsaAllocations := st.topo.gbsaAllocations ++ [i.toNat] } }

/-- The GBSA branch for one `GBSAOBCForce` (lines 563-644). -/
def addGBSA (K : Constant) (atomsSize : Nat) (st : ForceState) (fhacount : Int)
    (particles : List XMLGBSAParticle) : Except BuildError ForceState :=
  let st1 : ForceState :=
    if st.GBSA_data_initialized = false then
      { st with
        GBSA_data_initialized := true
        topo := { st.topo with
                  implicitSolvent := some
                    { doGBSAOpenMM := 1
                      obcType := 2
                      alphaObc := 1
                      betaObc := 8 / 10
                      gammaObc := 485 / 100
                      dielecOffset := 9 / 100 } } }
    else st
  if toUnsigned fhacount ≠ atomsSize then .error .gbsaCount
  else forEach (addGBSAParticle K atomsSize) st1 particles

/-- One pass of the loop over the children of `<forcefield>` (lines
363-646). -/
def processForce (K : Constant) (atomsSize : Nat) (st : ForceState) :
    XMLForce → Except BuildError ForceState
  | .HarmonicBondForce fhcount bonds =>
    match forEach (addBond K) st bonds with
    | .error err => .error err
    | .ok st1 =>
      if (st1.topo.bonds.length : Int) ≠ fhcount then .error .bondsCount else .ok st1
  | .HarmonicAngleForce fhacount angles =>
    match forEach (addAngle K) st angles with
    | .error err => .error err
    | .ok st1 =>
      if (st1.topo.angles.length : Int) ≠ fhacount then .error .anglesCount else .ok st1
  | .PeriodicTorsionForce fhacount torsions =>
    match forEach (addTorsion K) st torsions with
    | .error err => .error err
    | .ok st1 =>
      if (st1.topo.dihedrals.length : Int) ≠ fhacount then .error .dihedralsCount else .ok st1
  | .NonbondedForce _ _ fhacount exceptions => addExceptions K st fhacount exceptions
  | .GBSAOBCForce fhacount particles => addGBSA K atomsSize st fhacount particles
  | .other => .ok st

/-! ## Lennard-Jones table (lines 655-675) -/

/-- The record `paramsij` computed at lines 662-671 for types `i` and `j`. -/
def ljParams (K : Constant) (topo : GenericTopology) (i j : Nat) : LennardJonesParameters :=
  let ti : AtomType := topo.atomTypes.getD i {}
  let tj : AtomType := topo.atomTypes.getD j {}
  let r_ij : ℚ := (1 / 2) * (ti.sigma + tj.sigma)
  let e_ij : Scalar := K.fsqrt (ti.epsilon * tj.epsilon)
  let A := ((Scalar.fin (r_ij ^ 12)).mul e_ij).mul (Scalar.fin 4)
  let B := ((Scalar.fin (r_ij ^ 6)).mul e_ij).mul (Scalar.fin 4)
  { A := A, B := B, A14 := topo.LJScalingFactor.mul A, B14 := topo.LJScalingFactor.mul B }

/-- The calls `lennardJonesParameters.set(i, j, paramsij)` of the double loop
of lines 659-675, in the order they are made. -/
def lennardJonesCalls (K : Constant) (topo : GenericTopology) (atypesize : Nat) :
    List ((Nat × Nat) × LennardJonesParameters) :=
  (List.range atypesize).flatMap fun i =>
    (List.range' i (atypesize - i)).map fun j => ((i, j), ljParams K topo i j)

/-! ## The builder -/

/-- Lines 73-649 of `buildTopologyFromXML`: everything before the
Lennard-Jones table. -/
def buildForces (K : Constant) (doc : XMLDocument) (atoms : List PDBAtom) :
    Except BuildError ForceState :=
  match readElectrostatics doc.forces [] with
  | .error err => .error err
  | .ok electrostatics =>
    match addAtoms K doc.masses electrostatics {} 0 atoms with
    | .error err => .error err
    | .ok topo0 =>
      let topo1 : GenericTopology :=
        { topo0 with
          coulombScalingFactor := Scalar.fin (6059 / 10000)
          LJScalingFactor := Scalar.fin (1 / 2) }
      forEach (processForce K (topo1.atoms.length % 4294967296)) { topo := topo1 } doc.forces

/-- The function `ProtoMol::buildTopologyFromXML` on a parsed document,
up to the calls `buildMoleculeTable` and `exclusions.optimize` that end it. -/
def buildTopologyFromXML (K : Constant) (doc : XMLDocument) (atoms : List PDBAtom) :
    Except BuildError GenericTopology :=
  match buildForces K doc atoms with
  | .error err => .error err
  | .ok st =>
    .ok { st.topo with
          lennardJonesParameters :=
            lennardJonesCalls K st.topo st.topo.atomTypes.length }

/-! ## A sample instantiation of the constants -/

/-- Newton iteration for the integer square root of `n` from guess `g`. -/
def isqrtLoop (n : Nat) : Nat → Nat → Nat
  | 0, g => g
  | fuel + 1, g =>
    let g1 := (g + n / g) / 2
    if g1 < g then isqrtLoop n fuel g1 else g

/-- Integer square root. -/
def isqrt (n : Nat) : Nat := if n = 0 then 0 else isqrtLoop n n n

/-- The conversion factors of ProtoMol with a square root that is exact on
quotients of perfect squares. -/
def sampleConstant : Constant :=
  { NM_ANGSTROM := 10
    ANGSTROM_NM := 1 / 10
    KJ_KCAL := 1000 / 4184
    SQRTCOULOMBCONSTANT := 182226123264 / 10000000000
    sqrt := fun q => (isqrt q.num.toNat : ℚ) / (isqrt q.den : ℚ) }

/-! ## Sample inputs -/

/-- Two atoms, named "CA" and "HB2", numbered 1 and 2. -/
def atomsTwo : List PDBAtom :=
  [ { elementName := "CA".toList, elementNum := 1, residueName := "ALA".toList, residueNum := 1 },
    { elementName := "HB2".toList, elementNum := 2, residueName := "ALA".toList, residueNum := 1 } ]

/-- One atom, named "CA", numbered 1. -/
def atomsOne : List PDBAtom :=
  [ { elementName := "CA".toList, elementNum := 1, residueName := "ALA".toList, residueNum := 1 } ]

/-- One atom, named "CA", whose number 2 does not fit its position. -/
def atomsOutOfSequence : List PDBAtom :=
  [ { elementName := "CA".toList, elementNum := 2, residueName := "ALA".toList, residueNum := 1 } ]

/-- Mass records for two particles. -/
def massesTwo : List mass_index := [⟨0, 12⟩, ⟨1, 1⟩]

/-- A `NonbondedForce` with two particles and an empty exceptions section. -/
def nonbondedTwo : XMLForce :=
  .NonbondedForce 2 [⟨0, 1 / 2, 1, 1 / 10⟩, ⟨1, -1 / 2, 4, 1 / 5⟩] 0 []

/-- A bond between atoms 0 and 1. -/
def bondZeroOne : XMLBond := { particle1 := 0, particle2 := 1, length := 1 / 10, k := 1000 }

/-- A bonds container that declares two bonds and holds one. -/
def docBondsShort : XMLDocument :=
  { masses := massesTwo
    forces := [nonbondedTwo, .HarmonicBondForce 2 [bondZeroOne]] }

/-- Two `HarmonicBondForce` blocks, each declaring its own single bond. -/
def docTwoBondBlocks : XMLDocument :=
  { masses := massesTwo
    forces := [nonbondedTwo, .HarmonicBondForce 1 [bondZeroOne],
      .HarmonicBondForce 1 [bondZeroOne]] }

/-- Two `HarmonicBondForce` blocks whose counts are running totals, and a
`NonbondedForce` whose exceptions container declares one entry and holds
none. -/
def docRunningCounts : XMLDocument :=
  { masses := massesTwo
    forces := [.NonbondedForce 2 [⟨0, 1 / 2, 1, 1 / 10⟩, ⟨1, -1 / 2, 4, 1 / 5⟩] 1 [],
      .HarmonicBondForce 1 [bondZeroOne], .HarmonicBondForce 2 [bondZeroOne]] }

/-- A `GBSAOBCForce` for one atom that declares one particle and holds two. -/
def docGBSATwoChildren : XMLDocument :=
  { masses := massesTwo
    forces := [.NonbondedForce 1 [⟨0, 1 / 2, 1, 1 / 10⟩] 0 [],
      .GBSAOBCForce 1 [⟨0, 3 / 20, 4 / 5⟩, ⟨0, 3 / 20, 4 / 5⟩]] }

/-- An exceptions container that declares two entries and holds one. -/
def docExceptionsShort : XMLDocument :=
  { masses := massesTwo
    forces := [.NonbondedForce 2 [⟨0, 1 / 2, 1, 1 / 10⟩, ⟨1, -1 / 2, 4, 1 / 5⟩] 2
      [⟨0, 1, -1 / 8, 1, 3 / 20⟩]] }

/-- A document without defects for `atomsTwo`. -/
def docPlain : XMLDocument :=
  { masses := massesTwo
    forces := [nonbondedTwo, .HarmonicBondForce 1 [bondZeroOne]] }

/-- The count of each bonds, angles, torsions and `NonbondedForce` particles
container of `f` equals the number of its own children. -/
def XMLForce.ownCountAgrees : XMLForce → Bool
  | .NonbondedForce particlesCount particles _ _ =>
    decide (particlesCount = (particles.length : Int))
  | .HarmonicBondForce count bonds => decide (count = (bonds.length : Int))
  | .HarmonicAngleForce count angles => decide (count = (angles.length : Int))
  | .PeriodicTorsionForce count torsions => decide (count = (torsions.length : Int))
  | _ => true

/-- Two atoms called "C_A" with numbers 1 and 2. -/
def atomsSeparator : List PDBAtom :=
  [ { elementName := "C_A".toList, elementNum := 1, residueName := "ALA".toList, residueNum := 1 },
    { elementName := "C_A".toList, elementNum := 2, residueName := "ALA".toList, residueNum := 1 } ]

/-- Two particles with the same charge, epsilon and sigma. -/
def docSameParameters : XMLDocument :=
  { masses := [⟨0, 12⟩, ⟨1, 12⟩]
    forces := [.NonbondedForce 2 [⟨0, 1 / 2, 1, 1 / 10⟩, ⟨1, 1 / 2, 1, 1 / 10⟩] 0 []] }

/-- An exceptions section whose only entry has epsilon 0. -/
def docAllFull : XMLDocument :=
  { masses := massesTwo
    forces := [.NonbondedForce 2 [⟨0, 1 / 2, 1, 1 / 10⟩, ⟨1, -1 / 2, 4, 1 / 5⟩] 1
      [⟨0, 1, -1 / 8, 0, 3 / 20⟩]] }

/-- An exceptions section whose only entry joins two atoms of charge 0. -/
def docZeroCharge : XMLDocument :=
  { masses := massesTwo
    forces := [.NonbondedForce 2 [⟨0, 0, 1, 1 / 10⟩, ⟨1, 0, 4, 1 / 5⟩] 1
      [⟨0, 1, 0, 1, 3 / 20⟩]] }

/-- The exception entries of `docThreeExceptions`: two valid samples and one
entry with epsilon 0. -/
def exceptionsThree : List XMLException :=
  [⟨0, 1, -1 / 8, 1, 3 / 20⟩, ⟨1, 0, -1 / 16, 1 / 2, 3 / 20⟩, ⟨0, 0, 0, 0, 1 / 10⟩]

/-- A document with three exception entries. -/
def docThreeExceptions : XMLDocument :=
  { masses := massesTwo
    forces := [.HarmonicBondForce 1 [bondZeroOne],
      .NonbondedForce 2 [⟨0, 1 / 2, 1, 1 / 10⟩, ⟨1, -1 / 2, 4, 1 / 5⟩] 3 exceptionsThree] }

/-- The topology built from `docThreeExceptions` for `atomsTwo`. -/
def topoThreeExceptions : GenericTopology :=
  match buildTopologyFromXML sampleConstant docThreeExceptions atomsTwo with
  | .ok topo => topo
  | .error _ => {}

/-- The fields of an atom that are final once the atom loop has ended. -/
def Atom.fixed (a : Atom) : Str × Nat × Str × Int × ℚ × ℚ × Int × Int :=
  (a.name, a.type, a.residue_name, a.residue_seq, a.scaledCharge, a.scaledMass,
    a.hvyAtom, a.atomNum)

/-- The part of the state that no pass of the force loop changes. -/
def ForceState.core (st : ForceState) :
    List AtomType × List (Str × Nat × Str × Int × ℚ × ℚ × Int × Int) :=
  (st.topo.atomTypes, st.topo.atoms.map Atom.fixed)

/-- The sizes of the bond, angle and torsion vectors. -/
def ForceState.sizes (st : ForceState) : Nat × Nat × Nat :=
  (st.topo.bonds.length, st.topo.angles.length, st.topo.dihedrals.length)

/-- The two 1-4 scaling factors. -/
def ForceState.factors (st : ForceState) : Scalar × Scalar :=
  (st.topo.coulombScalingFactor, st.topo.LJScalingFactor)

/-- Number of children of the `<bonds>` container of a force. -/
def XMLForce.numBonds : XMLForce → Nat
  | .HarmonicBondForce _ bonds => bonds.length
  | _ => 0

/-- Number of children of the `<angles>` container of a force. -/
def XMLForce.numAngles : XMLForce → Nat
  | .HarmonicAngleForce _ angles => angles.length
  | _ => 0

/-- Number of children of the `<torsions>` container of a force. -/
def XMLForce.numTorsions : XMLForce → Nat
  | .PeriodicTorsionForce _ torsions => torsions.length
  | _ => 0

/-- Number of children of the `<particles>` container of a `NonbondedForce`. -/
def XMLForce.numParticles : XMLForce → Nat
  | .NonbondedForce _ particles _ _ => particles.length
  | _ => 0

/-- Whether the force is a `NonbondedForce`. -/
def XMLForce.isNonbonded : XMLForce → Bool
  | .NonbondedForce _ _ _ _ => true
  | _ => false

/-- Total number of `<bonds>` children in a run of forces. -/
def bondChildren (l : List XMLForce) : Nat := (l.map XMLForce.numBonds).sum

/-- Total number of `<angles>` children in a run of forces. -/
def angleChildren (l : List XMLForce) : Nat := (l.map XMLForce.numAngles).sum

/-- Total number of `<torsions>` children in a run of forces. -/
def torsionChildren (l : List XMLForce) : Nat := (l.map XMLForce.numTorsions).sum

/-- Total number of `NonbondedForce` particles in a run of forces. -/
def particleChildren (l : List XMLForce) : Nat := (l.map XMLForce.numParticles).sum

/-- A container of force `f` declares a count that differs from the number of
its children, where `pre` are the forces that precede `f` in the document:
for bonds, angles, torsions and `NonbondedForce` particles the children of
the containers of the same kind in `pre` are counted too; for exceptions only
the container's own children; for `GBSAOBCForce` the count is compared with
the number of atoms, as `unsigned`. -/
def CountMismatch (atomsSize : Nat) (pre : List XMLForce) : XMLForce → Prop
  | .NonbondedForce particlesCount particles exceptionsCount exceptions =>
    particlesCount ≠ ((particleChildren pre + particles.length : Nat) : Int) ∨
      exceptionsCount ≠ (exceptions.length : Int)
  | .HarmonicBondForce count bonds => count ≠ ((bondChildren pre + bonds.length : Nat) : Int)
  | .HarmonicAngleForce count angles =>
    count ≠ ((angleChildren pre + angles.length : Nat) : Int)
  | .PeriodicTorsionForce count torsions =>
    count ≠ ((torsionChildren pre + torsions.length : Nat) : Int)
  | .GBSAOBCForce count _ => toUnsigned count ≠ atomsSize
  | .other => False

/-- The count of a bonds, angles, torsions or `NonbondedForce` particles
container of `f` equals the number of children of all containers of its kind
in `pre` and in `f`. -/
def RunningCountAgrees (pre : List XMLForce) : XMLForce → Prop
  | .NonbondedForce particlesCount particles _ _ =>
    particlesCount = ((particleChildren pre + particles.length : Nat) : Int)
  | .HarmonicBondForce count bonds => count = ((bondChildren pre + bonds.length : Nat) : Int)
  | .HarmonicAngleForce count angles =>
    count = ((angleChildren pre + angles.length : Nat) : Int)
  | .PeriodicTorsionForce count torsions =>
    count = ((torsionChildren pre + torsions.length : Nat) : Int)
  | _ => True

/-- The count test of the force loop fails for `f` when the bond, angle and
torsion vectors hold `nb`, `na` and `nt` records before `f` is read. -/
def ForceMismatch (atomsSize nb na nt : Nat) : XMLForce → Prop
  | .NonbondedForce _ _ exceptionsCount exceptions => exceptionsCount ≠ (exceptions.length : Int)
  | .HarmonicBondForce count bonds => count ≠ ((nb + bonds.length : Nat) : Int)
  | .HarmonicAngleForce count angles => count ≠ ((na + angles.length : Nat) : Int)
  | .PeriodicTorsionForce count torsions => count ≠ ((nt + torsions.length : Nat) : Int)
  | .GBSAOBCForce count _ => toUnsigned count ≠ atomsSize
  | .other => False

/-- The count of the bonds, angles or torsions container of `f` equals the
size the vector has after `f`, when it held `nb`, `na`, `nt` records before. -/
def ForceAgrees (nb na nt : Nat) : XMLForce → Prop
  | .HarmonicBondForce count bonds => count = ((nb + bonds.length : Nat) : Int)
  | .HarmonicAngleForce count angles => count = ((na + angles.length : Nat) : Int)
  | .PeriodicTorsionForce count torsions => count = ((nt + torsions.length : Nat) : Int)
  | _ => True

/-- The four errors raised by the count tests on the bonds, angles,
torsions and `NonbondedForce` particles containers. -/
def BuildError.isRunningCount : BuildError → Bool
  | .electrostaticsCount => true
  | .bondsCount => true
  | .anglesCount => true
  | .dihedralsCount => true
  | _ => false

/-- The count of the `NonbondedForce` particles container of `f` equals the
size of the electrostatics vector after `f`, when it held `np` records
before. -/
def ParticlesAgree (np : Nat) : XMLForce → Prop
  | .NonbondedForce particlesCount particles _ _ =>
    particlesCount = ((np + particles.length : Nat) : Int)
  | _ => True

deriving instance DecidableEq for Except

/-! ## Exceptions: the quantities the statements speak of -/

/-- The atom index `p` is in range. -/
def IndexInRange (topo : GenericTopology) (p : Int) : Prop :=
  0 ≤ p ∧ p.toNat < topo.atoms.length

/-- Epsilon of the type of atom `p`. -/
def typeEpsilon (topo : GenericTopology) (p : Int) : ℚ :=
  (topo.atomTypes.getD (topo.atoms.getD p.toNat {}).type {}).epsilon

/-- Scaled charge of atom `p`. -/
def atomScaledCharge (topo : GenericTopology) (p : Int) : ℚ :=
  (topo.atoms.getD p.toNat {}).scaledCharge

/-- The declared epsilon of an exception entry, unit-converted. -/
def declaredEpsilon (K : Constant) (x : XMLException) : ℚ := x.epsilon * K.KJ_KCAL

/-- The expected epsilon of an exception entry: the geometric mean of the
epsilons of the types of its two atoms. -/
def expectedEpsilon (K : Constant) (topo : GenericTopology) (x : XMLException) : Scalar :=
  K.fsqrt (typeEpsilon topo x.particle1 * typeEpsilon topo x.particle2)

/-- The expected charge product of an exception entry: the product of the
scaled charges of its two atoms divided by `SQRTCOULOMBCONSTANT` squared. -/
def expectedChargeProd (K : Constant) (topo : GenericTopology) (x : XMLException) : Scalar :=
  Scalar.div (Scalar.fin (atomScaledCharge topo x.particle1 * atomScaledCharge topo x.particle2))
    (Scalar.fin (K.SQRTCOULOMBCONSTANT * K.SQRTCOULOMBCONSTANT))

/-- The class the statement assigns to an exception entry: FULL when the
declared or the expected epsilon is zero, MODIFIED in every other case. -/
def expectedClass (K : Constant) (topo : GenericTopology) (x : XMLException) : ExclusionClass :=
  if declaredEpsilon K x = 0 ∨ expectedEpsilon K topo x = Scalar.fin 0 then
    ExclusionClass.EXCLUSION_FULL
  else ExclusionClass.EXCLUSION_MODIFIED

/-- An exception entry is a valid sample: declared epsilon, expected epsilon
and expected charge product all differ from zero. -/
def isValidSample (K : Constant) (topo : GenericTopology) (x : XMLException) : Bool :=
  decide (declaredEpsilon K x ≠ 0) && (expectedEpsilon K topo x).neZero &&
    (expectedChargeProd K topo x).neZero

/-- The charge ratio of an entry: declared over expected charge product. -/
def chargeRatio (K : Constant) (topo : GenericTopology) (x : XMLException) : Scalar :=
  Scalar.div (Scalar.fin x.chargeProd) (expectedChargeProd K topo x)

/-- The epsilon ratio of an entry: declared over expected epsilon. -/
def epsilonRatio (K : Constant) (topo : GenericTopology) (x : XMLException) : Scalar :=
  Scalar.div (Scalar.fin (declaredEpsilon K x)) (expectedEpsilon K topo x)

/-- Arithmetic mean: the sum of the values divided by their number. -/
def mean (l : List Scalar) : Scalar :=
  Scalar.div (l.foldl Scalar.add (Scalar.fin 0)) (Scalar.fin (l.length : ℚ))

/-- The exception entries of a force. -/
def XMLForce.exceptionEntries : XMLForce → List XMLException
  | .NonbondedForce _ _ _ exceptions => exceptions
  | _ => []

/-- A container of force `f` declares a count that differs from the number
of its own children, where `pre` are the forces that precede `f` in the
document.  For a bonds, angles, torsions or `NonbondedForce` particles
container this is only said when no earlier container of the same kind holds
a child; for a `GBSAOBCForce` the count is compared with the number of atoms
(as `unsigned`) and not with the children. -/
def OwnCountMismatch (atomsSize : Nat) (pre : List XMLForce) : XMLForce → Prop
  | .NonbondedForce particlesCount particles exceptionsCount exceptions =>
    (particleChildren pre = 0 ∧ particlesCount ≠ (particles.length : Int)) ∨
      exceptionsCount ≠ (exceptions.length : Int)
  | .HarmonicBondForce count bonds => bondChildren pre = 0 ∧ count ≠ (bonds.length : Int)
  | .HarmonicAngleForce count angles => angleChildren pre = 0 ∧ count ≠ (angles.length : Int)
  | .PeriodicTorsionForce count torsions =>
    torsionChildren pre = 0 ∧ count ≠ (torsions.length : Int)
  | .GBSAOBCForce count _ => toUnsigned count ≠ atomsSize
  | .other => False

/-- Every atom of the topology has a type that exists. -/
def TypesInRange (topo : GenericTopology) : Prop :=
  ∀ a ∈ topo.atoms, a.type < topo.atomTypes.length

/-! ## Further definitions used in the statements -/

/-- The combining rule as the specification words it: `r_ij` the arithmetic
mean of the sigmas, `e_ij` the square root of the product of the epsilons,
`A = 4 e_ij r_ij^12`, `B = 4 e_ij r_ij^6`, and the 1-4 values scaled by
`s`. -/
def combiningRule (K : Constant) (ti tj : AtomType) (s : Scalar) : LennardJonesParameters :=
  let r_ij : ℚ := (ti.sigma + tj.sigma) / 2
  let e_ij : Scalar := K.fsqrt (ti.epsilon * tj.epsilon)
  let A := (Scalar.fin 4).mul (e_ij.mul (Scalar.fin (r_ij ^ 12)))
  let B := (Scalar.fin 4).mul (e_ij.mul (Scalar.fin (r_ij ^ 6)))
  { A := A, B := B, A14 := s.mul A, B14 := s.mul B }

/-- The children of the `<particles>` container of a `NonbondedForce`. -/
def XMLForce.particleEntries : XMLForce → List electrostatic_index
  | .NonbondedForce _ particles _ _ => particles
  | _ => []

/-- All electrostatic records of a run of forces, in document order. -/
def allParticles (l : List XMLForce) : List electrostatic_index :=
  l.flatMap XMLForce.particleEntries


/-- Two atoms called "CA" with numbers 1 and 2. -/
def atomsSameName : List PDBAtom :=
  [ { elementName := "CA".toList, elementNum := 1, residueName := "ALA".toList, residueNum := 1 },
    { elementName := "CA".toList, elementNum := 2, residueName := "ALA".toList, residueNum := 1 } ]

/-- Two particles with the same epsilon and sigma, and a mass record for
the first of them only. -/
def docOneMass : XMLDocument :=
  { masses := [⟨0, 12⟩]
    forces := [.NonbondedForce 2 [⟨0, 1 / 2, 1, 1 / 10⟩, ⟨1, 1 / 2, 1, 1 / 10⟩] 0 []] }

/-- Two particles with different epsilon, and a mass record for the first
of them only. -/
def docOneMassTwoTypes : XMLDocument :=
  { masses := [⟨0, 12⟩]
    forces := [.NonbondedForce 2 [⟨0, 1 / 2, 1, 1 / 10⟩, ⟨1, 1 / 2, 4, 1 / 10⟩] 0 []] }

/-- An electrostatic record for particle 0 only. -/
def docOneParticle : XMLDocument :=
  { masses := massesTwo
    forces := [.NonbondedForce 1 [⟨0, 1 / 2, 1, 1 / 10⟩] 0 []] }


/-- The value fits a C++ `int`. -/
def IsInt (i : Int) : Prop := -2147483648 ≤ i ∧ i < 2147483648

/-- The `Bond` record of lines 384-388 for a child of `<bonds>`. -/
def bondRecord (K : Constant) (x : XMLBond) : Bond :=
  { restLength := x.length * K.NM_ANGSTROM
    springConstant := x.k * K.KJ_KCAL * K.ANGSTROM_NM * K.ANGSTROM_NM * (1 / 2)
    atom1 := x.particle1
    atom2 := x.particle2 }

/-- Whether the converted spring constant of a child of `<bonds>` is zero. -/
def zeroSpring (K : Constant) (x : XMLBond) : Bool :=
  decide ((bondRecord K x).springConstant = 0)

/-- The children of the `<bonds>` container of a force. -/
def XMLForce.bondEntries : XMLForce → List XMLBond
  | .HarmonicBondForce _ bonds => bonds
  | _ => []

/-- All children of `<bonds>` containers of a run of forces, in document
order. -/
def allBonds (l : List XMLForce) : List XMLBond := l.flatMap XMLForce.bondEntries

/-- The children of the `<particles>` container of a `GBSAOBCForce`. -/
def XMLForce.gbsaEntries : XMLForce → List XMLGBSAParticle
  | .GBSAOBCForce _ particles => particles
  | _ => []

/-- All GBSA particle entries of a run of forces, in document order. -/
def allGBSA (l : List XMLForce) : List XMLGBSAParticle := l.flatMap XMLForce.gbsaEntries

/-- What the force loop keeps of the bonds: the bond vector, the counter of
bonds with zero spring constant and the `mybonds` list of every atom. -/
def ForceState.bondView (st : ForceState) : List Bond × Int × List (List Nat) :=
  (st.topo.bonds, st.ignoredBonds, st.topo.atoms.map (fun a => a.mybonds))

/-- Three atoms "N", "CA" and "C", numbered 1 to 3. -/
def atomsThree : List PDBAtom :=
  [ { elementName := "N".toList, elementNum := 1, residueName := "ALA".toList, residueNum := 1 },
    { elementName := "CA".toList, elementNum := 2, residueName := "ALA".toList, residueNum := 1 },
    { elementName := "C".toList, elementNum := 3, residueName := "ALA".toList, residueNum := 1 } ]

/-- A bond between atoms 0 and 1 with `k = 0`. -/
def bondZeroK : XMLBond := { particle1 := 0, particle2 := 1, length := 1 / 10, k := 0 }

/-- A 3-atom system with one bond of `k = 0`. -/
def docZeroKBond : XMLDocument :=
  { masses := [⟨0, 14⟩, ⟨1, 12⟩, ⟨2, 12⟩]
    forces := [.NonbondedForce 3 [⟨0, 1 / 2, 1, 1 / 10⟩, ⟨1, -1 / 2, 4, 1 / 5⟩,
        ⟨2, 0, 4, 1 / 5⟩] 0 [],
      .HarmonicBondForce 1 [bondZeroK]] }

/-- The 3-atom system of `docZeroKBond` with a `HarmonicBondForce` of one
bond between atoms 1 and 2 in front of the container that holds the bond of
`k = 0`; each container declares the number of its own children. -/
def docZeroKSecondBlock : XMLDocument :=
  { masses := [⟨0, 14⟩, ⟨1, 12⟩, ⟨2, 12⟩]
    forces := [.NonbondedForce 3 [⟨0, 1 / 2, 1, 1 / 10⟩, ⟨1, -1 / 2, 4, 1 / 5⟩,
        ⟨2, 0, 4, 1 / 5⟩] 0 [],
      .HarmonicBondForce 1 [{ particle1 := 1, particle2 := 2, length := 1 / 10, k := 1000 }],
      .HarmonicBondForce 1 [bondZeroK]] }

/-- A topology of three atoms without bonds, written out. -/
def stateThreeAtoms : ForceState :=
  { topo := { atoms := [{ name := "N".toList }, { name := "CA".toList }, { name := "C".toList }]
              atomTypes := [{ name := "N_0".toList }] } }


/-- The `mybonds` lists after `atoms[i].mybonds.push_back(b)`. -/
def pushAt (mb : List (List Nat)) (i b : Nat) : List (List Nat) :=
  mb.set i (mb.getD i [] ++ [b])

/-- Bonds and `mybonds` lists point at each other: every bond index occurs
in the `mybonds` list of both endpoints of its bond, and every index in the
`mybonds` list of atom `i` is the index of a bond that has `i` as an
endpoint. -/
def BondsAdjacent (bonds : List Bond) (mb : List (List Nat)) : Prop :=
  (∀ (b : Nat) (bond : Bond), bonds[b]? = some bond →
      (0 ≤ bond.atom1 ∧ ∃ l, mb[bond.atom1.toNat]? = some l ∧ b ∈ l) ∧
      (0 ≤ bond.atom2 ∧ ∃ l, mb[bond.atom2.toNat]? = some l ∧ b ∈ l)) ∧
    (∀ (i : Nat) (l : List Nat), mb[i]? = some l → ∀ b ∈ l,
      ∃ bond, bonds[b]? = some bond ∧ (bond.atom1 = (i : Int) ∨ bond.atom2 = (i : Int)))

deriving instance DecidableEq for ForceState

/-- The state of the force loop at the end of the build of `docZeroKBond`. -/
def stateZeroKBond : ForceState :=
  match buildForces sampleConstant docZeroKBond atomsThree with
  | .ok st => st
  | .error _ => { topo := {} }

/-- The topology built from `docPlain` for `atomsTwo`. -/
def topoPlain : GenericTopology :=
  match buildTopologyFromXML sampleConstant docPlain atomsTwo with
  | .ok topo => topo
  | .error _ => {}


/-- The type record that lines 237-270 fill in for a new type with index
`atype`, from the input record `a`, its electrostatic record `e` and its mass
record `m`. -/
def newAtomType (K : Constant) (a : PDBAtom) (e : electrostatic_index) (m : mass_index)
    (atype : Nat) : AtomType :=
  { name := a.elementName ++ ['_'] ++ decimal atype
    mass := m.mass
    charge := e.charge
    symbolName := a.elementName.take 1
    sigma := e.sigma * K.NM_ANGSTROM
    epsilon := e.epsilon * K.KJ_KCAL
    sigma14 := e.sigma * K.NM_ANGSTROM
    epsilon14 := e.epsilon * K.KJ_KCAL
    vdwR := e.sigma * K.NM_ANGSTROM }

/-- What holds of the topology after the atom loop has read the records
`done`: there is one atom per record, made from the record, its electrostatic
record and the type it points to (in the fields that the force loop leaves
alone); and every type was filled in from the
first record that points to it. -/
def AtomLoopInv (K : Constant) (masses : List mass_index)
    (electrostatics : List electrostatic_index) (done : List PDBAtom)
    (topo : GenericTopology) : Prop :=
  topo.atoms.length = done.length ∧
    (∀ (i : Nat) (a : PDBAtom) (atom : Atom), done[i]? = some a → topo.atoms[i]? = some atom →
      ∃ e t, findElectrostatics electrostatics (a.elementNum - 1) = some e ∧
        topo.atomTypes[atom.type]? = some t ∧
        atom.fixed = (makeAtom K a e atom.type t).fixed) ∧
    (∀ (t : Nat) (typ : AtomType), topo.atomTypes[t]? = some typ →
      ∃ c a atom e m, done[c]? = some a ∧ topo.atoms[c]? = some atom ∧ atom.type = t ∧
        (∀ (k : Nat) (atomk : Atom), k < c → topo.atoms[k]? = some atomk → atomk.type ≠ t) ∧
        findElectrostatics electrostatics (a.elementNum - 1) = some e ∧
        findMass masses (a.elementNum - 1) = some m ∧
        typ = newAtomType K a e m t)


/-- The topology built from `docOneMass` for `atomsSameName`: one type,
shared by both atoms. -/
def topoOneMass : GenericTopology :=
  match buildTopologyFromXML sampleConstant docOneMass atomsSameName with
  | .ok topo => topo
  | .error _ => {}


/-! ## Definitions for the torsion records -/

/-- The `Torsion` record that lines 462-470 make from one child of
`<torsions>`. -/
def torsionRecord (K : Constant) (x : XMLTorsion) : Torsion :=
  { atom1 := x.particle1
    atom2 := x.particle2
    atom3 := x.particle3
    atom4 := x.particle4
    periodicity := [x.periodicity]
    phaseShift := [x.phase]
    forceConstant := [x.k * K.KJ_KCAL]
    multiplicity := 1 }

/-- The children of the `<torsions>` container of a force. -/
def XMLForce.torsionEntries : XMLForce → List XMLTorsion
  | .PeriodicTorsionForce _ torsions => torsions
  | _ => []

/-- All children of `<torsions>` containers of a run of forces, in document
order. -/
def allTorsions (l : List XMLForce) : List XMLTorsion := l.flatMap XMLForce.torsionEntries

/-- Two torsion entries over the same four atoms, with periodicity 1 and 3. -/
def torsionsSameAtoms : List XMLTorsion :=
  [ { particle1 := 0, particle2 := 1, particle3 := 2, particle4 := 0, periodicity := 1,
      phase := 0, k := 2 },
    { particle1 := 0, particle2 := 1, particle3 := 2, particle4 := 0, periodicity := 3,
      phase := 1, k := 5 } ]

/-- A 3-atom system with two torsion entries over the same four atom
indices. -/
def docTwoTorsions : XMLDocument :=
  { masses := [⟨0, 14⟩, ⟨1, 12⟩, ⟨2, 12⟩]
    forces := [.NonbondedForce 3 [⟨0, 1 / 2, 1, 1 / 10⟩, ⟨1, -1 / 2, 4, 1 / 5⟩,
        ⟨2, 0, 4, 1 / 5⟩] 0 [],
      .PeriodicTorsionForce 2 torsionsSameAtoms] }

/-- The topology built from `docTwoTorsions` for `atomsThree`. -/
def topoTwoTorsions : GenericTopology :=
  match buildTopologyFromXML sampleConstant docTwoTorsions atomsThree with
  | .ok topo => topo
  | .error _ => {}


/-! ## The heavy-atom scan with its reads of `name` -/

/-- The two errors of the re-verification of a reused type (lines 272-280):
"Epsilon error" and "Sigma error". -/
def BuildError.isTypeMismatch : BuildError → Bool
  | .epsilonError => true
  | .sigmaError => true
  | _ => false

/-- Every atom made from the records `done` points to a type whose epsilon
and sigma are the unit-converted epsilon and sigma of the atom's own
electrostatic record. -/
def TypeParamsAgree (K : Constant) (electrostatics : List electrostatic_index)
    (done : List PDBAtom) (topo : GenericTopology) : Prop :=
  ∀ (i : Nat) (a : PDBAtom) (atom : Atom), done[i]? = some a → topo.atoms[i]? = some atom →
    ∃ e t, findElectrostatics electrostatics (a.elementNum - 1) = some e ∧
      topo.atomTypes[atom.type]? = some t ∧
      t.epsilon = e.epsilon * K.KJ_KCAL ∧ t.sigma = e.sigma * K.NM_ANGSTROM


/-! ## Definitions for the characterisation of the type indices -/

/-- The key of an input record in the type scan: its element name and the
values `tempepsilon`, `tempsigma` of lines 198-203. -/
def atomKey (K : Constant) (electrostatics : List electrostatic_index) (a : PDBAtom) :
    Str × ℚ × ℚ :=
  (a.elementName, tempEpsilonSigma K (findElectrostatics electrostatics (a.elementNum - 1)))

/-- What the test of lines 212-214 compares on the side of a type: the name
part of its name, its epsilon and its sigma. -/
def typeKey (t : AtomType) : Str × ℚ × ℚ :=
  (namePart t.name, t.epsilon, t.sigma)

/-- Statement side: the distinct values of a list in the order of their
first occurrence. -/
def firstOccurrences {α : Type} [DecidableEq α] (l : List α) : List α :=
  l.foldl (fun acc x => if x ∈ acc then acc else acc ++ [x]) []

/-- Statement side: the position of the first occurrence of `x` in `l`, and
the length of `l` when there is none. -/
def positionOf {α : Type} [DecidableEq α] (l : List α) (x : α) : Nat :=
  l.indexOf x

/-- The types list the keys of the records `done` in the order of their first
occurrence, and every atom points to the position of its own key. -/
def KeysInOrder (K : Constant) (electrostatics : List electrostatic_index)
    (done : List PDBAtom) (topo : GenericTopology) : Prop :=
  topo.atomTypes.map typeKey = firstOccurrences (done.map (atomKey K electrostatics)) ∧
    topo.atoms.map (fun a => a.type) =
      (done.map (atomKey K electrostatics)).map
        (positionOf (firstOccurrences (done.map (atomKey K electrostatics))))

/-- Three atoms "CA", "HB2", "CA", numbered 1 to 3. -/
def atomsRepeated : List PDBAtom :=
  [ { elementName := "CA".toList, elementNum := 1, residueName := "ALA".toList, residueNum := 1 },
    { elementName := "HB2".toList, elementNum := 2, residueName := "ALA".toList, residueNum := 1 },
    { elementName := "CA".toList, elementNum := 3, residueName := "GLY".toList, residueNum := 2 } ]

/-- Particles 0 and 2 have the same epsilon and sigma and different charges;
there is a mass record for each of the three. -/
def docRepeated : XMLDocument :=
  { masses := [⟨0, 12⟩, ⟨1, 1⟩, ⟨2, 13⟩]
    forces := [.NonbondedForce 3 [⟨0, 1 / 2, 1, 1 / 10⟩, ⟨1, -1 / 2, 4, 1 / 5⟩,
        ⟨2, 1 / 4, 1, 1 / 10⟩] 0 []] }

/-- The topology built from `docRepeated` for `atomsRepeated`. -/
def topoRepeated : GenericTopology :=
  match buildTopologyFromXML sampleConstant docRepeated atomsRepeated with
  | .ok topo => topo
  | .error _ => {}


/-! ## `AnalysisCollection::run` (`src/protomol/analysis/AnalysisCollection.cpp`) -/

/-- An `Analysis` object as `AnalysisCollection::run` uses it.  The class is
declared in a header outside the source tree: its method `isOnOutput` is
taken as a function that reads the state `σ` of the application (which holds
the data of all analyses), and its method `run` as a function that returns a
`bool` and the state it leaves. -/
structure Analysis (σ : Type) where
  isOnOutput : σ → Bool
  run : Int → σ → Bool × σ

/-- The variables of the loop of `AnalysisCollection::run`: the state of the
application, the local `outputRan`, and the calls `(*i)->run(step)` made so
far, each with the position of its analysis in the list and the value it
returned, oldest first. -/
structure RunState (σ : Type) where
  app : σ
  outputRan : Bool
  calls : List (Nat × Bool)

/-- The loop of lines 33-37 from position `i` on. -/
def AnalysisCollection.runLoop {σ : Type} (step : Int) :
    List (Analysis σ) → Nat → RunState σ → RunState σ
  | [], _, st => st
  | a :: rest, i, st =>
    if a.isOnOutput st.app then
      let r := a.run step st.app
      AnalysisCollection.runLoop step rest (i + 1)
        { app := r.2, outputRan := st.outputRan || r.1, calls := st.calls ++ [(i, r.1)] }
    else
      AnalysisCollection.runLoop step rest (i + 1) st

/-- The method `AnalysisCollection::run` on the list `outputList`; the value
it returns is the field `outputRan` of the result.  `uncache` is the call
`app->outputCache.uncache()`. -/
def AnalysisCollection.run {σ : Type} (uncache : σ → σ) (outputList : List (Analysis σ))
    (step : Int) (app : σ) : RunState σ :=
  AnalysisCollection.runLoop step outputList 0
    { app := uncache app, outputRan := false, calls := [] }

/-- The state of the application when the loop reaches position `i`. -/
def AnalysisCollection.stateBefore {σ : Type} (uncache : σ → σ)
    (outputList : List (Analysis σ)) (step : Int) (app : σ) (i : Nat) : σ :=
  (AnalysisCollection.run uncache (outputList.take i) step app).app

/-- The value of `(*i)->isOnOutput()` when the loop reaches position `i`. -/
def AnalysisCollection.onOutputAt {σ : Type} (uncache : σ → σ)
    (outputList : List (Analysis σ)) (step : Int) (app : σ) (i : Nat) : Bool :=
  match outputList[i]? with
  | some a => a.isOnOutput (AnalysisCollection.stateBefore uncache outputList step app i)
  | none => false

/-- Three analyses over a counter: the first is off, the second returns true
and adds 1, the third returns false and adds 10. -/
def analysesThree : List (Analysis Nat) :=
  [ { isOnOutput := fun _ => false, run := fun _ s => (true, s + 100) },
    { isOnOutput := fun _ => true, run := fun _ s => (true, s + 1) },
    { isOnOutput := fun _ => true, run := fun _ s => (false, s + 10) } ]


/-! # Theorems -/

/-! ## Loops and vectors: general facts -/

theorem vectorAt_ok {α : Type} {v : List α} {i : Int} {x : α}
    (h : vectorAt v i = .ok x) : 0 ≤ i ∧ v[i.toNat]? = some x := by
  unfold vectorAt at h
  split at h
  · rename_i hi
    split at h
    · rename_i y hy
      cases h
      exact ⟨hi, hy⟩
    · cases h
  · cases h

theorem vectorAt_of_lt {α : Type} (v : List α) (i : Int) (h0 : 0 ≤ i)
    (h1 : i.toNat < v.length) : vectorAt v i = .ok v[i.toNat] := by
  unfold vectorAt
  rw [if_pos h0, List.getElem?_eq_getElem h1]

theorem map_set_of_eq {α β : Type} (f : α → β) :
    ∀ (l : List α) (n : Nat) (a b : α), l[n]? = some a → f b = f a →
      (l.set n b).map f = l.map f
  | [], _, _, _, h, _ => by simp at h
  | x :: xs, 0, a, b, h, hf => by
    simp at h
    subst h
    simp [hf]
  | x :: xs, n + 1, a, b, h, hf => by
    simp at h
    simp [map_set_of_eq f xs n a b h hf]

theorem forEach_append {σ α : Type} (body : σ → α → Except BuildError σ) :
    ∀ (l1 l2 : List α) (s : σ),
      forEach body s (l1 ++ l2) =
        match forEach body s l1 with
        | .error err => .error err
        | .ok s1 => forEach body s1 l2
  | [], l2, s => by simp [forEach]
  | x :: xs, l2, s => by
    simp only [List.cons_append, forEach]
    cases body s x with
    | error err => rfl
    | ok s1 => exact forEach_append body xs l2 s1

theorem forEach_invariant {σ α : Type} (body : σ → α → Except BuildError σ)
    (P : σ → Prop) (hbody : ∀ s x s1, body s x = .ok s1 → P s → P s1) :
    ∀ (l : List α) (s s1 : σ), forEach body s l = .ok s1 → P s → P s1
  | [], s, s1, h, hP => by
    simp [forEach] at h
    subst h
    exact hP
  | x :: xs, s, s1, h, hP => by
    simp only [forEach] at h
    cases hb : body s x with
    | error err => rw [hb] at h; cases h
    | ok s2 =>
      rw [hb] at h
      exact forEach_invariant body P hbody xs s2 s1 h (hbody s x s2 hb hP)

theorem forEach_count {σ α : Type} (body : σ → α → Except BuildError σ)
    (m : σ → Nat) (hbody : ∀ s x s1, body s x = .ok s1 → m s1 = m s + 1) :
    ∀ (l : List α) (s s1 : σ), forEach body s l = .ok s1 → m s1 = m s + l.length
  | [], s, s1, h => by
    simp [forEach] at h
    subst h
    simp
  | x :: xs, s, s1, h => by
    simp only [forEach] at h
    cases hb : body s x with
    | error err => rw [hb] at h; cases h
    | ok s2 =>
      rw [hb] at h
      have h1 := forEach_count body m hbody xs s2 s1 h
      have h2 := hbody s x s2 hb
      simp only [List.length_cons]
      omega

/-! ## The atom loop: general facts -/

theorem addAtom_ok {K : Constant} {masses : List mass_index}
    {electrostatics : List electrostatic_index} {topo topo1 : GenericTopology}
    {i : Nat} {a : PDBAtom}
    (h : addAtom K masses electrostatics topo i a = .ok topo1) :
    ∃ (atom : Atom) (types : List AtomType),
      topo1 = { topo with atomTypes := types, atoms := topo.atoms ++ [atom] } ∧
      atom.atomNum = (i : Int) ∧ a.elementNum - 1 = (i : Int) := by
  unfold addAtom at h
  simp only [] at h
  split at h
  · cases h
  · split at h
    · cases h
    · split at h
      · cases h
      · rename_i hnum
        simp only [ne_eq, not_not] at hnum
        cases h
        exact ⟨_, _, rfl, hnum, hnum⟩

theorem addAtoms_ok {K : Constant} {masses : List mass_index}
    {electrostatics : List electrostatic_index} :
    ∀ (rest : List PDBAtom) (topo topo1 : GenericTopology) (i : Nat),
      addAtoms K masses electrostatics topo i rest = .ok topo1 →
      ∃ (new : List Atom) (types : List AtomType),
        topo1 = { topo with atomTypes := types, atoms := topo.atoms ++ new } ∧
        new.map (fun x => x.atomNum) = (List.range' i rest.length).map Int.ofNat ∧
        rest.map (fun x => x.elementNum - 1) = (List.range' i rest.length).map Int.ofNat
  | [], topo, topo1, i, h => by
    simp only [addAtoms] at h
    cases h
    exact ⟨[], topo.atomTypes, by simp, by simp, by simp⟩
  | a :: rest, topo, topo1, i, h => by
    simp only [addAtoms] at h
    cases ha : addAtom K masses electrostatics topo i a with
    | error err => rw [ha] at h; cases h
    | ok topo2 =>
      rw [ha] at h
      obtain ⟨atom, types, h2, hnum, hel⟩ := addAtom_ok ha
      obtain ⟨new, types1, h1, hmap, hrest⟩ := addAtoms_ok rest topo2 topo1 (i + 1) h
      refine ⟨atom :: new, types1, ?_, ?_, ?_⟩
      · rw [h1, h2]
        simp
      · simp [List.range', hmap, hnum]
      · simp [List.range', hrest, hel]

theorem addAtom_typesInRange {K : Constant} {masses : List mass_index}
    {electrostatics : List electrostatic_index} {topo topo1 : GenericTopology}
    {i : Nat} {a : PDBAtom}
    (h : addAtom K masses electrostatics topo i a = .ok topo1) (hr : TypesInRange topo) :
    TypesInRange topo1 := by
  unfold addAtom at h
  simp only [] at h
  split at h
  · cases h
  · split at h
    · cases h
    · split at h
      · cases h
      · cases h
        intro b hb
        simp only [List.length_set, List.mem_append, List.mem_singleton] at hb ⊢
        have hle : scanTypes topo.atomTypes a.elementName
            (tempEpsilonSigma K (findElectrostatics electrostatics (a.elementNum - 1))).1
            (tempEpsilonSigma K (findElectrostatics electrostatics (a.elementNum - 1))).2 ≤
            topo.atomTypes.length := by
          unfold scanTypes
          exact List.findIdx_le_length _
        simp only [scanTypes] at hle
        rcases hb with hb | hb
        · have := hr b hb
          split <;> simp <;> omega
        · subst hb
          simp only [makeAtom, scanTypes]
          split
          · rename_i heq
            simp [heq]
          · rename_i hne
            omega

theorem addAtoms_typesInRange {K : Constant} {masses : List mass_index}
    {electrostatics : List electrostatic_index} :
    ∀ (rest : List PDBAtom) (topo topo1 : GenericTopology) (i : Nat),
      addAtoms K masses electrostatics topo i rest = .ok topo1 → TypesInRange topo →
      TypesInRange topo1
  | [], topo, topo1, i, h, hr => by
    simp only [addAtoms] at h
    cases h
    exact hr
  | a :: rest, topo, topo1, i, h, hr => by
    simp only [addAtoms] at h
    cases ha : addAtom K masses electrostatics topo i a with
    | error err => rw [ha] at h; cases h
    | ok topo2 =>
      rw [ha] at h
      exact addAtoms_typesInRange rest topo2 topo1 (i + 1) h (addAtom_typesInRange ha hr)

/-! ## The force loop: what it leaves unchanged -/

theorem pushMybond_fixed {atoms atoms1 : List Atom} {i : Int} {b : Nat}
    (h : pushMybond atoms i b = .ok atoms1) :
    atoms1.map Atom.fixed = atoms.map Atom.fixed := by
  unfold pushMybond at h
  split at h
  · cases h
  · rename_i a ha
    cases h
    exact map_set_of_eq Atom.fixed atoms i.toNat a _ (vectorAt_ok ha).2 rfl

theorem addBond_ok {K : Constant} {st st1 : ForceState} {x : XMLBond}
    (h : addBond K st x = .ok st1) :
    st1.core = st.core ∧ st1.factors = st.factors ∧
      st1.sizes = (st.topo.bonds.length + 1, st.topo.angles.length,
        st.topo.dihedrals.length) := by
  unfold addBond at h
  simp only [] at h
  split at h
  · cases h
  · rename_i atoms1 h1
    split at h
    · cases h
    · rename_i atoms2 h2
      cases h
      refine ⟨?_, rfl, ?_⟩
      · simp only [ForceState.core, pushMybond_fixed h2, pushMybond_fixed h1]
      · simp [ForceState.sizes]

theorem addAngle_ok {K : Constant} {st st1 : ForceState} {x : XMLAngle}
    (h : addAngle K st x = .ok st1) :
    st1.core = st.core ∧ st1.factors = st.factors ∧
      st1.sizes = (st.topo.bonds.length, st.topo.angles.length + 1,
        st.topo.dihedrals.length) := by
  unfold addAngle at h
  cases h
  exact ⟨rfl, rfl, by simp [ForceState.sizes]⟩

theorem addTorsion_ok {K : Constant} {st st1 : ForceState} {x : XMLTorsion}
    (h : addTorsion K st x = .ok st1) :
    st1.core = st.core ∧ st1.factors = st.factors ∧
      st1.sizes = (st.topo.bonds.length, st.topo.angles.length,
        st.topo.dihedrals.length + 1) := by
  unfold addTorsion at h
  cases h
  exact ⟨rfl, rfl, by simp [ForceState.sizes]⟩

theorem addGBSAParticle_ok {K : Constant} {atomsSize : Nat} {st st1 : ForceState}
    {x : XMLGBSAParticle} (h : addGBSAParticle K atomsSize st x = .ok st1) :
    st1.core = st.core ∧ st1.factors = st.factors ∧ st1.sizes = st.sizes := by
  unfold addGBSAParticle at h
  simp only [] at h
  split at h
  · cases h
  · split at h
    · cases h
    · rename_i tempatom ha
      cases h
      refine ⟨?_, rfl, rfl⟩
      exact Prod.ext rfl
        (map_set_of_eq Atom.fixed st.topo.atoms x.index.toNat tempatom _ (vectorAt_ok ha).2 rfl)

theorem addException_lcount {K : Constant} {topo : GenericTopology}
    {acc acc1 : ExceptionAcc} {x : XMLException}
    (h : addException K topo acc x = .ok acc1) : acc1.lcount = acc.lcount + 1 := by
  unfold addException at h
  simp only [] at h
  split at h
  · cases h
  · split at h
    · split at h
      · cases h
      · split at h <;> cases h <;> rfl
    · cases h
      rfl

theorem forEach_addException_lcount {K : Constant} {topo : GenericTopology} :
    ∀ (l : List XMLException) (acc acc1 : ExceptionAcc),
      forEach (addException K topo) acc l = .ok acc1 →
      acc1.lcount = acc.lcount + (l.length : Int)
  | [], acc, acc1, h => by
    simp [forEach] at h
    subst h
    simp
  | x :: xs, acc, acc1, h => by
    simp only [forEach] at h
    cases hb : addException K topo acc x with
    | error err => rw [hb] at h; cases h
    | ok acc2 =>
      rw [hb] at h
      have h1 := forEach_addException_lcount xs acc2 acc1 h
      have h2 := addException_lcount hb
      simp only [List.length_cons, Nat.cast_add, Nat.cast_one]
      omega

/-! ## The force loop: sizes and errors -/

theorem forEach_force_ok (body : ForceState → α → Except BuildError ForceState)
    (db da dt : Nat)
    (hbody : ∀ s x s1, body s x = .ok s1 →
      s1.core = s.core ∧ s1.factors = s.factors ∧
        s1.sizes = (s.topo.bonds.length + db, s.topo.angles.length + da,
          s.topo.dihedrals.length + dt)) :
    ∀ (l : List α) (s s1 : ForceState), forEach body s l = .ok s1 →
      s1.core = s.core ∧ s1.factors = s.factors ∧
        s1.sizes = (s.topo.bonds.length + l.length * db, s.topo.angles.length + l.length * da,
          s.topo.dihedrals.length + l.length * dt)
  | [], s, s1, h => by
    simp [forEach] at h
    subst h
    simp [ForceState.sizes]
  | x :: xs, s, s1, h => by
    simp only [forEach] at h
    cases hb : body s x with
    | error err => rw [hb] at h; cases h
    | ok s2 =>
      rw [hb] at h
      obtain ⟨c1, f1, z1⟩ := forEach_force_ok body db da dt hbody xs s2 s1 h
      obtain ⟨c2, f2, z2⟩ := hbody s x s2 hb
      refine ⟨c1.trans c2, f1.trans f2, ?_⟩
      simp only [ForceState.sizes, Prod.mk.injEq] at z1 z2 ⊢
      obtain ⟨a1, a2, a3⟩ := z1
      obtain ⟨b1, b2, b3⟩ := z2
      simp only [List.length_cons, Nat.add_mul, Nat.one_mul]
      omega

theorem forEach_error {σ α : Type} (body : σ → α → Except BuildError σ)
    (Q : BuildError → Prop) (hbody : ∀ s x err, body s x = .error err → Q err) :
    ∀ (l : List α) (s : σ) (err : BuildError), forEach body s l = .error err → Q err
  | [], s, err, h => by simp [forEach] at h
  | x :: xs, s, err, h => by
    simp only [forEach] at h
    cases hb : body s x with
    | error err1 =>
      rw [hb] at h
      cases h
      exact hbody s x err hb
    | ok s2 =>
      rw [hb] at h
      exact forEach_error body Q hbody xs s2 err h

theorem forEach_addBond_ok {K : Constant} {l : List XMLBond} {s s1 : ForceState}
    (h : forEach (addBond K) s l = .ok s1) :
    s1.core = s.core ∧ s1.factors = s.factors ∧
      s1.sizes = (s.topo.bonds.length + l.length, s.topo.angles.length,
        s.topo.dihedrals.length) := by
  have := forEach_force_ok (addBond K) 1 0 0
    (fun s x s1 hb => by simpa using addBond_ok hb) l s s1 h
  simpa using this

theorem forEach_addAngle_ok {K : Constant} {l : List XMLAngle} {s s1 : ForceState}
    (h : forEach (addAngle K) s l = .ok s1) :
    s1.core = s.core ∧ s1.factors = s.factors ∧
      s1.sizes = (s.topo.bonds.length, s.topo.angles.length + l.length,
        s.topo.dihedrals.length) := by
  have := forEach_force_ok (addAngle K) 0 1 0
    (fun s x s1 hb => by simpa using addAngle_ok hb) l s s1 h
  simpa using this

theorem forEach_addTorsion_ok {K : Constant} {l : List XMLTorsion} {s s1 : ForceState}
    (h : forEach (addTorsion K) s l = .ok s1) :
    s1.core = s.core ∧ s1.factors = s.factors ∧
      s1.sizes = (s.topo.bonds.length, s.topo.angles.length,
        s.topo.dihedrals.length + l.length) := by
  have := forEach_force_ok (addTorsion K) 0 0 1
    (fun s x s1 hb => by simpa using addTorsion_ok hb) l s s1 h
  simpa using this

theorem forEach_addGBSAParticle_ok {K : Constant} {n : Nat} {l : List XMLGBSAParticle}
    {s s1 : ForceState} (h : forEach (addGBSAParticle K n) s l = .ok s1) :
    s1.core = s.core ∧ s1.factors = s.factors ∧ s1.sizes = s.sizes := by
  have := forEach_force_ok (addGBSAParticle K n) 0 0 0
    (fun s x s1 hb => by simpa [ForceState.sizes] using addGBSAParticle_ok hb) l s s1 h
  simpa [ForceState.sizes] using this

theorem addExceptions_ok {K : Constant} {st st1 : ForceState} {c : Int}
    {l : List XMLException} (h : addExceptions K st c l = .ok st1) :
    st1.core = st.core ∧ st1.sizes = st.sizes ∧ c = (l.length : Int) := by
  unfold addExceptions at h
  split at h
  · cases h
  · rename_i acc hacc
    simp only [] at h
    split at h
    · cases h
    · rename_i hc
      cases h
      have := forEach_addException_lcount l _ acc hacc
      simp only [ne_eq, not_not] at hc
      refine ⟨rfl, rfl, ?_⟩
      rw [← hc, this]
      simp

theorem addGBSA_ok {K : Constant} {n : Nat} {st st1 : ForceState} {c : Int}
    {l : List XMLGBSAParticle} (h : addGBSA K n st c l = .ok st1) :
    st1.core = st.core ∧ st1.factors = st.factors ∧ st1.sizes = st.sizes ∧
      toUnsigned c = n := by
  unfold addGBSA at h
  simp only [] at h
  split at h
  · cases h
  · rename_i hc
    simp only [ne_eq, not_not] at hc
    obtain ⟨h1, h2, h3⟩ := forEach_addGBSAParticle_ok h
    refine ⟨?_, ?_, ?_, hc⟩
    · rw [h1]; split <;> rfl
    · rw [h2]; split <;> rfl
    · rw [h3]; split <;> rfl

/-- A pass of the force loop that ends without error has passed its count
test; it leaves atoms and atom types as they were and only adds records. -/
theorem processForce_ok {K : Constant} {n : Nat} {st st1 : ForceState} {f : XMLForce}
    (h : processForce K n st f = .ok st1) :
    st1.core = st.core ∧
      st1.sizes = (st.topo.bonds.length + f.numBonds, st.topo.angles.length + f.numAngles,
        st.topo.dihedrals.length + f.numTorsions) ∧
      (f.isNonbonded = false → st1.factors = st.factors) ∧
      ¬ ForceMismatch n st.topo.bonds.length st.topo.angles.length
        st.topo.dihedrals.length f := by
  cases f with
  | NonbondedForce pc ps c es =>
    simp only [processForce] at h
    obtain ⟨h1, h2, h3⟩ := addExceptions_ok h
    refine ⟨h1, ?_, by simp [XMLForce.isNonbonded], by simp [ForceMismatch, h3]⟩
    simpa [XMLForce.numBonds, XMLForce.numAngles, XMLForce.numTorsions, ForceState.sizes]
      using h2
  | HarmonicBondForce c l =>
    simp only [processForce] at h
    split at h
    · cases h
    · rename_i s2 hs2
      split at h
      · cases h
      · rename_i hc
        cases h
        obtain ⟨h1, h2, h3⟩ := forEach_addBond_ok hs2
        have hb : st1.topo.bonds.length = st.topo.bonds.length + l.length := by
          simpa [ForceState.sizes] using congrArg Prod.fst h3
        simp only [ne_eq, not_not] at hc
        refine ⟨h1, ?_, fun _ => h2, ?_⟩
        · simpa [XMLForce.numBonds, XMLForce.numAngles, XMLForce.numTorsions] using h3
        · simp only [ForceMismatch, ne_eq, not_not]
          rw [← hc, hb]
  | HarmonicAngleForce c l =>
    simp only [processForce] at h
    split at h
    · cases h
    · rename_i s2 hs2
      split at h
      · cases h
      · rename_i hc
        cases h
        obtain ⟨h1, h2, h3⟩ := forEach_addAngle_ok hs2
        have hb : st1.topo.angles.length = st.topo.angles.length + l.length := by
          simpa [ForceState.sizes] using congrArg (fun p => p.2.1) h3
        simp only [ne_eq, not_not] at hc
        refine ⟨h1, ?_, fun _ => h2, ?_⟩
        · simpa [XMLForce.numBonds, XMLForce.numAngles, XMLForce.numTorsions] using h3
        · simp only [ForceMismatch, ne_eq, not_not]
          rw [← hc, hb]
  | PeriodicTorsionForce c l =>
    simp only [processForce] at h
    split at h
    · cases h
    · rename_i s2 hs2
      split at h
      · cases h
      · rename_i hc
        cases h
        obtain ⟨h1, h2, h3⟩ := forEach_addTorsion_ok hs2
        have hb : st1.topo.dihedrals.length = st.topo.dihedrals.length + l.length := by
          simpa [ForceState.sizes] using congrArg (fun p => p.2.2) h3
        simp only [ne_eq, not_not] at hc
        refine ⟨h1, ?_, fun _ => h2, ?_⟩
        · simpa [XMLForce.numBonds, XMLForce.numAngles, XMLForce.numTorsions] using h3
        · simp only [ForceMismatch, ne_eq, not_not]
          rw [← hc, hb]
  | GBSAOBCForce c l =>
    simp only [processForce] at h
    obtain ⟨h1, h2, h3, h4⟩ := addGBSA_ok h
    refine ⟨h1, ?_, fun _ => h2, by simp [ForceMismatch, h4]⟩
    simpa [XMLForce.numBonds, XMLForce.numAngles, XMLForce.numTorsions, ForceState.sizes]
      using h3
  | other =>
    simp only [processForce] at h
    cases h
    exact ⟨rfl, by simp [XMLForce.numBonds, XMLForce.numAngles, XMLForce.numTorsions,
      ForceState.sizes], fun _ => rfl, by simp [ForceMismatch]⟩

theorem forces_ok {K : Constant} {n : Nat} :
    ∀ (l : List XMLForce) (st st1 : ForceState),
      forEach (processForce K n) st l = .ok st1 →
      st1.core = st.core ∧
        st1.sizes = (st.topo.bonds.length + bondChildren l,
          st.topo.angles.length + angleChildren l,
          st.topo.dihedrals.length + torsionChildren l) ∧
        ((∀ f ∈ l, XMLForce.isNonbonded f = false) → st1.factors = st.factors)
  | [], st, st1, h => by
    simp [forEach] at h
    subst h
    simp [ForceState.sizes, bondChildren, angleChildren, torsionChildren]
  | f :: fs, st, st1, h => by
    simp only [forEach] at h
    cases hb : processForce K n st f with
    | error err => rw [hb] at h; cases h
    | ok st2 =>
      rw [hb] at h
      obtain ⟨c1, z1, f1⟩ := forces_ok fs st2 st1 h
      obtain ⟨c2, z2, f2, _⟩ := processForce_ok hb
      refine ⟨c1.trans c2, ?_, ?_⟩
      · simp only [ForceState.sizes, Prod.mk.injEq] at z1 z2 ⊢
        obtain ⟨a1, a2, a3⟩ := z1
        obtain ⟨b1, b2, b3⟩ := z2
        simp only [bondChildren, angleChildren, torsionChildren, List.map_cons,
          List.sum_cons] at a1 a2 a3 ⊢
        omega
      · intro hall
        rw [f1 (fun g hg => hall g (List.mem_cons_of_mem f hg)), f2 (hall f (List.mem_cons_self f fs))]

/-- The force loop stops with an error when a force fails its count test. -/
theorem forces_error_of_mismatch {K : Constant} {n : Nat} (pre : List XMLForce)
    (f : XMLForce) (post : List XMLForce) (st : ForceState)
    (hm : ForceMismatch n (st.topo.bonds.length + bondChildren pre)
      (st.topo.angles.length + angleChildren pre)
      (st.topo.dihedrals.length + torsionChildren pre) f) :
    ∃ err, forEach (processForce K n) st (pre ++ f :: post) = .error err := by
  rw [forEach_append]
  cases hpre : forEach (processForce K n) st pre with
  | error err => exact ⟨err, rfl⟩
  | ok st1 =>
    simp only [forEach]
    obtain ⟨_, z, _⟩ := forces_ok pre st st1 hpre
    simp only [ForceState.sizes, Prod.mk.injEq] at z
    obtain ⟨z1, z2, z3⟩ := z
    cases hf : processForce K n st1 f with
    | error err => exact ⟨err, rfl⟩
    | ok st2 =>
      exfalso
      have := (processForce_ok hf).2.2.2
      rw [z1, z2, z3] at this
      exact this hm

theorem vectorAt_error {α : Type} {v : List α} {i : Int} {err : BuildError}
    (h : vectorAt v i = .error err) : err = .outOfRange := by
  unfold vectorAt at h
  split at h
  · split at h
    · cases h
    · cases h; rfl
  · cases h; rfl

theorem pushMybond_error {atoms : List Atom} {i : Int} {b : Nat} {err : BuildError}
    (h : pushMybond atoms i b = .error err) : err = .outOfRange := by
  unfold pushMybond at h
  split at h
  · rename_i e he
    cases h
    exact vectorAt_error he
  · cases h

theorem addBond_error {K : Constant} {st : ForceState} {x : XMLBond} {err : BuildError}
    (h : addBond K st x = .error err) : err = .outOfRange := by
  unfold addBond at h
  simp only [] at h
  split at h
  · rename_i e he
    cases h
    exact pushMybond_error he
  · split at h
    · rename_i e he
      cases h
      exact pushMybond_error he
    · cases h

theorem calcEpsilon_error {K : Constant} {topo : GenericTopology} {p1 p2 : Int}
    {err : BuildError} (h : calcEpsilon K topo p1 p2 = .error err) : err = .outOfRange := by
  unfold calcEpsilon at h
  split at h
  · rename_i e he; cases h; exact vectorAt_error he
  · split at h
    · rename_i e he; cases h; exact vectorAt_error he
    · split at h
      · rename_i e he; cases h; exact vectorAt_error he
      · split at h
        · rename_i e he; cases h; exact vectorAt_error he
        · cases h

theorem calcCharge_error {K : Constant} {topo : GenericTopology} {p1 p2 : Int}
    {err : BuildError} (h : calcCharge K topo p1 p2 = .error err) : err = .outOfRange := by
  unfold calcCharge at h
  split at h
  · rename_i e he; cases h; exact vectorAt_error he
  · split at h
    · rename_i e he; cases h; exact vectorAt_error he
    · cases h

theorem addException_error {K : Constant} {topo : GenericTopology} {acc : ExceptionAcc}
    {x : XMLException} {err : BuildError}
    (h : addException K topo acc x = .error err) : err = .outOfRange := by
  unfold addException at h
  simp only [] at h
  split at h
  · rename_i e he; cases h; exact calcEpsilon_error he
  · split at h
    · split at h
      · rename_i e he; cases h; exact calcCharge_error he
      · split at h <;> cases h
    · cases h

theorem addGBSAParticle_error {K : Constant} {n : Nat} {st : ForceState}
    {x : XMLGBSAParticle} {err : BuildError}
    (h : addGBSAParticle K n st x = .error err) :
    err = .gbsaBounds ∨ err = .outOfRange := by
  unfold addGBSAParticle at h
  simp only [] at h
  split at h
  · cases h; exact Or.inl rfl
  · split at h
    · rename_i e he; cases h; exact Or.inr (vectorAt_error he)
    · cases h

/-- A pass of the force loop whose bonds, angles or torsions count agrees
with the size of the vector raises none of the running-count errors. -/
theorem processForce_error_kind {K : Constant} {n : Nat} {st : ForceState} {f : XMLForce}
    {err : BuildError}
    (ha : ForceAgrees st.topo.bonds.length st.topo.angles.length st.topo.dihedrals.length f)
    (h : processForce K n st f = .error err) : err.isRunningCount = false := by
  cases f with
  | NonbondedForce pc ps c es =>
    simp only [processForce, addExceptions] at h
    split at h
    · rename_i e he
      cases h
      rw [forEach_error _ (fun e => e = BuildError.outOfRange)
        (fun _ _ _ hb => addException_error hb) _ _ _ he]
      rfl
    · split at h
      · cases h; rfl
      · cases h
  | HarmonicBondForce c l =>
    simp only [processForce] at h
    split at h
    · rename_i e he
      cases h
      rw [forEach_error _ (fun e => e = BuildError.outOfRange)
        (fun _ _ _ hb => addBond_error hb) _ _ _ he]
      rfl
    · rename_i s2 hs2
      split at h
      · rename_i hc
        exfalso
        obtain ⟨_, _, h3⟩ := forEach_addBond_ok hs2
        have hb : s2.topo.bonds.length = st.topo.bonds.length + l.length := by
          simpa [ForceState.sizes] using congrArg Prod.fst h3
        apply hc
        rw [hb]
        exact ha.symm
      · cases h
  | HarmonicAngleForce c l =>
    simp only [processForce] at h
    split at h
    · rename_i e he
      cases h
      exact absurd he (by
        intro he
        have := forEach_error (addAngle K) (fun _ => False)
          (fun s x e hb => by simp [addAngle] at hb) _ _ _ he
        exact this)
    · rename_i s2 hs2
      split at h
      · rename_i hc
        exfalso
        obtain ⟨_, _, h3⟩ := forEach_addAngle_ok hs2
        have hb : s2.topo.angles.length = st.topo.angles.length + l.length := by
          simpa [ForceState.sizes] using congrArg (fun p => p.2.1) h3
        apply hc
        rw [hb]
        exact ha.symm
      · cases h
  | PeriodicTorsionForce c l =>
    simp only [processForce] at h
    split at h
    · rename_i e he
      cases h
      exact absurd he (by
        intro he
        have := forEach_error (addTorsion K) (fun _ => False)
          (fun s x e hb => by simp [addTorsion] at hb) _ _ _ he
        exact this)
    · rename_i s2 hs2
      split at h
      · rename_i hc
        exfalso
        obtain ⟨_, _, h3⟩ := forEach_addTorsion_ok hs2
        have hb : s2.topo.dihedrals.length = st.topo.dihedrals.length + l.length := by
          simpa [ForceState.sizes] using congrArg (fun p => p.2.2) h3
        apply hc
        rw [hb]
        exact ha.symm
      · cases h
  | GBSAOBCForce c l =>
    simp only [processForce, addGBSA] at h
    split at h
    · cases h; rfl
    · have := forEach_error (addGBSAParticle K n)
        (fun e => e = BuildError.gbsaBounds ∨ e = BuildError.outOfRange)
        (fun _ _ _ hb => addGBSAParticle_error hb) _ _ _ h
      rcases this with h1 | h1 <;> rw [h1] <;> rfl
  | other =>
    simp only [processForce] at h
    cases h

/-! ## The electrostatics pass -/

theorem readElectrostatics_error_of_mismatch :
    ∀ (pre : List XMLForce) (acc : List electrostatic_index) (f : XMLForce)
      (post : List XMLForce),
      ¬ ParticlesAgree (acc.length + particleChildren pre) f →
      ∃ err, readElectrostatics (pre ++ f :: post) acc = .error err
  | [], acc, f, post, hm => by
    cases f with
    | NonbondedForce pc ps ec es =>
      simp only [ParticlesAgree, particleChildren, List.map_nil, List.sum_nil,
        Nat.add_zero] at hm
      simp only [List.nil_append, readElectrostatics]
      rw [if_pos]
      · exact ⟨_, rfl⟩
      · intro hlen
        apply hm
        rw [← hlen]
        simp
    | HarmonicBondForce c l => exact absurd trivial hm
    | HarmonicAngleForce c l => exact absurd trivial hm
    | PeriodicTorsionForce c l => exact absurd trivial hm
    | GBSAOBCForce c l => exact absurd trivial hm
    | other => exact absurd trivial hm
  | g :: pre, acc, f, post, hm => by
    cases g with
    | NonbondedForce pc ps ec es =>
      simp only [List.cons_append, readElectrostatics]
      split
      · exact ⟨_, rfl⟩
      · apply readElectrostatics_error_of_mismatch pre (acc ++ ps) f post
        simpa [particleChildren, XMLForce.numParticles, Nat.add_assoc] using hm
    | HarmonicBondForce c l =>
      simp only [List.cons_append, readElectrostatics]
      apply readElectrostatics_error_of_mismatch pre acc f post
      simpa [particleChildren, XMLForce.numParticles] using hm
    | HarmonicAngleForce c l =>
      simp only [List.cons_append, readElectrostatics]
      apply readElectrostatics_error_of_mismatch pre acc f post
      simpa [particleChildren, XMLForce.numParticles] using hm
    | PeriodicTorsionForce c l =>
      simp only [List.cons_append, readElectrostatics]
      apply readElectrostatics_error_of_mismatch pre acc f post
      simpa [particleChildren, XMLForce.numParticles] using hm
    | GBSAOBCForce c l =>
      simp only [List.cons_append, readElectrostatics]
      apply readElectrostatics_error_of_mismatch pre acc f post
      simpa [particleChildren, XMLForce.numParticles] using hm
    | other =>
      simp only [List.cons_append, readElectrostatics]
      apply readElectrostatics_error_of_mismatch pre acc f post
      simpa [particleChildren, XMLForce.numParticles] using hm

theorem readElectrostatics_ok_of_agree :
    ∀ (l : List XMLForce) (acc : List electrostatic_index),
      (∀ pre f post, l = pre ++ f :: post →
        ParticlesAgree (acc.length + particleChildren pre) f) →
      ∃ es, readElectrostatics l acc = .ok es
  | [], acc, _ => ⟨acc, by simp [readElectrostatics]⟩
  | g :: rest, acc, h => by
    have hg := h [] g rest rfl
    have hrest : ∀ (acc1 : List electrostatic_index),
        acc1.length = acc.length + g.numParticles →
        ∀ pre f post, rest = pre ++ f :: post →
          ParticlesAgree (acc1.length + particleChildren pre) f := by
      intro acc1 hlen pre f post hdec
      have := h (g :: pre) f post (by rw [hdec]; rfl)
      simpa [particleChildren, hlen, Nat.add_assoc] using this
    cases g with
    | NonbondedForce pc ps ec es =>
      simp only [ParticlesAgree, particleChildren, List.map_nil, List.sum_nil,
        Nat.add_zero] at hg
      simp only [readElectrostatics]
      rw [if_neg]
      · exact readElectrostatics_ok_of_agree rest (acc ++ ps)
          (hrest (acc ++ ps) (by simp [XMLForce.numParticles]))
      · simp [hg]
    | HarmonicBondForce c l =>
      simp only [readElectrostatics]
      exact readElectrostatics_ok_of_agree rest acc (hrest acc (by simp [XMLForce.numParticles]))
    | HarmonicAngleForce c l =>
      simp only [readElectrostatics]
      exact readElectrostatics_ok_of_agree rest acc (hrest acc (by simp [XMLForce.numParticles]))
    | PeriodicTorsionForce c l =>
      simp only [readElectrostatics]
      exact readElectrostatics_ok_of_agree rest acc (hrest acc (by simp [XMLForce.numParticles]))
    | GBSAOBCForce c l =>
      simp only [readElectrostatics]
      exact readElectrostatics_ok_of_agree rest acc (hrest acc (by simp [XMLForce.numParticles]))
    | other =>
      simp only [readElectrostatics]
      exact readElectrostatics_ok_of_agree rest acc (hrest acc (by simp [XMLForce.numParticles]))

/-! ## Errors of the atom loop and of the force loop -/

theorem updateType_error {K : Constant} {masses : List mass_index} {a : PDBAtom}
    {e : electrostatic_index} {atype : Nat} {t : AtomType} {err : BuildError}
    (h : updateType K masses a e atype t = .error err) : err.isRunningCount = false := by
  unfold updateType at h
  split at h
  · split at h
    · cases h; rfl
    · cases h
  · split at h
    · cases h; rfl
    · split at h
      · cases h; rfl
      · cases h

theorem addAtom_error {K : Constant} {masses : List mass_index}
    {electrostatics : List electrostatic_index} {topo : GenericTopology}
    {i : Nat} {a : PDBAtom} {err : BuildError}
    (h : addAtom K masses electrostatics topo i a = .error err) :
    err.isRunningCount = false := by
  unfold addAtom at h
  simp only [] at h
  split at h
  · cases h; rfl
  · split at h
    · rename_i e he
      cases h
      exact updateType_error he
    · split at h
      · cases h; rfl
      · cases h

theorem addAtoms_error {K : Constant} {masses : List mass_index}
    {electrostatics : List electrostatic_index} :
    ∀ (rest : List PDBAtom) (topo : GenericTopology) (i : Nat) (err : BuildError),
      addAtoms K masses electrostatics topo i rest = .error err →
      err.isRunningCount = false
  | [], topo, i, err, h => by simp [addAtoms] at h
  | a :: rest, topo, i, err, h => by
    simp only [addAtoms] at h
    cases ha : addAtom K masses electrostatics topo i a with
    | error e =>
      rw [ha] at h
      cases h
      exact addAtom_error ha
    | ok topo2 =>
      rw [ha] at h
      exact addAtoms_error rest topo2 (i + 1) err h

theorem forces_error_kind {K : Constant} {n : Nat} :
    ∀ (l : List XMLForce) (st : ForceState) (err : BuildError),
      (∀ pre f post, l = pre ++ f :: post →
        ForceAgrees (st.topo.bonds.length + bondChildren pre)
          (st.topo.angles.length + angleChildren pre)
          (st.topo.dihedrals.length + torsionChildren pre) f) →
      forEach (processForce K n) st l = .error err → err.isRunningCount = false
  | [], st, err, _, h => by simp [forEach] at h
  | g :: rest, st, err, hagree, h => by
    simp only [forEach] at h
    cases hg : processForce K n st g with
    | error e =>
      rw [hg] at h
      cases h
      have := hagree [] g rest rfl
      simp only [bondChildren, angleChildren, torsionChildren, List.map_nil, List.sum_nil,
        Nat.add_zero] at this
      exact processForce_error_kind this hg
    | ok st2 =>
      rw [hg] at h
      obtain ⟨_, z, _, _⟩ := processForce_ok hg
      simp only [ForceState.sizes, Prod.mk.injEq] at z
      obtain ⟨z1, z2, z3⟩ := z
      apply forces_error_kind rest st2 err _ h
      intro pre f post hdec
      have := hagree (g :: pre) f post (by rw [hdec]; rfl)
      simpa [bondChildren, angleChildren, torsionChildren, z1, z2, z3, Nat.add_assoc]
        using this

/-! ## Heavy-atom group size: theorems -/

theorem charAt_mem (name : Str) (pos : Nat) (h : pos < name.length) :
    charAt name pos ∈ name := by
  unfold charAt
  rw [List.getD_eq_getElem name _ h]
  exact List.getElem_mem h

theorem hvyLoop_of_no_H (name : Str) (hname : 'H' ∉ name) :
    ∀ (fuel pos : Nat) (hvy : Int), name.length - pos < fuel →
      hvyLoop name fuel pos hvy = some hvy := by
  intro fuel
  induction fuel with
  | zero => intro pos hvy h; omega
  | succ fuel ih =>
    intro pos hvy h
    unfold hvyLoop
    by_cases hpos : pos < name.length
    · have hne : charAt name pos ≠ 'H' := by
        intro heq
        exact hname (heq ▸ charAt_mem name pos hpos)
      simp only [hpos, hne, if_true, if_false]
      exact ih (pos + 1) hvy (by omega)
    · simp only [hpos, if_false]

/-- C5: on the name "HH1" the scan of lines 312-320 returns 2: after the
first 'H' the loop steps over the character that ended the (empty) digit run,
so the second 'H' is never examined. -/
theorem hvyAtom_HH1 : hvyAtom "HH1".toList = some 2 := by decide

/-- C6: the name "H" gives 0, every name without the character 'H' gives 1
(so does "CA"), and "HB2" gives 2. -/
theorem hvyAtom_base_cases :
    hvyAtom "H".toList = some 0 ∧
    (∀ name : Str, 'H' ∉ name → hvyAtom name = some 1) ∧
    hvyAtom "CA".toList = some 1 ∧
    hvyAtom "HB2".toList = some 2 := by
  refine ⟨by decide, ?_, by decide, by decide⟩
  intro name hname
  have hne : name ≠ ['H'] := by
    intro h
    exact hname (by simp [h])
  unfold hvyAtom
  rw [if_neg hne]
  exact hvyLoop_of_no_H name hname (name.length + 1) 0 1 (by omega)

theorem hvyAtom_base_cases_witness :
    'H' ∉ "CYS".toList ∧ hvyAtom "CYS".toList = some 1 :=
  ⟨by decide, hvyAtom_base_cases.2.1 "CYS".toList (by decide)⟩

/-! ## The build as a whole -/

theorem addAtoms_initial {K : Constant} {masses : List mass_index}
    {electrostatics : List electrostatic_index} {atoms : List PDBAtom}
    {topo0 : GenericTopology}
    (h : addAtoms K masses electrostatics {} 0 atoms = .ok topo0) :
    topo0.atoms.length = atoms.length ∧ topo0.bonds = [] ∧ topo0.angles = [] ∧
      topo0.dihedrals = [] ∧
      topo0.atoms.map (fun x => x.atomNum) = (List.range atoms.length).map Int.ofNat ∧
      atoms.map (fun x => x.elementNum - 1) = (List.range atoms.length).map Int.ofNat := by
  obtain ⟨new, types, h1, h2, h3⟩ := addAtoms_ok atoms {} topo0 0 h
  have hlen : new.length = atoms.length := by
    simpa using congrArg List.length h2
  subst h1
  refine ⟨by simpa using hlen, rfl, rfl, rfl, ?_, ?_⟩
  · simpa [List.range_eq_range'] using h2
  · simpa [List.range_eq_range'] using h3

/-- A successful run of everything before the Lennard-Jones table keeps the
atoms that the atom loop made. -/
theorem buildForces_ok {K : Constant} {doc : XMLDocument} {atoms : List PDBAtom}
    {st : ForceState} (h : buildForces K doc atoms = .ok st) :
    ∃ electrostatics topo0,
      readElectrostatics doc.forces [] = .ok electrostatics ∧
      addAtoms K doc.masses electrostatics {} 0 atoms = .ok topo0 ∧
      forEach (processForce K (topo0.atoms.length % 4294967296))
        { topo := { topo0 with
                    coulombScalingFactor := Scalar.fin (6059 / 10000)
                    LJScalingFactor := Scalar.fin (1 / 2) } } doc.forces = .ok st := by
  unfold buildForces at h
  split at h
  · cases h
  · rename_i es hes
    split at h
    · cases h
    · rename_i topo0 htopo
      exact ⟨es, topo0, hes, htopo, h⟩

/-- A force whose container fails the count test the builder applies makes
the build fail.  The test compares the declared count of a bonds, angles,
torsions or `NonbondedForce` particles container with the size of the vector
the records are appended to, the count of an exceptions container with its
own number of children, and the count of a `GBSAOBCForce` particles
container with the number of atoms. -/
theorem count_test_fails (K : Constant) (doc : XMLDocument) (atoms : List PDBAtom)
    (pre : List XMLForce) (f : XMLForce) (post : List XMLForce)
    (hdoc : doc.forces = pre ++ f :: post)
    (hm : CountMismatch (atoms.length % 4294967296) pre f) :
    ∃ err, buildTopologyFromXML K doc atoms = .error err := by
  cases hb : buildTopologyFromXML K doc atoms with
  | error err => exact ⟨err, rfl⟩
  | ok topo =>
    exfalso
    unfold buildTopologyFromXML at hb
    split at hb
    · cases hb
    · rename_i st hst
      obtain ⟨es, topo0, hes, htopo, hloop⟩ := buildForces_ok hst
      obtain ⟨hlen, hb0, ha0, hd0, _, _⟩ := addAtoms_initial htopo
      have hpart : ParticlesAgree (particleChildren pre) f := by
        by_contra hp
        obtain ⟨err, herr⟩ := readElectrostatics_error_of_mismatch pre [] f post
          (by simpa using hp)
        rw [← hdoc, hes] at herr
        cases herr
      have hforce : ForceMismatch (atoms.length % 4294967296) (bondChildren pre)
          (angleChildren pre) (torsionChildren pre) f := by
        cases f with
        | NonbondedForce pc ps ec es1 =>
          rcases hm with hm | hm
          · exact absurd hpart hm
          · exact hm
        | HarmonicBondForce c l => exact hm
        | HarmonicAngleForce c l => exact hm
        | PeriodicTorsionForce c l => exact hm
        | GBSAOBCForce c l => exact hm
        | other => exact hm
      rw [hdoc, hlen] at hloop
      obtain ⟨err, herr⟩ := forces_error_of_mismatch (K := K) pre f post
        { topo := { topo0 with
                    coulombScalingFactor := Scalar.fin (6059 / 10000)
                    LJScalingFactor := Scalar.fin (1 / 2) } }
        (by simpa [hb0, ha0, hd0] using hforce)
      rw [hloop] at herr
      cases herr

/-- When every bonds, angles, torsions and `NonbondedForce` particles
container declares the size its vector has once the container is read, the
build ends with none of the four count errors of these containers. -/
theorem running_counts_accepted (K : Constant) (doc : XMLDocument) (atoms : List PDBAtom)
    (hagree : ∀ pre f post, doc.forces = pre ++ f :: post → RunningCountAgrees pre f)
    (err : BuildError) (h : buildTopologyFromXML K doc atoms = .error err) :
    err.isRunningCount = false := by
  have hpart : ∀ pre f post, doc.forces = pre ++ f :: post →
      ParticlesAgree (([] : List electrostatic_index).length + particleChildren pre) f := by
    intro pre f post hdec
    have := hagree pre f post hdec
    cases f <;> simp_all [RunningCountAgrees, ParticlesAgree]
  have hforce : ∀ pre f post, doc.forces = pre ++ f :: post →
      ForceAgrees (bondChildren pre) (angleChildren pre) (torsionChildren pre) f := by
    intro pre f post hdec
    have := hagree pre f post hdec
    cases f <;> simp_all [RunningCountAgrees, ForceAgrees]
  obtain ⟨es, hes⟩ := readElectrostatics_ok_of_agree doc.forces [] hpart
  unfold buildTopologyFromXML buildForces at h
  rw [hes] at h
  simp only [] at h
  cases htopo : addAtoms K doc.masses es {} 0 atoms with
  | error e =>
    rw [htopo] at h
    cases h
    exact addAtoms_error _ _ _ _ htopo
  | ok topo0 =>
    rw [htopo] at h
    simp only [] at h
    obtain ⟨_, hb0, ha0, hd0, _, _⟩ := addAtoms_initial htopo
    split at h
    · rename_i e he
      cases h
      refine forces_error_kind doc.forces _ _ ?_ he
      intro pre f post hdec
      simpa [hb0, ha0, hd0] using hforce pre f post hdec
    · cases h

/-- C9: an exceptions container whose count differs from its number of
children makes the build fail, and the failure occurs in the part of the
builder that precedes the Lennard-Jones table. -/
theorem exceptions_container_rejected (K : Constant) (doc : XMLDocument)
    (atoms : List PDBAtom) (pre : List XMLForce) (particlesCount : Int)
    (particles : List electrostatic_index) (exceptionsCount : Int)
    (exceptions : List XMLException) (post : List XMLForce)
    (hdoc : doc.forces =
      pre ++ XMLForce.NonbondedForce particlesCount particles exceptionsCount exceptions :: post)
    (hne : exceptionsCount ≠ (exceptions.length : Int)) :
    ∃ err, buildForces K doc atoms = .error err ∧
      buildTopologyFromXML K doc atoms = .error err := by
  cases hst : buildForces K doc atoms with
  | error err => exact ⟨err, rfl, by simp [buildTopologyFromXML, hst]⟩
  | ok st =>
    exfalso
    obtain ⟨es, topo0, hes, htopo, hloop⟩ := buildForces_ok hst
    rw [hdoc] at hloop
    obtain ⟨err, herr⟩ := forces_error_of_mismatch (K := K)
      (n := topo0.atoms.length % 4294967296) pre
      (XMLForce.NonbondedForce particlesCount particles exceptionsCount exceptions) post
      { topo := { topo0 with
                  coulombScalingFactor := Scalar.fin (6059 / 10000)
                  LJScalingFactor := Scalar.fin (1 / 2) } } hne
    rw [hloop] at herr
    cases herr

/-- C10: a successful build has one atom per input record, the atom at
position `i` has `atomNum = i`, and an input with a record at some position
`i` whose `elementNum - 1` is not `i` makes the build fail. -/
theorem atoms_sequential (K : Constant) (doc : XMLDocument) (atoms : List PDBAtom) :
    (∀ topo, buildTopologyFromXML K doc atoms = .ok topo →
      topo.atoms.length = atoms.length ∧
      ∀ (i : Nat) (hi : i < topo.atoms.length), topo.atoms[i].atomNum = (i : Int)) ∧
    ((∃ (i : Nat) (hi : i < atoms.length), atoms[i].elementNum - 1 ≠ (i : Int)) →
      ∃ err, buildTopologyFromXML K doc atoms = .error err) := by
  have key : ∀ topo, buildTopologyFromXML K doc atoms = .ok topo →
      topo.atoms.map (fun x => x.atomNum) = (List.range atoms.length).map Int.ofNat ∧
      atoms.map (fun x => x.elementNum - 1) = (List.range atoms.length).map Int.ofNat := by
    intro topo hb
    unfold buildTopologyFromXML at hb
    split at hb
    · cases hb
    · rename_i st hst
      cases hb
      obtain ⟨es, topo0, hes, htopo, hloop⟩ := buildForces_ok hst
      obtain ⟨_, _, _, _, hnum, hel⟩ := addAtoms_initial htopo
      obtain ⟨hcore, _, _⟩ := forces_ok _ _ _ hloop
      have hfixed : st.topo.atoms.map Atom.fixed = topo0.atoms.map Atom.fixed := by
        simpa [ForceState.core] using congrArg Prod.snd hcore
      have hmap : st.topo.atoms.map (fun x => x.atomNum) =
          topo0.atoms.map (fun x => x.atomNum) := by
        have := congrArg (List.map (fun p : Str × Nat × Str × Int × ℚ × ℚ × Int × Int =>
          p.2.2.2.2.2.2.2)) hfixed
        simpa [List.map_map, Function.comp_def, Atom.fixed] using this
      exact ⟨hmap.trans hnum, hel⟩
  constructor
  · intro topo hb
    obtain ⟨hnum, _⟩ := key topo hb
    have hlen : topo.atoms.length = atoms.length := by
      simpa using congrArg List.length hnum
    refine ⟨hlen, ?_⟩
    intro i hi
    have h1 : (topo.atoms.map (fun x => x.atomNum))[i]? = some (topo.atoms[i].atomNum) := by
      simp [List.getElem?_eq_getElem hi]
    rw [hnum] at h1
    have hi2 : i < atoms.length := hlen ▸ hi
    simp [List.getElem?_eq_getElem, hi2] at h1
    exact h1.symm
  · rintro ⟨i, hi, hne⟩
    cases hb : buildTopologyFromXML K doc atoms with
    | error err => exact ⟨err, rfl⟩
    | ok topo =>
      exfalso
      obtain ⟨_, hel⟩ := key topo hb
      have h1 : (atoms.map (fun x => x.elementNum - 1))[i]? = some (atoms[i].elementNum - 1) := by
        simp [List.getElem?_eq_getElem hi]
      rw [hel] at h1
      simp [List.getElem?_eq_getElem, hi] at h1
      exact hne h1.symm

/-- C7 (amended): the build fails when a bonds, angles, torsions or
`NonbondedForce` particles container that is the first of its kind to hold
children declares a count different from the number of its children, when
an exceptions container declares a count different from the number of its
children, and when a `GBSAOBCForce` particles container declares a count
different from the number of atoms. -/
theorem count_mismatch_fails (K : Constant) (doc : XMLDocument) (atoms : List PDBAtom)
    (pre : List XMLForce) (f : XMLForce) (post : List XMLForce)
    (hdoc : doc.forces = pre ++ f :: post)
    (hm : OwnCountMismatch (atoms.length % 4294967296) pre f) :
    ∃ err, buildTopologyFromXML K doc atoms = .error err := by
  apply count_test_fails K doc atoms pre f post hdoc
  cases f with
  | NonbondedForce pc ps ec es =>
    rcases hm with ⟨h0, hne⟩ | hne
    · exact Or.inl (by simpa [h0] using hne)
    · exact Or.inr hne
  | HarmonicBondForce c l =>
    obtain ⟨h0, hne⟩ := hm
    simpa [CountMismatch, h0] using hne
  | HarmonicAngleForce c l =>
    obtain ⟨h0, hne⟩ := hm
    simpa [CountMismatch, h0] using hne
  | PeriodicTorsionForce c l =>
    obtain ⟨h0, hne⟩ := hm
    simpa [CountMismatch, h0] using hne
  | GBSAOBCForce c l => exact hm
  | other => exact hm

theorem count_mismatch_fails_witness :
    OwnCountMismatch (atomsTwo.length % 4294967296) [nonbondedTwo]
        (.HarmonicBondForce 2 [bondZeroOne]) ∧
      ∃ err, buildTopologyFromXML sampleConstant docBondsShort atomsTwo = .error err :=
  ⟨by simp [OwnCountMismatch, bondChildren, nonbondedTwo, XMLForce.numBonds],
    count_mismatch_fails sampleConstant docBondsShort atomsTwo [nonbondedTwo]
      (.HarmonicBondForce 2 [bondZeroOne]) [] rfl
      (by simp [OwnCountMismatch, bondChildren, nonbondedTwo, XMLForce.numBonds])⟩

/-- C7, counterexample: a `GBSAOBCForce` particles container that declares
one particle and holds two children is accepted; the build succeeds. -/
theorem gbsa_children_not_counted :
    XMLForce.GBSAOBCForce 1 [⟨0, 3 / 20, 4 / 5⟩, ⟨0, 3 / 20, 4 / 5⟩] ∈
        docGBSATwoChildren.forces ∧
      (1 : Int) ≠ (([⟨0, 3 / 20, 4 / 5⟩, ⟨0, 3 / 20, 4 / 5⟩] : List XMLGBSAParticle).length : Int) ∧
      (buildTopologyFromXML sampleConstant docGBSATwoChildren atomsOne).isOk = true := by
  decide!

/-- C8: with two `HarmonicBondForce` blocks that each declare their own
single bond, the build stops with the bond count error. -/
theorem two_bond_blocks_rejected :
    docTwoBondBlocks.forces.all XMLForce.ownCountAgrees = true ∧
      buildTopologyFromXML sampleConstant docTwoBondBlocks atomsTwo = .error .bondsCount := by
  decide!

theorem running_counts_accepted_example :
    (∀ pre f post, docRunningCounts.forces = pre ++ f :: post → RunningCountAgrees pre f) ∧
      buildTopologyFromXML sampleConstant docRunningCounts atomsTwo = .error .exceptionsCount ∧
      BuildError.exceptionsCount.isRunningCount = false :=
  have hagree : ∀ pre f post, docRunningCounts.forces = pre ++ f :: post →
      RunningCountAgrees pre f := by
    intro pre f post h
    rcases pre with _ | ⟨a, _ | ⟨b, _ | ⟨c, pre⟩⟩⟩
    · simp only [docRunningCounts, List.nil_append, List.cons.injEq] at h
      obtain ⟨rfl, _⟩ := h
      simp [RunningCountAgrees, particleChildren]
    · simp only [docRunningCounts, List.cons_append, List.nil_append, List.cons.injEq] at h
      obtain ⟨rfl, rfl, _⟩ := h
      simp [RunningCountAgrees, bondChildren, XMLForce.numBonds]
    · simp only [docRunningCounts, List.cons_append, List.nil_append, List.cons.injEq] at h
      obtain ⟨rfl, rfl, rfl, _⟩ := h
      simp [RunningCountAgrees, bondChildren, XMLForce.numBonds]
    · simp [docRunningCounts] at h
  ⟨hagree, by decide!,
    running_counts_accepted sampleConstant docRunningCounts atomsTwo hagree _ (by decide!)⟩

theorem exceptions_container_rejected_witness :
    (2 : Int) ≠ (([⟨0, 1, -1 / 8, 1, 3 / 20⟩] : List XMLException).length : Int) ∧
      ∃ err, buildForces sampleConstant docExceptionsShort atomsTwo = .error err ∧
        buildTopologyFromXML sampleConstant docExceptionsShort atomsTwo = .error err :=
  ⟨by decide,
    exceptions_container_rejected sampleConstant docExceptionsShort atomsTwo [] 2
      [⟨0, 1 / 2, 1, 1 / 10⟩, ⟨1, -1 / 2, 4, 1 / 5⟩] 2 [⟨0, 1, -1 / 8, 1, 3 / 20⟩] [] rfl
      (by decide)⟩

theorem atoms_sequential_witness :
    (∃ topo, buildTopologyFromXML sampleConstant docPlain atomsTwo = .ok topo ∧
      topo.atoms.length = atomsTwo.length ∧
      ∀ (i : Nat) (hi : i < topo.atoms.length), topo.atoms[i].atomNum = (i : Int)) ∧
    ((∃ (i : Nat) (hi : i < atomsOutOfSequence.length),
        atomsOutOfSequence[i].elementNum - 1 ≠ (i : Int)) ∧
      ∃ err, buildTopologyFromXML sampleConstant docPlain atomsOutOfSequence = .error err) :=
  ⟨match hb : buildTopologyFromXML sampleConstant docPlain atomsTwo with
    | .ok topo => ⟨topo, rfl,
        (atoms_sequential sampleConstant docPlain atomsTwo).1 topo hb⟩
    | .error err => absurd (show (buildTopologyFromXML sampleConstant docPlain atomsTwo).isOk = true
        by decide!) (by rw [hb]; simp [Except.isOk, Except.toBool]),
   ⟨⟨0, by decide, by decide⟩,
    (atoms_sequential sampleConstant docPlain atomsOutOfSequence).2 ⟨0, by decide, by decide⟩⟩⟩

/-! ## Exceptions -/

theorem vectorAt_eq_getD {α : Type} {v : List α} {i : Int} {x : α} (d : α)
    (h : vectorAt v i = .ok x) : v.getD i.toNat d = x := by
  have := (vectorAt_ok h).2
  simp [List.getD_eq_getElem?_getD, this]

theorem calcEpsilon_eq {K : Constant} {topo : GenericTopology} {x : XMLException}
    {ce : Scalar} (h : calcEpsilon K topo x.particle1 x.particle2 = .ok ce) :
    ce = expectedEpsilon K topo x := by
  unfold calcEpsilon at h
  split at h
  · cases h
  · rename_i a1 h1
    split at h
    · cases h
    · rename_i t1 ht1
      split at h
      · cases h
      · rename_i a2 h2
        split at h
        · cases h
        · rename_i t2 ht2
          cases h
          have e1 := vectorAt_eq_getD {} h1
          have e2 := vectorAt_eq_getD {} h2
          have e3 := vectorAt_eq_getD {} ht1
          have e4 := vectorAt_eq_getD {} ht2
          simp only [Int.toNat_ofNat] at e3 e4
          simp only [expectedEpsilon, typeEpsilon, e1, e2, e3, e4]

theorem calcCharge_eq {K : Constant} {topo : GenericTopology} {x : XMLException}
    {cc : Scalar} (h : calcCharge K topo x.particle1 x.particle2 = .ok cc) :
    cc = expectedChargeProd K topo x := by
  unfold calcCharge at h
  split at h
  · cases h
  · rename_i a1 h1
    split at h
    · cases h
    · rename_i a2 h2
      cases h
      have e1 := vectorAt_eq_getD {} h1
      have e2 := vectorAt_eq_getD {} h2
      simp only [expectedChargeProd, atomScaledCharge, e1, e2, mul_one]

theorem calcCharge_ok_of_calcEpsilon {K : Constant} {topo : GenericTopology} {p1 p2 : Int}
    {ce : Scalar} (h : calcEpsilon K topo p1 p2 = .ok ce) :
    ∃ cc, calcCharge K topo p1 p2 = .ok cc := by
  unfold calcEpsilon at h
  split at h
  · cases h
  · rename_i a1 h1
    split at h
    · cases h
    · split at h
      · cases h
      · rename_i a2 h2
        unfold calcCharge
        rw [h1]
        simp only []
        rw [h2]
        exact ⟨_, rfl⟩

theorem neZero_eq_false_iff (s : Scalar) : s.neZero = false ↔ s = Scalar.fin 0 := by
  cases s with
  | fin q => simp [Scalar.neZero]
  | nan => simp [Scalar.neZero]

/-- What one pass of the exception loop does, in terms of the quantities
of the statements. -/
theorem addException_eq {K : Constant} {topo : GenericTopology} {acc : ExceptionAcc}
    {x : XMLException} {ce : Scalar}
    (h : calcEpsilon K topo x.particle1 x.particle2 = .ok ce) :
    addException K topo acc x = .ok
      { exclusions := acc.exclusions ++ [(x.particle1, x.particle2, expectedClass K topo x)]
        qq_ratio := if isValidSample K topo x = true
          then acc.qq_ratio.add (chargeRatio K topo x) else acc.qq_ratio
        lj_ratio := if isValidSample K topo x = true
          then acc.lj_ratio.add (epsilonRatio K topo x) else acc.lj_ratio
        rcount := if isValidSample K topo x = true
          then acc.rcount.add (Scalar.fin 1) else acc.rcount
        lcount := acc.lcount + 1 } := by
  obtain ⟨cc, hcc⟩ := calcCharge_ok_of_calcEpsilon h
  have e1 := calcEpsilon_eq h
  have e2 := calcCharge_eq hcc
  subst e1
  subst e2
  unfold addException
  simp only []
  rw [h]
  simp only []
  by_cases hd : declaredEpsilon K x = 0
  · have hd1 : x.epsilon * K.KJ_KCAL = 0 := hd
    simp [hd1, hd, expectedClass, isValidSample]
  · have hd1 : ¬ x.epsilon * K.KJ_KCAL = 0 := hd
    cases hz : (expectedEpsilon K topo x).neZero with
    | false =>
      have hz1 := (neZero_eq_false_iff _).1 hz
      simp [hd1, hd, hz1, expectedClass, isValidSample, Scalar.neZero]
    | true =>
      have hz1 : ¬ expectedEpsilon K topo x = Scalar.fin 0 := by
        intro h0
        rw [(neZero_eq_false_iff _).2 h0] at hz
        cases hz
      rw [hcc]
      cases hv : (expectedChargeProd K topo x).neZero with
      | false => simp [hd1, hd, hz, hz1, hv, expectedClass, isValidSample]
      | true =>
        simp [hd1, hd, hz, hz1, hv, expectedClass, isValidSample, chargeRatio, epsilonRatio,
          declaredEpsilon]

theorem forEach_addException_eq {K : Constant} {topo : GenericTopology} :
    ∀ (es : List XMLException) (acc : ExceptionAcc),
      (∀ x ∈ es, ∃ ce, calcEpsilon K topo x.particle1 x.particle2 = .ok ce) →
      forEach (addException K topo) acc es = .ok
        { exclusions := acc.exclusions ++
            es.map (fun x => (x.particle1, x.particle2, expectedClass K topo x))
          qq_ratio := ((es.filter (isValidSample K topo)).map (chargeRatio K topo)).foldl
            Scalar.add acc.qq_ratio
          lj_ratio := ((es.filter (isValidSample K topo)).map (epsilonRatio K topo)).foldl
            Scalar.add acc.lj_ratio
          rcount := ((es.filter (isValidSample K topo)).map (fun _ => Scalar.fin 1)).foldl
            Scalar.add acc.rcount
          lcount := acc.lcount + (es.length : Int) }
  | [], acc, _ => by simp [forEach]
  | x :: xs, acc, h => by
    obtain ⟨ce, hce⟩ := h x (List.mem_cons_self x xs)
    simp only [forEach]
    rw [addException_eq hce]
    simp only []
    rw [forEach_addException_eq xs _ (fun y hy => h y (List.mem_cons_of_mem x hy))]
    cases hv : isValidSample K topo x <;>
      simp [hv, List.filter_cons, Int.add_assoc, Int.add_comm 1]

theorem forEach_addException_inRange {K : Constant} {topo : GenericTopology} :
    ∀ (es : List XMLException) (acc acc1 : ExceptionAcc),
      forEach (addException K topo) acc es = .ok acc1 →
      ∀ x ∈ es, ∃ ce, calcEpsilon K topo x.particle1 x.particle2 = .ok ce
  | [], _, _, _ => by simp
  | y :: ys, acc, acc1, h => by
    simp only [forEach] at h
    cases hb : addException K topo acc y with
    | error err => rw [hb] at h; cases h
    | ok acc2 =>
      rw [hb] at h
      have hy : ∃ ce, calcEpsilon K topo y.particle1 y.particle2 = .ok ce := by
        cases hc : calcEpsilon K topo y.particle1 y.particle2 with
        | ok ce => exact ⟨ce, rfl⟩
        | error err =>
          exfalso
          unfold addException at hb
          simp only [] at hb
          rw [hc] at hb
          cases hb
      intro x hx
      rcases List.mem_cons.1 hx with rfl | hx
      · exact hy
      · exact forEach_addException_inRange ys acc2 acc1 h x hx

theorem getD_fixed_of_map_eq {l1 l2 : List Atom}
    (h : l1.map Atom.fixed = l2.map Atom.fixed) (n : Nat) :
    (l1.getD n {}).fixed = (l2.getD n {}).fixed := by
  have h1 : (l1.map Atom.fixed)[n]? = (l2.map Atom.fixed)[n]? := by rw [h]
  simp only [List.getElem?_map] at h1
  simp only [List.getD_eq_getElem?_getD]
  cases h1l : l1[n]? <;> cases h2l : l2[n]? <;> simp_all

theorem expected_of_core {t1 t2 : GenericTopology} (h1 : t1.atomTypes = t2.atomTypes)
    (h2 : t1.atoms.map Atom.fixed = t2.atoms.map Atom.fixed) (K : Constant) :
    expectedEpsilon K t1 = expectedEpsilon K t2 ∧
      expectedChargeProd K t1 = expectedChargeProd K t2 := by
  have key : ∀ n, (t1.atoms.getD n {}).type = (t2.atoms.getD n {}).type ∧
      (t1.atoms.getD n {}).scaledCharge = (t2.atoms.getD n {}).scaledCharge := by
    intro n
    have := getD_fixed_of_map_eq h2 n
    simp only [Atom.fixed, Prod.mk.injEq] at this
    exact ⟨this.2.1, this.2.2.2.2.1⟩
  constructor
  · funext x
    simp only [expectedEpsilon, typeEpsilon, h1, (key _).1]
  · funext x
    simp only [expectedChargeProd, atomScaledCharge, (key _).2]

theorem foldl_add_ones (l : List α) (n : ℚ) :
    (l.map (fun _ => Scalar.fin 1)).foldl Scalar.add (Scalar.fin n) =
      Scalar.fin (n + (l.length : ℚ)) := by
  induction l generalizing n with
  | nil => simp
  | cons x xs ih =>
    simp only [List.map_cons, List.foldl_cons, Scalar.add, List.length_cons]
    rw [ih]
    congr 1
    push_cast
    ring

theorem addExceptions_factors {K : Constant} {st st2 : ForceState} {c : Int}
    {es : List XMLException} (h : addExceptions K st c es = .ok st2) :
    st2.topo.coulombScalingFactor =
        mean ((es.filter (isValidSample K st.topo)).map (chargeRatio K st.topo)) ∧
      st2.topo.LJScalingFactor =
        mean ((es.filter (isValidSample K st.topo)).map (epsilonRatio K st.topo)) := by
  unfold addExceptions at h
  split at h
  · cases h
  · rename_i acc hacc
    simp only [] at h
    split at h
    · cases h
    · cases h
      have hr := forEach_addException_inRange es _ acc hacc
      rw [forEach_addException_eq es _ hr] at hacc
      cases hacc
      simp only [mean, List.length_map]
      rw [foldl_add_ones]
      simp

theorem sample_functions_of_core (t1 t2 : GenericTopology) (h1 : t1.atomTypes = t2.atomTypes)
    (h2 : t1.atoms.map Atom.fixed = t2.atoms.map Atom.fixed) (K : Constant) :
    isValidSample K t1 = isValidSample K t2 ∧ chargeRatio K t1 = chargeRatio K t2 ∧
      epsilonRatio K t1 = epsilonRatio K t2 := by
  obtain ⟨e1, e2⟩ := expected_of_core h1 h2 K
  refine ⟨?_, ?_, ?_⟩
  · funext x
    simp only [isValidSample, e1, e2]
  · funext x
    simp only [chargeRatio, e2]
  · funext x
    simp only [epsilonRatio, e1]

/-- In a successful build of a document with exactly one `NonbondedForce`
both scaling factors are the sums of the ratios over the valid samples
divided by the number of valid samples. -/
theorem factors_eq_mean (K : Constant) (doc : XMLDocument) (atoms : List PDBAtom)
    (topo : GenericTopology) (pre : List XMLForce) (particlesCount : Int)
    (particles : List electrostatic_index) (exceptionsCount : Int)
    (exceptions : List XMLException) (post : List XMLForce)
    (hb : buildTopologyFromXML K doc atoms = .ok topo)
    (hdoc : doc.forces =
      pre ++ XMLForce.NonbondedForce particlesCount particles exceptionsCount exceptions :: post)
    (hone : ∀ f ∈ pre ++ post, XMLForce.isNonbonded f = false) :
    topo.coulombScalingFactor =
        mean ((exceptions.filter (isValidSample K topo)).map (chargeRatio K topo)) ∧
      topo.LJScalingFactor =
        mean ((exceptions.filter (isValidSample K topo)).map (epsilonRatio K topo)) := by
  unfold buildTopologyFromXML at hb
  split at hb
  · cases hb
  · rename_i st hst
    cases hb
    obtain ⟨es, topo0, hes, htopo, hloop⟩ := buildForces_ok hst
    rw [hdoc, forEach_append] at hloop
    split at hloop
    · cases hloop
    · rename_i st1 hpre
      simp only [forEach] at hloop
      split at hloop
      · cases hloop
      · rename_i st2 hnb
        obtain ⟨c3, _, f3⟩ := forces_ok post st2 st hloop
        have f3 := f3 (fun f hf => hone f (List.mem_append_right pre hf))
        obtain ⟨c2, _, _, _⟩ := processForce_ok hnb
        simp only [processForce] at hnb
        obtain ⟨q1, q2⟩ := addExceptions_factors hnb
        have hcore : st.core = st1.core := c3.trans c2
        simp only [ForceState.core, Prod.mk.injEq] at hcore
        obtain ⟨s1, s2, s3⟩ := sample_functions_of_core
          { st.topo with
            lennardJonesParameters := lennardJonesCalls K st.topo st.topo.atomTypes.length }
          st1.topo hcore.1 hcore.2 K
        simp only [ForceState.factors, Prod.mk.injEq] at f3
        rw [s1, s2, s3]
        exact ⟨f3.1.trans q1, f3.2.trans q2⟩

/-- In a successful build of a document with exactly one `NonbondedForce`
none of whose exception entries is a valid sample, both scaling factors are
the quotient 0 / 0. -/
theorem factors_nan_of_no_sample (K : Constant) (doc : XMLDocument) (atoms : List PDBAtom)
    (topo : GenericTopology) (pre : List XMLForce) (particlesCount : Int)
    (particles : List electrostatic_index) (exceptionsCount : Int)
    (exceptions : List XMLException) (post : List XMLForce)
    (hb : buildTopologyFromXML K doc atoms = .ok topo)
    (hdoc : doc.forces =
      pre ++ XMLForce.NonbondedForce particlesCount particles exceptionsCount exceptions :: post)
    (hone : ∀ f ∈ pre ++ post, XMLForce.isNonbonded f = false)
    (hnone : ∀ x ∈ exceptions, isValidSample K topo x = false) :
    topo.coulombScalingFactor = Scalar.nan ∧ topo.LJScalingFactor = Scalar.nan := by
  obtain ⟨h1, h2⟩ := factors_eq_mean K doc atoms topo pre particlesCount particles
    exceptionsCount exceptions post hb hdoc hone
  have hfilter : exceptions.filter (isValidSample K topo) = [] := by
    rw [List.filter_eq_nil_iff]
    intro x hx
    simp [hnone x hx]
  rw [h1, h2, hfilter]
  simp [mean, Scalar.div]

/-- C3: in a successful build of a document with exactly one
`NonbondedForce` that has at least one valid sample among its exception
entries, the number of valid samples is positive, `coulombScalingFactor` is
the arithmetic mean over the valid samples of declared over expected charge
product and `LJScalingFactor` the arithmetic mean over the same samples of
declared over expected epsilon (in exact arithmetic). -/
theorem scaling_factors_are_means (K : Constant) (doc : XMLDocument) (atoms : List PDBAtom)
    (topo : GenericTopology) (pre : List XMLForce) (particlesCount : Int)
    (particles : List electrostatic_index) (exceptionsCount : Int)
    (exceptions : List XMLException) (post : List XMLForce)
    (hb : buildTopologyFromXML K doc atoms = .ok topo)
    (hdoc : doc.forces =
      pre ++ XMLForce.NonbondedForce particlesCount particles exceptionsCount exceptions :: post)
    (hone : ∀ f ∈ pre ++ post, XMLForce.isNonbonded f = false)
    (hvalid : ∃ x ∈ exceptions, isValidSample K topo x = true) :
    0 < (exceptions.filter (isValidSample K topo)).length ∧
      topo.coulombScalingFactor =
        mean ((exceptions.filter (isValidSample K topo)).map (chargeRatio K topo)) ∧
      topo.LJScalingFactor =
        mean ((exceptions.filter (isValidSample K topo)).map (epsilonRatio K topo)) := by
  obtain ⟨x, hx, hv⟩ := hvalid
  exact ⟨List.length_pos_of_mem (List.mem_filter.2 ⟨hx, hv⟩),
    factors_eq_mean K doc atoms topo pre particlesCount particles exceptionsCount exceptions
      post hb hdoc hone⟩

theorem scaling_factors_are_means_witness :
    buildTopologyFromXML sampleConstant docThreeExceptions atomsTwo = .ok topoThreeExceptions ∧
      (∃ x ∈ exceptionsThree, isValidSample sampleConstant topoThreeExceptions x = true) ∧
      topoThreeExceptions.coulombScalingFactor = Scalar.fin (3 / 8) ∧
      0 < (exceptionsThree.filter (isValidSample sampleConstant topoThreeExceptions)).length ∧
      topoThreeExceptions.coulombScalingFactor =
        mean ((exceptionsThree.filter (isValidSample sampleConstant topoThreeExceptions)).map
          (chargeRatio sampleConstant topoThreeExceptions)) ∧
      topoThreeExceptions.LJScalingFactor =
        mean ((exceptionsThree.filter (isValidSample sampleConstant topoThreeExceptions)).map
          (epsilonRatio sampleConstant topoThreeExceptions)) :=
  have hvalid : ∃ x ∈ exceptionsThree,
      isValidSample sampleConstant topoThreeExceptions x = true :=
    ⟨⟨0, 1, -1 / 8, 1, 3 / 20⟩, by simp [exceptionsThree], by decide!⟩
  ⟨by decide!, hvalid, by decide!,
    scaling_factors_are_means sampleConstant docThreeExceptions atomsTwo topoThreeExceptions
      [.HarmonicBondForce 1 [bondZeroOne]] 2 [⟨0, 1 / 2, 1, 1 / 10⟩, ⟨1, -1 / 2, 4, 1 / 5⟩] 3
      exceptionsThree [] (by decide!) rfl (by simp [XMLForce.isNonbonded]) hvalid⟩

/-- C1: two atoms called "C_A" whose electrostatic records carry the same
epsilon and sigma get the different type indices 0 and 1, and two atom types
are created: the name part of the type name "C_A_0" is "C". -/
theorem separator_name_not_deduplicated :
    (buildTopologyFromXML sampleConstant docSameParameters atomsSeparator).map
        (fun topo => (topo.atoms.map (fun a => a.type), topo.atomTypes.map (fun t => t.name))) =
      .ok ([0, 1], ["C_A_0".toList, "C_A_1".toList]) ∧
    namePart "C_A_0".toList = "C".toList := by
  decide!

/-- C2: when the exceptions section of the `NonbondedForce` is empty, holds
only an entry of epsilon 0, or holds only an entry whose expected charge
product is 0, both scaling factors end as the quotient 0 / 0 and not as the
presets. -/
theorem zero_samples_give_nan :
    (buildTopologyFromXML sampleConstant docPlain atomsTwo).map
        (fun topo => (topo.coulombScalingFactor, topo.LJScalingFactor)) =
      .ok (Scalar.nan, Scalar.nan) ∧
    (buildTopologyFromXML sampleConstant docAllFull atomsTwo).map
        (fun topo => (topo.coulombScalingFactor, topo.LJScalingFactor, topo.exclusions)) =
      .ok (Scalar.nan, Scalar.nan, [(0, 1, ExclusionClass.EXCLUSION_FULL)]) ∧
    (buildTopologyFromXML sampleConstant docZeroCharge atomsTwo).map
        (fun topo => (topo.coulombScalingFactor, topo.LJScalingFactor, topo.exclusions)) =
      .ok (Scalar.nan, Scalar.nan, [(0, 1, ExclusionClass.EXCLUSION_MODIFIED)]) :=
  ⟨by decide!, by decide!, by decide!⟩

/-! ## Lennard-Jones table -/

theorem scalar_mul_comm (a b : Scalar) : a.mul b = b.mul a := by
  cases a <;> cases b <;> simp [Scalar.mul, mul_comm]

/-- C17: the record that the double loop computes for the pair `(i, j)` is
the record it computes for `(j, i)`: `A`, `B`, `A14` and `B14` agree. -/
theorem ljParams_symmetric (K : Constant) (topo : GenericTopology) (i j : Nat) :
    ljParams K topo i j = ljParams K topo j i := by
  simp only [ljParams, add_comm, mul_comm]

theorem ljParams_eq_combiningRule (K : Constant) (topo : GenericTopology) (i j : Nat) :
    ljParams K topo i j =
      combiningRule K (topo.atomTypes.getD i {}) (topo.atomTypes.getD j {})
        topo.LJScalingFactor := by
  simp only [ljParams, combiningRule]
  have hr : (1 / 2 : ℚ) * ((topo.atomTypes.getD i {}).sigma + (topo.atomTypes.getD j {}).sigma) =
      ((topo.atomTypes.getD i {}).sigma + (topo.atomTypes.getD j {}).sigma) / 2 := by ring
  rw [hr]
  have h4 : ∀ x y : Scalar, (x.mul y).mul (Scalar.fin 4) = (Scalar.fin 4).mul (y.mul x) := by
    intro x y
    rw [scalar_mul_comm (x.mul y), scalar_mul_comm x y]
  rw [h4, h4]

theorem mem_lennardJonesCalls (K : Constant) (topo : GenericTopology) (n i j : Nat)
    (p : LennardJonesParameters) :
    ((i, j), p) ∈ lennardJonesCalls K topo n ↔ (i ≤ j ∧ j < n) ∧ p = ljParams K topo i j := by
  simp only [lennardJonesCalls, List.mem_flatMap, List.mem_range, List.mem_map,
    List.mem_range'_1, Prod.mk.injEq]
  constructor
  · rintro ⟨a, ha, b, hb, ⟨rfl, rfl⟩, rfl⟩
    exact ⟨⟨hb.1, by omega⟩, rfl⟩
  · rintro ⟨⟨h1, h2⟩, rfl⟩
    exact ⟨i, by omega, j, ⟨h1, by omega⟩, ⟨rfl, rfl⟩, rfl⟩

theorem lennardJonesCalls_keys (K : Constant) (topo : GenericTopology) (n : Nat) :
    (lennardJonesCalls K topo n).map Prod.fst =
      (List.range n).flatMap fun i => (List.range' i (n - i)).map fun j => (i, j) := by
  simp [lennardJonesCalls, List.map_flatMap, Function.comp_def]

theorem lennardJonesCalls_nodup (K : Constant) (topo : GenericTopology) (n : Nat) :
    ((lennardJonesCalls K topo n).map Prod.fst).Nodup := by
  rw [lennardJonesCalls_keys]
  rw [List.nodup_flatMap]
  constructor
  · intro i _
    exact (List.nodup_range' i (n - i)).map (fun a b h => by simpa using h)
  · have hnd := List.nodup_range n
    refine List.Pairwise.imp_of_mem ?_ hnd
    intro a b _ _ hab
    intro x hx1 hx2
    simp only [List.mem_map] at hx1 hx2
    obtain ⟨_, _, rfl⟩ := hx1
    obtain ⟨_, _, h⟩ := hx2
    simp only [Prod.mk.injEq] at h
    exact hab h.1.symm

/-- C16: in a successful build the calls `lennardJonesParameters.set(i, j, p)`
are made for exactly the pairs with `i ≤ j < number of types`, once each, and
the record stored for `(i, j)` is the combining rule applied to types `i` and
`j` with the `LJScalingFactor` of the topology. -/
theorem nonbonded_table (K : Constant) (doc : XMLDocument) (atoms : List PDBAtom)
    (topo : GenericTopology) (hb : buildTopologyFromXML K doc atoms = .ok topo) :
    (∀ i j : Nat, (i, j) ∈ topo.lennardJonesParameters.map Prod.fst ↔
        i ≤ j ∧ j < topo.atomTypes.length) ∧
      (topo.lennardJonesParameters.map Prod.fst).Nodup ∧
      ∀ (i j : Nat) (p : LennardJonesParameters), ((i, j), p) ∈ topo.lennardJonesParameters →
        ∃ ti tj, topo.atomTypes[i]? = some ti ∧ topo.atomTypes[j]? = some tj ∧
          p = combiningRule K ti tj topo.LJScalingFactor := by
  unfold buildTopologyFromXML at hb
  split at hb
  · cases hb
  · rename_i st hst
    cases hb
    refine ⟨?_, lennardJonesCalls_nodup K st.topo _, ?_⟩
    · intro i j
      constructor
      · intro h
        obtain ⟨⟨k, p⟩, hp, hk⟩ := List.mem_map.1 h
        simp only at hk
        subst hk
        exact ((mem_lennardJonesCalls K st.topo _ i j p).1 hp).1
      · intro h
        exact List.mem_map.2 ⟨((i, j), ljParams K st.topo i j),
          (mem_lennardJonesCalls K st.topo _ i j _).2 ⟨h, rfl⟩, rfl⟩
    · intro i j p hp
      obtain ⟨⟨h1, h2⟩, rfl⟩ := (mem_lennardJonesCalls K st.topo _ i j p).1 hp
      have hi : i < st.topo.atomTypes.length := by omega
      refine ⟨st.topo.atomTypes[i], st.topo.atomTypes[j], ?_, ?_, ?_⟩
      · simp [List.getElem?_eq_getElem hi]
      · simp [List.getElem?_eq_getElem h2]
      · rw [ljParams_eq_combiningRule, List.getD_eq_getElem _ _ hi, List.getD_eq_getElem _ _ h2]

theorem nonbonded_table_witness :
    buildTopologyFromXML sampleConstant docThreeExceptions atomsTwo = .ok topoThreeExceptions ∧
      topoThreeExceptions.lennardJonesParameters.map Prod.fst = [(0, 0), (0, 1), (1, 1)] ∧
      (∀ i j : Nat, (i, j) ∈ topoThreeExceptions.lennardJonesParameters.map Prod.fst ↔
        i ≤ j ∧ j < topoThreeExceptions.atomTypes.length) ∧
      (topoThreeExceptions.lennardJonesParameters.map Prod.fst).Nodup ∧
      ∀ (i j : Nat) (p : LennardJonesParameters),
        ((i, j), p) ∈ topoThreeExceptions.lennardJonesParameters →
        ∃ ti tj, topoThreeExceptions.atomTypes[i]? = some ti ∧
          topoThreeExceptions.atomTypes[j]? = some tj ∧
          p = combiningRule sampleConstant ti tj topoThreeExceptions.LJScalingFactor :=
  ⟨by decide!, by decide!,
    nonbonded_table sampleConstant docThreeExceptions atomsTwo topoThreeExceptions (by decide!)⟩

/-! ## Missing records -/

theorem readElectrostatics_eq :
    ∀ (l : List XMLForce) (acc es : List electrostatic_index),
      readElectrostatics l acc = .ok es → es = acc ++ allParticles l
  | [], acc, es, h => by
    simp only [readElectrostatics] at h
    cases h
    simp [allParticles]
  | g :: rest, acc, es, h => by
    cases g with
    | NonbondedForce pc ps ec exs =>
      simp only [readElectrostatics] at h
      split at h
      · cases h
      · have := readElectrostatics_eq rest _ es h
        simpa [allParticles, XMLForce.particleEntries] using this
    | HarmonicBondForce c l =>
      simp only [readElectrostatics] at h
      simpa [allParticles, XMLForce.particleEntries] using readElectrostatics_eq rest _ es h
    | HarmonicAngleForce c l =>
      simp only [readElectrostatics] at h
      simpa [allParticles, XMLForce.particleEntries] using readElectrostatics_eq rest _ es h
    | PeriodicTorsionForce c l =>
      simp only [readElectrostatics] at h
      simpa [allParticles, XMLForce.particleEntries] using readElectrostatics_eq rest _ es h
    | GBSAOBCForce c l =>
      simp only [readElectrostatics] at h
      simpa [allParticles, XMLForce.particleEntries] using readElectrostatics_eq rest _ es h
    | other =>
      simp only [readElectrostatics] at h
      simpa [allParticles, XMLForce.particleEntries] using readElectrostatics_eq rest _ es h

theorem addAtoms_append (K : Constant) (masses : List mass_index)
    (electrostatics : List electrostatic_index) :
    ∀ (pre rest : List PDBAtom) (topo : GenericTopology) (i : Nat),
      addAtoms K masses electrostatics topo i (pre ++ rest) =
        match addAtoms K masses electrostatics topo i pre with
        | .error err => .error err
        | .ok topo1 => addAtoms K masses electrostatics topo1 (i + pre.length) rest
  | [], rest, topo, i => by simp [addAtoms]
  | a :: pre, rest, topo, i => by
    simp only [List.cons_append, addAtoms]
    cases addAtom K masses electrostatics topo i a with
    | error err => rfl
    | ok topo1 =>
      simp only []
      have := addAtoms_append K masses electrostatics pre rest topo1 (i + 1)
      simp only [List.length_cons, Nat.add_assoc, Nat.add_comm 1] at this ⊢
      exact this

/-- The build fails when the pass of the atom loop for one of the records
fails on every topology. -/
theorem build_fails_of_addAtom_fails (K : Constant) (doc : XMLDocument)
    (pre : List PDBAtom) (a : PDBAtom) (post : List PDBAtom)
    (h : ∀ es topo1, readElectrostatics doc.forces [] = .ok es →
      addAtoms K doc.masses es {} 0 pre = .ok topo1 →
      ∃ err, addAtom K doc.masses es topo1 (0 + pre.length) a = .error err) :
    ∃ err, buildTopologyFromXML K doc (pre ++ a :: post) = .error err := by
  unfold buildTopologyFromXML buildForces
  cases hes : readElectrostatics doc.forces [] with
  | error err => exact ⟨err, rfl⟩
  | ok es =>
    simp only []
    rw [addAtoms_append]
    cases hpre : addAtoms K doc.masses es {} 0 pre with
    | error err => exact ⟨err, rfl⟩
    | ok topo1 =>
      obtain ⟨err, herr⟩ := h es topo1 hes hpre
      simp only [addAtoms, herr]
      exact ⟨err, rfl⟩

theorem findElectrostatics_none {es : List electrostatic_index} {key : Int}
    (h : ∀ e ∈ es, e.index ≠ key) : findElectrostatics es key = none := by
  unfold findElectrostatics
  rw [List.find?_eq_none]
  intro e he
  simpa using fun heq => h e he heq.symm

/-- C11: when no electrostatic record of the document carries the element
index of an input record `a`, the build fails, and the pass of the atom loop
for `a` stops with the error of line 222 on whatever topology it is run: it
returns no topology, so neither the atom nor a type for it is added. -/
theorem missing_electrostatics_fails (K : Constant) (doc : XMLDocument)
    (pre : List PDBAtom) (a : PDBAtom) (post : List PDBAtom)
    (hmiss : ∀ e ∈ allParticles doc.forces, e.index ≠ a.elementNum - 1) :
    (∃ err, buildTopologyFromXML K doc (pre ++ a :: post) = .error err) ∧
      ∀ (topo : GenericTopology) (i : Nat),
        addAtom K doc.masses (allParticles doc.forces) topo i a =
          .error .electrostaticsUndefined := by
  have hstep : ∀ (topo : GenericTopology) (i : Nat),
      addAtom K doc.masses (allParticles doc.forces) topo i a =
        .error .electrostaticsUndefined := by
    intro topo i
    unfold addAtom
    simp only [findElectrostatics_none hmiss]
  refine ⟨?_, hstep⟩
  apply build_fails_of_addAtom_fails
  intro es topo1 hes _
  have := readElectrostatics_eq _ _ _ hes
  simp only [List.nil_append] at this
  subst this
  exact ⟨_, hstep topo1 _⟩

theorem missing_electrostatics_fails_witness :
    (∀ e ∈ allParticles docOneParticle.forces, e.index ≠ (2 : Int) - 1) ∧
      (∃ err, buildTopologyFromXML sampleConstant docOneParticle atomsTwo = .error err) ∧
      buildTopologyFromXML sampleConstant docOneParticle atomsTwo =
        .error .electrostaticsUndefined :=
  ⟨by decide,
    (missing_electrostatics_fails sampleConstant docOneParticle
      [{ elementName := "CA".toList, elementNum := 1, residueName := "ALA".toList,
         residueNum := 1 }]
      { elementName := "HB2".toList, elementNum := 2, residueName := "ALA".toList,
        residueNum := 1 } [] (by decide)).1,
    by decide!⟩

/-- C12 (amended): when an input record `a` has no mass record and the type
scan finds no type for it among the types made from the records before it,
the build fails. -/
theorem missing_mass_fails (K : Constant) (doc : XMLDocument)
    (pre : List PDBAtom) (a : PDBAtom) (post : List PDBAtom)
    (hmass : findMass doc.masses (a.elementNum - 1) = none)
    (hnew : ∀ topo1 e, addAtoms K doc.masses (allParticles doc.forces) {} 0 pre = .ok topo1 →
      findElectrostatics (allParticles doc.forces) (a.elementNum - 1) = some e →
      scanTypes topo1.atomTypes a.elementName (e.epsilon * K.KJ_KCAL)
        (e.sigma * K.NM_ANGSTROM) = topo1.atomTypes.length) :
    ∃ err, buildTopologyFromXML K doc (pre ++ a :: post) = .error err := by
  apply build_fails_of_addAtom_fails
  intro es topo1 hes hpre
  have := readElectrostatics_eq _ _ _ hes
  simp only [List.nil_append] at this
  subst this
  unfold addAtom
  simp only []
  cases he : findElectrostatics (allParticles doc.forces) (a.elementNum - 1) with
  | none => exact ⟨_, rfl⟩
  | some e =>
    have hscan := hnew topo1 e hpre he
    simp only [tempEpsilonSigma, hscan, if_true]
    have hget : (topo1.atomTypes ++ [({} : AtomType)]).getD topo1.atomTypes.length {} = {} := by
      simp [List.getD_eq_getElem?_getD]
    rw [hget]
    simp only [updateType, List.length_nil, if_true, hmass]
    exact ⟨_, rfl⟩

theorem missing_mass_fails_witness :
    findMass docOneMassTwoTypes.masses ((2 : Int) - 1) = none ∧
      ∃ err, buildTopologyFromXML sampleConstant docOneMassTwoTypes atomsSameName = .error err :=
  ⟨by decide,
    missing_mass_fails sampleConstant docOneMassTwoTypes
      [{ elementName := "CA".toList, elementNum := 1, residueName := "ALA".toList,
         residueNum := 1 }]
      { elementName := "CA".toList, elementNum := 2, residueName := "ALA".toList,
        residueNum := 1 } [] (by decide)
      (by
        intro topo1 e h1 h2
        have ht : topo1 = (match addAtoms sampleConstant docOneMassTwoTypes.masses
            (allParticles docOneMassTwoTypes.forces) {} 0
            [{ elementName := "CA".toList, elementNum := 1, residueName := "ALA".toList,
               residueNum := 1 }] with
          | .ok t => t
          | .error _ => {}) := by rw [h1]
        have he : e = ⟨1, 1 / 2, 4, 1 / 10⟩ := by
          have : findElectrostatics (allParticles docOneMassTwoTypes.forces) ((2 : Int) - 1) =
              some ⟨1, 1 / 2, 4, 1 / 10⟩ := by decide!
          rw [this] at h2
          exact (Option.some.inj h2).symm
        subst ht
        subst he
        decide!)⟩

/-- C12, counterexample: the second of two atoms called "CA" with equal
epsilon and sigma has no mass record; it is mapped onto the type of the
first, takes that type's mass 12, and the build succeeds. -/
theorem missing_mass_accepted :
    findMass docOneMass.masses ((2 : Int) - 1) = none ∧
      (buildTopologyFromXML sampleConstant docOneMass atomsSameName).map
          (fun topo => topo.atoms.map (fun a => (a.type, a.scaledMass))) =
        .ok [(0, 12), (0, 12)] := by
  decide!

/-! ## Implicit solvent -/

/-- C15: for a particle entry whose index is an `int` and a topology whose
number of atoms fits an `int`, the pass of the GBSA loop stops with the
bounds error of line 616 when the index is negative or not below the number
of atoms, and it never reads the atom vector out of range. -/
theorem gbsa_bounds (K : Constant) (st : ForceState) (x : XMLGBSAParticle)
    (hatoms : st.topo.atoms.length < 2147483648) (hint : IsInt x.index) :
    ((x.index < 0 ∨ (st.topo.atoms.length : Int) ≤ x.index) →
        addGBSAParticle K (st.topo.atoms.length % 4294967296) st x = .error .gbsaBounds) ∧
      addGBSAParticle K (st.topo.atoms.length % 4294967296) st x ≠ .error .outOfRange := by
  obtain ⟨hlo, hhi⟩ := hint
  have hmod : st.topo.atoms.length % 4294967296 = st.topo.atoms.length :=
    Nat.mod_eq_of_lt (by omega)
  rw [hmod]
  constructor
  · intro hbad
    unfold addGBSAParticle
    simp only []
    rw [if_pos]
    unfold toUnsigned
    omega
  · unfold addGBSAParticle
    simp only []
    split
    · intro h
      cases h
    · rename_i hok
      have hnn : 0 ≤ x.index := by
        unfold toUnsigned at hok
        omega
      have hlt : x.index.toNat < st.topo.atoms.length := by
        unfold toUnsigned at hok
        omega
      rw [vectorAt_of_lt _ _ hnn hlt]
      intro h
      cases h

theorem gbsa_bounds_witness :
    stateThreeAtoms.topo.atoms.length < 2147483648 ∧ IsInt (-1) ∧
      ((-1 : Int) < 0 ∨ (stateThreeAtoms.topo.atoms.length : Int) ≤ -1) ∧
      addGBSAParticle sampleConstant (stateThreeAtoms.topo.atoms.length % 4294967296)
        stateThreeAtoms ⟨-1, 3 / 20, 4 / 5⟩ = .error .gbsaBounds :=
  have hint : IsInt (-1) := by unfold IsInt; decide
  ⟨by decide, hint, Or.inl (by decide),
    (gbsa_bounds sampleConstant stateThreeAtoms ⟨-1, 3 / 20, 4 / 5⟩ (by decide) hint).1
      (Or.inl (by decide))⟩

/-- Every pass of the GBSA loop that ends without error executes
`new GBSAAtomParameters()` for its atom and stores the new object, whether or
not the atom already had one. -/
theorem addGBSAParticle_allocates {K : Constant} {n : Nat} {st st1 : ForceState}
    {x : XMLGBSAParticle} (h : addGBSAParticle K n st x = .ok st1) :
    st1.topo.gbsaAllocations = st.topo.gbsaAllocations ++ [x.index.toNat] ∧
      ∃ a, st1.topo.atoms[x.index.toNat]? = some a ∧
        a.myGBSA_T = some (newGBSAAtomParameters n (x.radius * K.NM_ANGSTROM) x.scale) := by
  unfold addGBSAParticle at h
  simp only [] at h
  split at h
  · cases h
  · split at h
    · cases h
    · rename_i tempatom ha
      cases h
      refine ⟨rfl, { tempatom with
        myGBSA_T := some (newGBSAAtomParameters n (x.radius * K.NM_ANGSTROM) x.scale) },
        ?_, rfl⟩
      have hlt : x.index.toNat < st.topo.atoms.length := by
        have := (vectorAt_ok ha).2
        exact (List.getElem?_eq_some_iff.1 this).1
      simp [List.getElem?_set, hlt]

/-- C14: with two particle entries for atom 0 in one `GBSAOBCForce`, the
builder executes `new GBSAAtomParameters()` twice for atom 0, and the object
the atom ends with is the one made for the second entry. -/
theorem gbsa_allocated_twice :
    (buildTopologyFromXML sampleConstant
        { masses := massesTwo
          forces := [.NonbondedForce 1 [⟨0, 1 / 2, 1, 1 / 10⟩] 0 [],
            .GBSAOBCForce 1 [⟨0, 3 / 20, 4 / 5⟩, ⟨0, 1 / 5, 1⟩]] } atomsOne).map
        (fun topo => (topo.gbsaAllocations,
          topo.atoms.map (fun a => a.myGBSA_T.map (fun g => g.vanDerWaalRadius)))) =
      .ok ([0, 0], [some 2]) := by
  decide!

/-! ## Bonds -/

theorem pushMybond_view {atoms atoms1 : List Atom} {i : Int} {b : Nat}
    (h : pushMybond atoms i b = .ok atoms1) :
    0 ≤ i ∧ i.toNat < atoms.length ∧ atoms1.length = atoms.length ∧
      atoms1.map (fun a => a.mybonds) = pushAt (atoms.map (fun a => a.mybonds)) i.toNat b := by
  unfold pushMybond at h
  split at h
  · cases h
  · rename_i a ha
    cases h
    obtain ⟨h0, hget⟩ := vectorAt_ok ha
    have hlt : i.toNat < atoms.length := (List.getElem?_eq_some_iff.1 hget).1
    refine ⟨h0, hlt, by simp, ?_⟩
    simp only [pushAt, List.map_set]
    congr 1
    simp [List.getD_eq_getElem?_getD, hget]

theorem pushMybond_of_inRange (atoms : List Atom) (i : Int) (b : Nat) (h0 : 0 ≤ i)
    (h1 : i.toNat < atoms.length) : ∃ atoms1, pushMybond atoms i b = .ok atoms1 := by
  unfold pushMybond
  rw [vectorAt_of_lt atoms i h0 h1]
  exact ⟨_, rfl⟩

theorem addBond_view {K : Constant} {st st1 : ForceState} {x : XMLBond}
    (h : addBond K st x = .ok st1) :
    st1.topo.bonds = st.topo.bonds ++ [bondRecord K x] ∧
      st1.ignoredBonds = st.ignoredBonds + (if zeroSpring K x = true then 1 else 0) ∧
      (0 ≤ x.particle1 ∧ x.particle1.toNat < st.topo.atoms.length) ∧
      (0 ≤ x.particle2 ∧ x.particle2.toNat < st.topo.atoms.length) ∧
      st1.topo.atoms.length = st.topo.atoms.length ∧
      st1.topo.atoms.map (fun a => a.mybonds) =
        pushAt (pushAt (st.topo.atoms.map (fun a => a.mybonds)) x.particle1.toNat
          st.topo.bonds.length) x.particle2.toNat st.topo.bonds.length := by
  unfold addBond at h
  simp only [] at h
  split at h
  · cases h
  · rename_i atoms1 h1
    split at h
    · cases h
    · rename_i atoms2 h2
      cases h
      obtain ⟨a1, a2, a3, a4⟩ := pushMybond_view h1
      obtain ⟨b1, b2, b3, b4⟩ := pushMybond_view h2
      simp only [List.length_append, List.length_singleton, Nat.add_sub_cancel] at a4 b4
      refine ⟨rfl, ?_, ⟨a1, a2⟩, ⟨b1, by omega⟩, by simp only []; omega, ?_⟩
      · simp only [zeroSpring, bondRecord, decide_eq_true_eq]
        split <;> simp
      · simp only []
        rw [b4, a4]

theorem addBond_of_inRange (K : Constant) (st : ForceState) (x : XMLBond)
    (h1 : 0 ≤ x.particle1 ∧ x.particle1.toNat < st.topo.atoms.length)
    (h2 : 0 ≤ x.particle2 ∧ x.particle2.toNat < st.topo.atoms.length) :
    ∃ st1, addBond K st x = .ok st1 := by
  unfold addBond
  simp only []
  obtain ⟨atoms1, ha1⟩ := pushMybond_of_inRange st.topo.atoms x.particle1
    ((st.topo.bonds ++ [bondRecord K x]).length - 1) h1.1 h1.2
  have hlen := (pushMybond_view ha1).2.2.1
  obtain ⟨atoms2, ha2⟩ := pushMybond_of_inRange atoms1 x.particle2
    ((st.topo.bonds ++ [bondRecord K x]).length - 1) h2.1 (by omega)
  simp only [bondRecord] at ha1 ha2
  rw [ha1]
  simp only []
  rw [ha2]
  exact ⟨_, rfl⟩

theorem forEach_addBond_view {K : Constant} :
    ∀ (bs : List XMLBond) (st st1 : ForceState), forEach (addBond K) st bs = .ok st1 →
      st1.topo.bonds = st.topo.bonds ++ bs.map (bondRecord K) ∧
        st1.ignoredBonds = st.ignoredBonds + ((bs.filter (zeroSpring K)).length : Int)
  | [], st, st1, h => by
    simp only [forEach] at h
    cases h
    simp
  | x :: xs, st, st1, h => by
    simp only [forEach] at h
    cases hx : addBond K st x with
    | error err => rw [hx] at h; cases h
    | ok st2 =>
      rw [hx] at h
      obtain ⟨h1, h2⟩ := forEach_addBond_view xs st2 st1 h
      obtain ⟨g1, g2, _⟩ := addBond_view hx
      rw [h1, h2, g1, g2]
      refine ⟨by simp, ?_⟩
      simp only [List.filter_cons]
      split <;> simp [Int.add_assoc, Int.add_comm]

theorem forEach_addBond_of_inRange {K : Constant} :
    ∀ (bs : List XMLBond) (st : ForceState),
      (∀ x ∈ bs, IndexInRange st.topo x.particle1 ∧ IndexInRange st.topo x.particle2) →
      ∃ st1, forEach (addBond K) st bs = .ok st1
  | [], st, _ => ⟨st, rfl⟩
  | x :: xs, st, h => by
    obtain ⟨hx1, hx2⟩ := h x (List.mem_cons_self x xs)
    obtain ⟨st2, hst2⟩ := addBond_of_inRange K st x hx1 hx2
    simp only [forEach, hst2]
    have hlen := (addBond_view hst2).2.2.2.2.1
    apply forEach_addBond_of_inRange xs st2
    intro y hy
    have := h y (List.mem_cons_of_mem x hy)
    simpa [IndexInRange, hlen] using this

theorem addGBSAParticle_bondView {K : Constant} {n : Nat} {st st1 : ForceState}
    {x : XMLGBSAParticle} (h : addGBSAParticle K n st x = .ok st1) :
    st1.bondView = st.bondView := by
  unfold addGBSAParticle at h
  simp only [] at h
  split at h
  · cases h
  · split at h
    · cases h
    · rename_i tempatom ha
      cases h
      simp only [ForceState.bondView, Prod.mk.injEq, true_and]
      exact map_set_of_eq (fun a : Atom => a.mybonds) st.topo.atoms x.index.toNat tempatom
        { tempatom with
          myGBSA_T := some (newGBSAAtomParameters n (x.radius * K.NM_ANGSTROM) x.scale) }
        (vectorAt_ok ha).2 rfl

/-- A pass of the force loop for a force that is no `HarmonicBondForce`
leaves the bonds, the counter of ignored bonds and the `mybonds` lists as
they are. -/
theorem processForce_bondView {K : Constant} {n : Nat} {st st1 : ForceState} {f : XMLForce}
    (h : processForce K n st f = .ok st1) (hf : f.bondEntries = []) (hnb : f.numBonds = 0) :
    st1.bondView = st.bondView := by
  cases f with
  | NonbondedForce pc ps c es =>
    simp only [processForce, addExceptions] at h
    split at h
    · cases h
    · split at h
      · cases h
      · cases h
        rfl
  | HarmonicBondForce c l =>
    simp only [XMLForce.bondEntries] at hf
    subst hf
    simp only [processForce, forEach] at h
    split at h
    · cases h
    · cases h
      rfl
  | HarmonicAngleForce c l =>
    simp only [processForce] at h
    split at h
    · cases h
    · rename_i s2 hs2
      split at h
      · cases h
      · cases h
        exact forEach_invariant (addAngle K) (fun s => s.bondView = st.bondView)
          (fun s x s1 hb hs => by
            unfold addAngle at hb
            cases hb
            exact hs) l st _ hs2 rfl
  | PeriodicTorsionForce c l =>
    simp only [processForce] at h
    split at h
    · cases h
    · rename_i s2 hs2
      split at h
      · cases h
      · cases h
        exact forEach_invariant (addTorsion K) (fun s => s.bondView = st.bondView)
          (fun s x s1 hb hs => by
            unfold addTorsion at hb
            cases hb
            exact hs) l st _ hs2 rfl
  | GBSAOBCForce c l =>
    simp only [processForce, addGBSA] at h
    split at h
    · cases h
    · refine forEach_invariant (addGBSAParticle K n) (fun s => s.bondView = st.bondView)
        (fun s x s1 hb hs => (addGBSAParticle_bondView hb).trans hs) l _ _ h ?_
      split <;> rfl
  | other =>
    simp only [processForce] at h
    cases h
    rfl

theorem processForce_bonds {K : Constant} {n : Nat} {st st1 : ForceState} {f : XMLForce}
    (h : processForce K n st f = .ok st1) :
    st1.topo.bonds = st.topo.bonds ++ f.bondEntries.map (bondRecord K) ∧
      st1.ignoredBonds = st.ignoredBonds + ((f.bondEntries.filter (zeroSpring K)).length : Int) := by
  by_cases hb : ∃ c l, f = XMLForce.HarmonicBondForce c l
  · obtain ⟨c, l, rfl⟩ := hb
    simp only [processForce] at h
    split at h
    · cases h
    · rename_i s2 hs2
      split at h
      · cases h
      · cases h
        exact forEach_addBond_view l st _ hs2
  · have hf : f.bondEntries = [] := by
      cases f <;> first | rfl | exact absurd ⟨_, _, rfl⟩ hb
    have hn : f.numBonds = 0 := by
      cases f <;> first | rfl | exact absurd ⟨_, _, rfl⟩ hb
    have := processForce_bondView h hf hn
    simp only [ForceState.bondView, Prod.mk.injEq] at this
    simp [hf, this.1, this.2.1]

theorem forces_bonds {K : Constant} {n : Nat} :
    ∀ (l : List XMLForce) (st st1 : ForceState),
      forEach (processForce K n) st l = .ok st1 →
      st1.topo.bonds = st.topo.bonds ++ (allBonds l).map (bondRecord K) ∧
        st1.ignoredBonds =
          st.ignoredBonds + (((allBonds l).filter (zeroSpring K)).length : Int)
  | [], st, st1, h => by
    simp only [forEach] at h
    cases h
    simp [allBonds]
  | f :: fs, st, st1, h => by
    simp only [forEach] at h
    cases hf : processForce K n st f with
    | error err => rw [hf] at h; cases h
    | ok st2 =>
      rw [hf] at h
      obtain ⟨h1, h2⟩ := forces_bonds fs st2 st1 h
      obtain ⟨g1, g2⟩ := processForce_bonds hf
      rw [h1, h2, g1, g2]
      simp [allBonds, Int.add_assoc]

/-- Bonds with zero force constant, when the count test passes: a
`HarmonicBondForce` whose particle indices are in range and whose
count is the number of bonds the vector holds after it (the number of its
children, when no bond was read before) is read without error whatever the
values of `k`: one `Bond` record per child is appended in document order and
the counter of ignored bonds grows by the number of children whose converted
spring constant is zero.  At the end of a successful run of the force loop
the bond vector holds the records of all bond children of the document and
the counter is the number of those with zero spring constant. -/
theorem zero_k_bonds (K : Constant) :
    (∀ (n : Nat) (st : ForceState) (count : Int) (bonds : List XMLBond),
      (∀ x ∈ bonds, IndexInRange st.topo x.particle1 ∧ IndexInRange st.topo x.particle2) →
      count = ((st.topo.bonds.length + bonds.length : Nat) : Int) →
      ∃ st1, processForce K n st (.HarmonicBondForce count bonds) = .ok st1 ∧
        st1.topo.bonds = st.topo.bonds ++ bonds.map (bondRecord K) ∧
        st1.ignoredBonds = st.ignoredBonds + ((bonds.filter (zeroSpring K)).length : Int)) ∧
    (∀ (doc : XMLDocument) (atoms : List PDBAtom) (st : ForceState),
      buildForces K doc atoms = .ok st →
      st.topo.bonds = (allBonds doc.forces).map (bondRecord K) ∧
        st.ignoredBonds = (((allBonds doc.forces).filter (zeroSpring K)).length : Int)) := by
  constructor
  · intro n st count bonds hrange hcount
    obtain ⟨st1, hst1⟩ := forEach_addBond_of_inRange (K := K) bonds st hrange
    obtain ⟨h1, h2⟩ := forEach_addBond_view bonds st st1 hst1
    refine ⟨st1, ?_, h1, h2⟩
    simp only [processForce, hst1]
    rw [if_neg]
    rw [h1, hcount]
    simp
  · intro doc atoms st hst
    obtain ⟨es, topo0, hes, htopo, hloop⟩ := buildForces_ok hst
    obtain ⟨_, hb0, _⟩ := addAtoms_initial htopo
    obtain ⟨h1, h2⟩ := forces_bonds _ _ _ hloop
    simp only [hb0, List.nil_append] at h1
    exact ⟨h1, by simpa using h2⟩

theorem zero_k_bonds_witness :
    (∀ x ∈ [bondZeroK],
        IndexInRange stateThreeAtoms.topo x.particle1 ∧
          IndexInRange stateThreeAtoms.topo x.particle2) ∧
      (1 : Int) = ((stateThreeAtoms.topo.bonds.length + [bondZeroK].length : Nat) : Int) ∧
      (∃ st1, processForce sampleConstant 3 stateThreeAtoms (.HarmonicBondForce 1 [bondZeroK]) =
          .ok st1 ∧
        st1.topo.bonds = stateThreeAtoms.topo.bonds ++ [bondZeroK].map (bondRecord sampleConstant) ∧
        st1.ignoredBonds = stateThreeAtoms.ignoredBonds +
          (([bondZeroK].filter (zeroSpring sampleConstant)).length : Int)) ∧
      buildForces sampleConstant docZeroKBond atomsThree = .ok stateZeroKBond ∧
      stateZeroKBond.topo.bonds.length = 1 ∧ stateZeroKBond.ignoredBonds = 1 ∧
      stateZeroKBond.topo.bonds = (allBonds docZeroKBond.forces).map (bondRecord sampleConstant) ∧
      stateZeroKBond.ignoredBonds =
        (((allBonds docZeroKBond.forces).filter (zeroSpring sampleConstant)).length : Int) :=
  have hrange : ∀ x ∈ [bondZeroK],
      IndexInRange stateThreeAtoms.topo x.particle1 ∧
        IndexInRange stateThreeAtoms.topo x.particle2 := by
    intro x hx
    simp only [List.mem_singleton] at hx
    subst hx
    exact ⟨by unfold IndexInRange; decide, by unfold IndexInRange; decide⟩
  ⟨hrange, by decide,
    (zero_k_bonds sampleConstant).1 3 stateThreeAtoms 1 [bondZeroK] hrange (by decide),
    by decide!, by decide!, by decide!,
    (zero_k_bonds sampleConstant).2 docZeroKBond atomsThree stateZeroKBond (by decide!)⟩

/-- C13: a `HarmonicBondForce` container that declares the number of its own
children, has in-range particle indices and holds a bond of `k = 0` stops the
build with the bond count error when it is the second bond container of the
document: the test after the bond loop compares the count with the size of
the whole bond vector.  The same container as the only bond container of the
3-atom system is read without error and gives one bond and a counter of 1. -/
theorem zero_k_bond_second_container_rejected :
    docZeroKSecondBlock.forces.all XMLForce.ownCountAgrees = true ∧
      (allBonds docZeroKSecondBlock.forces).all
          (fun x => decide (0 ≤ x.particle1 ∧ x.particle1 < 3 ∧
            0 ≤ x.particle2 ∧ x.particle2 < 3)) = true ∧
      XMLForce.HarmonicBondForce 1 [bondZeroK] ∈ docZeroKSecondBlock.forces ∧
      zeroSpring sampleConstant bondZeroK = true ∧
      buildTopologyFromXML sampleConstant docZeroKSecondBlock atomsThree = .error .bondsCount ∧
      (buildForces sampleConstant docZeroKBond atomsThree).map
          (fun st => (st.topo.bonds.length, st.ignoredBonds)) = .ok (1, 1) :=
  ⟨by decide, by decide, by decide!, by decide!, by decide!, by decide!⟩

/-! ## Bond adjacency -/

theorem length_pushAt (mb : List (List Nat)) (i b : Nat) : (pushAt mb i b).length = mb.length := by
  simp [pushAt]

theorem pushAt_mono {mb : List (List Nat)} {i b j : Nat} {l : List Nat}
    (h : mb[j]? = some l) : ∃ l1, (pushAt mb i b)[j]? = some l1 ∧ ∀ x ∈ l, x ∈ l1 := by
  have hj : j < mb.length := (List.getElem?_eq_some_iff.1 h).1
  by_cases hij : i = j
  · subst hij
    refine ⟨l ++ [b], ?_, fun x hx => List.mem_append_left _ hx⟩
    simp [pushAt, List.getElem?_set, hj, List.getD_eq_getElem?_getD, h]
  · exact ⟨l, by simp [pushAt, List.getElem?_set, hij, h], fun x hx => hx⟩

theorem pushAt_self (mb : List (List Nat)) {i : Nat} (b : Nat) (hi : i < mb.length) :
    ∃ l1, (pushAt mb i b)[i]? = some l1 ∧ b ∈ l1 :=
  ⟨mb.getD i [] ++ [b], by simp [pushAt, List.getElem?_set, hi], by simp⟩

theorem pushAt_back {mb : List (List Nat)} {i b j : Nat} {l1 : List Nat}
    (h : (pushAt mb i b)[j]? = some l1) :
    ∃ l, mb[j]? = some l ∧ ∀ x ∈ l1, x ∈ l ∨ (j = i ∧ x = b) := by
  have hj : j < mb.length := by
    have := (List.getElem?_eq_some_iff.1 h).1
    simpa [pushAt] using this
  by_cases hij : i = j
  · subst hij
    refine ⟨mb[i], by simp [List.getElem?_eq_getElem hj], ?_⟩
    simp only [pushAt, List.getElem?_set, hj, if_true, Option.some.injEq] at h
    subst h
    intro x hx
    simp only [List.getD_eq_getElem _ _ hj, List.mem_append, List.mem_singleton] at hx
    rcases hx with hx | hx
    · exact Or.inl hx
    · exact Or.inr ⟨rfl, hx⟩
  · refine ⟨l1, ?_, fun x hx => Or.inl hx⟩
    simpa [pushAt, List.getElem?_set, hij] using h

/-- Appending a bond and pushing its index onto the `mybonds` lists of its
two endpoints keeps bonds and `mybonds` lists pointing at each other. -/
theorem bondsAdjacent_step {bonds : List Bond} {mb : List (List Nat)} (tb : Bond)
    (h : BondsAdjacent bonds mb) (h1 : 0 ≤ tb.atom1) (h1' : tb.atom1.toNat < mb.length)
    (h2 : 0 ≤ tb.atom2) (h2' : tb.atom2.toNat < mb.length) :
    BondsAdjacent (bonds ++ [tb])
      (pushAt (pushAt mb tb.atom1.toNat bonds.length) tb.atom2.toNat bonds.length) := by
  obtain ⟨hf, hbk⟩ := h
  constructor
  · intro b bond hb
    by_cases hlt : b < bonds.length
    · rw [List.getElem?_append_left hlt] at hb
      obtain ⟨⟨a0, l, hl, hm⟩, ⟨b0, l', hl', hm'⟩⟩ := hf b bond hb
      constructor
      · obtain ⟨m1, e1, s1⟩ := pushAt_mono (i := tb.atom1.toNat) (b := bonds.length) hl
        obtain ⟨m2, e2, s2⟩ := pushAt_mono (i := tb.atom2.toNat) (b := bonds.length) e1
        exact ⟨a0, m2, e2, s2 _ (s1 _ hm)⟩
      · obtain ⟨m1, e1, s1⟩ := pushAt_mono (i := tb.atom1.toNat) (b := bonds.length) hl'
        obtain ⟨m2, e2, s2⟩ := pushAt_mono (i := tb.atom2.toNat) (b := bonds.length) e1
        exact ⟨b0, m2, e2, s2 _ (s1 _ hm')⟩
    · have hlen : b < (bonds ++ [tb]).length := (List.getElem?_eq_some_iff.1 hb).1
      simp only [List.length_append, List.length_singleton] at hlen
      have hbe : b = bonds.length := by omega
      subst hbe
      rw [List.getElem?_concat_length] at hb
      cases hb
      constructor
      · obtain ⟨m1, e1, s1⟩ := pushAt_self mb bonds.length h1'
        obtain ⟨m2, e2, s2⟩ := pushAt_mono (i := tb.atom2.toNat) (b := bonds.length) e1
        exact ⟨h1, m2, e2, s2 _ s1⟩
      · obtain ⟨m2, e2, s2⟩ := pushAt_self (pushAt mb tb.atom1.toNat bonds.length)
          bonds.length (by rw [length_pushAt]; exact h2')
        exact ⟨h2, m2, e2, s2⟩
  · intro i l hl b hb
    obtain ⟨l1, e1, s1⟩ := pushAt_back hl
    obtain ⟨l0, e0, s0⟩ := pushAt_back e1
    have hnew : (bonds ++ [tb])[bonds.length]? = some tb := List.getElem?_concat_length _ _
    rcases s1 b hb with hb1 | ⟨hi, hbe⟩
    · rcases s0 b hb1 with hb0 | ⟨hi, hbe⟩
      · obtain ⟨bond, hbond, hor⟩ := hbk i l0 e0 b hb0
        have hlt : b < bonds.length := (List.getElem?_eq_some_iff.1 hbond).1
        exact ⟨bond, by rw [List.getElem?_append_left hlt]; exact hbond, hor⟩
      · subst hbe
        refine ⟨tb, hnew, Or.inl ?_⟩
        rw [hi]
        exact (Int.toNat_of_nonneg h1).symm
    · subst hbe
      refine ⟨tb, hnew, Or.inr ?_⟩
      rw [hi]
      exact (Int.toNat_of_nonneg h2).symm

theorem addBond_adjacent {K : Constant} {st st1 : ForceState} {x : XMLBond}
    (h : addBond K st x = .ok st1)
    (hadj : BondsAdjacent st.topo.bonds (st.topo.atoms.map (fun a => a.mybonds))) :
    BondsAdjacent st1.topo.bonds (st1.topo.atoms.map (fun a => a.mybonds)) := by
  obtain ⟨h1, _, ⟨p1, p1'⟩, ⟨p2, p2'⟩, _, h6⟩ := addBond_view h
  rw [h1, h6]
  exact bondsAdjacent_step (bondRecord K x) hadj p1 (by simpa using p1') p2 (by simpa using p2')

theorem processForce_adjacent {K : Constant} {n : Nat} {st st1 : ForceState} {f : XMLForce}
    (h : processForce K n st f = .ok st1)
    (hadj : BondsAdjacent st.topo.bonds (st.topo.atoms.map (fun a => a.mybonds))) :
    BondsAdjacent st1.topo.bonds (st1.topo.atoms.map (fun a => a.mybonds)) := by
  by_cases hb : ∃ c l, f = XMLForce.HarmonicBondForce c l
  · obtain ⟨c, l, rfl⟩ := hb
    simp only [processForce] at h
    split at h
    · cases h
    · rename_i s2 hs2
      split at h
      · cases h
      · cases h
        exact forEach_invariant (addBond K)
          (fun s => BondsAdjacent s.topo.bonds (s.topo.atoms.map (fun a => a.mybonds)))
          (fun s x s1 hx hs => addBond_adjacent hx hs) l st _ hs2 hadj
  · have hf : f.bondEntries = [] := by
      cases f <;> first | rfl | exact absurd ⟨_, _, rfl⟩ hb
    have hn : f.numBonds = 0 := by
      cases f <;> first | rfl | exact absurd ⟨_, _, rfl⟩ hb
    have := processForce_bondView h hf hn
    simp only [ForceState.bondView, Prod.mk.injEq] at this
    rw [this.1, this.2.2]
    exact hadj

theorem addAtom_atoms {K : Constant} {masses : List mass_index}
    {electrostatics : List electrostatic_index} {topo topo1 : GenericTopology}
    {i : Nat} {a : PDBAtom}
    (h : addAtom K masses electrostatics topo i a = .ok topo1) :
    ∃ e atype t, topo1.atoms = topo.atoms ++ [makeAtom K a e atype t] := by
  unfold addAtom at h
  simp only [] at h
  split at h
  · cases h
  · split at h
    · cases h
    · split at h
      · cases h
      · cases h
        exact ⟨_, _, _, rfl⟩

theorem addAtoms_mybonds {K : Constant} {masses : List mass_index}
    {electrostatics : List electrostatic_index} :
    ∀ (rest : List PDBAtom) (topo topo1 : GenericTopology) (i : Nat),
      addAtoms K masses electrostatics topo i rest = .ok topo1 →
      (∀ a ∈ topo.atoms, a.mybonds = []) → ∀ a ∈ topo1.atoms, a.mybonds = []
  | [], topo, topo1, i, h, hm => by
    simp only [addAtoms] at h
    cases h
    exact hm
  | a :: rest, topo, topo1, i, h, hm => by
    simp only [addAtoms] at h
    cases ha : addAtom K masses electrostatics topo i a with
    | error err => rw [ha] at h; cases h
    | ok topo2 =>
      rw [ha] at h
      obtain ⟨e, atype, t, h2⟩ := addAtom_atoms ha
      apply addAtoms_mybonds rest topo2 topo1 (i + 1) h
      intro b hb
      rw [h2] at hb
      rcases List.mem_append.1 hb with hb | hb
      · exact hm b hb
      · simp only [List.mem_singleton] at hb
        subst hb
        rfl

/-- C20: in a successful build every bond index `b` occurs in the `mybonds`
list of the atom at `bonds[b].atom1` and of the atom at `bonds[b].atom2`
(both atoms exist), and every index stored in the `mybonds` list of the atom
at position `i` is the index of a bond that has `i` as `atom1` or as
`atom2`. -/
theorem bond_adjacency (K : Constant) (doc : XMLDocument) (atoms : List PDBAtom)
    (topo : GenericTopology) (hb : buildTopologyFromXML K doc atoms = .ok topo) :
    (∀ (b : Nat) (bond : Bond), topo.bonds[b]? = some bond →
        ∃ a1 a2, vectorAt topo.atoms bond.atom1 = .ok a1 ∧ b ∈ a1.mybonds ∧
          vectorAt topo.atoms bond.atom2 = .ok a2 ∧ b ∈ a2.mybonds) ∧
      (∀ (i : Nat) (a : Atom), topo.atoms[i]? = some a → ∀ b ∈ a.mybonds,
        ∃ bond, topo.bonds[b]? = some bond ∧
          (bond.atom1 = (i : Int) ∨ bond.atom2 = (i : Int))) := by
  unfold buildTopologyFromXML at hb
  split at hb
  · cases hb
  · rename_i st hst
    cases hb
    obtain ⟨es, topo0, hes, htopo, hloop⟩ := buildForces_ok hst
    obtain ⟨_, hb0, _⟩ := addAtoms_initial htopo
    have hmy := addAtoms_mybonds _ _ _ _ htopo (by simp)
    have hinit : BondsAdjacent topo0.bonds (topo0.atoms.map (fun a => a.mybonds)) := by
      rw [hb0]
      constructor
      · intro b bond h
        simp at h
      · intro i l hl b hbl
        simp only [List.getElem?_map, Option.map_eq_some'] at hl
        obtain ⟨a, ha, rfl⟩ := hl
        have hmem : a ∈ topo0.atoms := by
          obtain ⟨hlt, rfl⟩ := List.getElem?_eq_some_iff.1 ha
          exact List.getElem_mem hlt
        rw [hmy a hmem] at hbl
        cases hbl
    have hfin := forEach_invariant (processForce K (topo0.atoms.length % 4294967296))
      (fun s => BondsAdjacent s.topo.bonds (s.topo.atoms.map (fun a => a.mybonds)))
      (fun s x s1 hx hs => processForce_adjacent hx hs) _ _ st hloop hinit
    obtain ⟨hf, hbk⟩ := hfin
    constructor
    · intro b bond hbond
      obtain ⟨⟨p1, l1, e1, m1⟩, ⟨p2, l2, e2, m2⟩⟩ := hf b bond hbond
      simp only [List.getElem?_map, Option.map_eq_some'] at e1 e2
      obtain ⟨a1, ha1, rfl⟩ := e1
      obtain ⟨a2, ha2, rfl⟩ := e2
      refine ⟨a1, a2, ?_, m1, ?_, m2⟩
      · simp only [vectorAt, p1, if_true]
        rw [ha1]
      · simp only [vectorAt, p2, if_true]
        rw [ha2]
    · intro i a ha b hbm
      exact hbk i a.mybonds (by simp only [List.getElem?_map]; rw [ha]; rfl)
        b hbm

theorem bond_adjacency_witness :
    buildTopologyFromXML sampleConstant docPlain atomsTwo = .ok topoPlain ∧
      topoPlain.bonds.length = 1 ∧
      topoPlain.atoms.map (fun a => a.mybonds) = [[0], [0]] ∧
      (∀ (b : Nat) (bond : Bond), topoPlain.bonds[b]? = some bond →
        ∃ a1 a2, vectorAt topoPlain.atoms bond.atom1 = .ok a1 ∧ b ∈ a1.mybonds ∧
          vectorAt topoPlain.atoms bond.atom2 = .ok a2 ∧ b ∈ a2.mybonds) ∧
      (∀ (i : Nat) (a : Atom), topoPlain.atoms[i]? = some a → ∀ b ∈ a.mybonds,
        ∃ bond, topoPlain.bonds[b]? = some bond ∧
          (bond.atom1 = (i : Int) ∨ bond.atom2 = (i : Int))) :=
  ⟨by decide!, by decide!, by decide!,
    bond_adjacency sampleConstant docPlain atomsTwo topoPlain (by decide!)⟩

/-! ## The atom loop: atoms and their types -/

theorem set_length_append {α : Type} (l : List α) (x y : α) :
    (l ++ [x]).set l.length y = l ++ [y] := by
  induction l with
  | nil => rfl
  | cons a l ih => simp [ih]

theorem set_of_getElem? {α : Type} :
    ∀ (l : List α) (n : Nat) (a : α), l[n]? = some a → l.set n a = l
  | [], _, _, h => by simp at h
  | x :: xs, 0, a, h => by
    simp at h
    simp [h]
  | x :: xs, n + 1, a, h => by
    simp at h
    simp [set_of_getElem? xs n a h]

theorem updateType_reuse {K : Constant} {masses : List mass_index} {a : PDBAtom}
    {e : electrostatic_index} {atype : Nat} {t t1 : AtomType} (hne : t.name.length ≠ 0)
    (h : updateType K masses a e atype t = .ok t1) :
    t1 = t ∧ t.epsilon = e.epsilon * K.KJ_KCAL ∧ t.sigma = e.sigma * K.NM_ANGSTROM := by
  simp only [updateType, hne, if_false] at h
  split at h
  · cases h
  · rename_i heps
    split at h
    · cases h
    · rename_i hsig
      cases h
      simp only [ne_eq, not_not] at heps hsig
      exact ⟨rfl, heps, hsig⟩

/-- What a pass of the atom loop that ends without error has done: either
the scan found a type and the atom is appended with that type, or no type
matched and both a new type and the atom are appended. -/
theorem addAtom_spec {K : Constant} {masses : List mass_index}
    {electrostatics : List electrostatic_index} {topo topo1 : GenericTopology}
    {i : Nat} {a : PDBAtom} (hnames : ∀ t ∈ topo.atomTypes, t.name ≠ [])
    (h : addAtom K masses electrostatics topo i a = .ok topo1) :
    ∃ e, findElectrostatics electrostatics (a.elementNum - 1) = some e ∧
      ((∃ t, topo.atomTypes[scanTypes topo.atomTypes a.elementName (e.epsilon * K.KJ_KCAL)
            (e.sigma * K.NM_ANGSTROM)]? = some t ∧
          t.epsilon = e.epsilon * K.KJ_KCAL ∧ t.sigma = e.sigma * K.NM_ANGSTROM ∧
          topo1 = { topo with
                    atoms := topo.atoms ++ [makeAtom K a e
                      (scanTypes topo.atomTypes a.elementName (e.epsilon * K.KJ_KCAL)
                        (e.sigma * K.NM_ANGSTROM)) t] }) ∨
        (∃ m, scanTypes topo.atomTypes a.elementName (e.epsilon * K.KJ_KCAL)
              (e.sigma * K.NM_ANGSTROM) = topo.atomTypes.length ∧
          findMass masses (a.elementNum - 1) = some m ∧
          topo1 = { topo with
                    atomTypes := topo.atomTypes ++
                      [newAtomType K a e m topo.atomTypes.length]
                    atoms := topo.atoms ++ [makeAtom K a e topo.atomTypes.length
                      (newAtomType K a e m topo.atomTypes.length)] })) := by
  cases he : findElectrostatics electrostatics (a.elementNum - 1) with
  | none =>
    unfold addAtom at h
    simp only [he] at h
    cases h
  | some e =>
    refine ⟨e, rfl, ?_⟩
    unfold addAtom at h
    simp only [he, tempEpsilonSigma] at h
    by_cases hscan : scanTypes topo.atomTypes a.elementName (e.epsilon * K.KJ_KCAL)
        (e.sigma * K.NM_ANGSTROM) = topo.atomTypes.length
    · right
      simp only [hscan, if_true] at h
      have hget : (topo.atomTypes ++ [({} : AtomType)]).getD topo.atomTypes.length {} = {} := by
        simp [List.getD_eq_getElem?_getD]
      rw [hget] at h
      simp only [updateType, List.length_nil, if_true] at h
      cases hm : findMass masses (a.elementNum - 1) with
      | none =>
        simp only [hm] at h
        cases h
      | some m =>
        simp only [hm] at h
        split at h
        · cases h
        · cases h
          refine ⟨m, hscan, rfl, ?_⟩
          simp only [set_length_append]
          rfl
    · left
      have hle : scanTypes topo.atomTypes a.elementName (e.epsilon * K.KJ_KCAL)
          (e.sigma * K.NM_ANGSTROM) ≤ topo.atomTypes.length := by
        unfold scanTypes
        exact List.findIdx_le_length _
      have hlt : scanTypes topo.atomTypes a.elementName (e.epsilon * K.KJ_KCAL)
          (e.sigma * K.NM_ANGSTROM) < topo.atomTypes.length := by omega
      simp only [hscan, if_false] at h
      rw [List.getD_eq_getElem _ _ hlt] at h
      have hne : (topo.atomTypes[scanTypes topo.atomTypes a.elementName (e.epsilon * K.KJ_KCAL)
          (e.sigma * K.NM_ANGSTROM)]).name.length ≠ 0 := by
        intro h0
        exact hnames _ (List.getElem_mem hlt) (List.length_eq_zero.1 h0)
      split at h
      · cases h
      · rename_i t hup
        obtain ⟨ht, heps, hsig⟩ := updateType_reuse hne hup
        subst ht
        split at h
        · cases h
        · cases h
          refine ⟨_, List.getElem?_eq_getElem hlt, heps, hsig, ?_⟩
          rw [set_of_getElem? _ _ _ (List.getElem?_eq_getElem hlt)]

theorem getElem?_snoc {α : Type} {l : List α} {x y : α} {i : Nat}
    (h : (l ++ [x])[i]? = some y) : l[i]? = some y ∨ (i = l.length ∧ x = y) := by
  rcases Nat.lt_trichotomy i l.length with hlt | heq | hgt
  · left
    rwa [List.getElem?_append_left hlt] at h
  · right
    subst heq
    simp at h
    exact ⟨rfl, h⟩
  · rw [List.getElem?_eq_none (by simp; omega)] at h
    cases h

theorem getElem?_append_of_some {α : Type} {l : List α} {y : α} {i : Nat} (l2 : List α)
    (h : l[i]? = some y) : (l ++ l2)[i]? = some y := by
  have hlt : i < l.length := by
    by_contra hn
    rw [List.getElem?_eq_none (by omega)] at h
    cases h
  rwa [List.getElem?_append_left hlt]

theorem lt_length_of_getElem? {α : Type} {l : List α} {y : α} {i : Nat}
    (h : l[i]? = some y) : i < l.length := by
  by_contra hn
  rw [List.getElem?_eq_none (by omega)] at h
  cases h

theorem atomLoopInv_names {K : Constant} {masses : List mass_index}
    {electrostatics : List electrostatic_index} {done : List PDBAtom} {topo : GenericTopology}
    (h : AtomLoopInv K masses electrostatics done topo) :
    ∀ t ∈ topo.atomTypes, t.name ≠ [] := by
  intro t ht
  obtain ⟨n, hn⟩ := List.getElem?_of_mem ht
  obtain ⟨c, a, atom, e, m, -, -, -, -, -, -, htyp⟩ := h.2.2 n t hn
  subst htyp
  simp [newAtomType]

theorem atomLoopInv_nil (K : Constant) (masses : List mass_index)
    (electrostatics : List electrostatic_index) :
    AtomLoopInv K masses electrostatics [] {} := by
  refine ⟨rfl, ?_, ?_⟩
  · intro i a atom h
    simp at h
  · intro t typ h
    simp at h

/-- One pass of the atom loop keeps `AtomLoopInv`. -/
theorem addAtom_atomLoopInv {K : Constant} {masses : List mass_index}
    {electrostatics : List electrostatic_index} {done : List PDBAtom}
    {topo topo1 : GenericTopology} {i : Nat} {a : PDBAtom}
    (hinv : AtomLoopInv K masses electrostatics done topo)
    (h : addAtom K masses electrostatics topo i a = .ok topo1) :
    AtomLoopInv K masses electrostatics (done ++ [a]) topo1 := by
  obtain ⟨e, he, hcase⟩ := addAtom_spec (atomLoopInv_names hinv) h
  obtain ⟨hlen, hatoms, htypes⟩ := hinv
  rcases hcase with ⟨t, ht, -, -, h1⟩ | ⟨m, hscan, hm, h1⟩
  · subst h1
    refine ⟨by simp [hlen], ?_, ?_⟩
    · intro k a1 atom hd ha
      rcases getElem?_snoc ha with ha | ⟨hk, ha⟩
      · have hk : k < done.length := hlen ▸ lt_length_of_getElem? ha
        rw [List.getElem?_append_left hk] at hd
        exact hatoms k a1 atom hd ha
      · subst ha
        rw [hk, hlen] at hd
        simp at hd
        subst hd
        exact ⟨e, t, he, ht, rfl⟩
    · intro n typ hn
      obtain ⟨c, a1, atom, e1, m1, hd, ha, hty, hfirst, he1, hm1, htyp⟩ := htypes n typ hn
      refine ⟨c, a1, atom, e1, m1, getElem?_append_of_some _ hd, getElem?_append_of_some _ ha,
        hty, ?_, he1, hm1, htyp⟩
      intro k atomk hk hak
      have hc : c < topo.atoms.length := lt_length_of_getElem? ha
      rw [List.getElem?_append_left (by omega)] at hak
      exact hfirst k atomk hk hak
  · subst h1
    refine ⟨by simp [hlen], ?_, ?_⟩
    · intro k a1 atom hd ha
      rcases getElem?_snoc ha with ha | ⟨hk, ha⟩
      · have hk : k < done.length := hlen ▸ lt_length_of_getElem? ha
        rw [List.getElem?_append_left hk] at hd
        obtain ⟨e1, t1, he1, ht1, hfix⟩ := hatoms k a1 atom hd ha
        exact ⟨e1, t1, he1, getElem?_append_of_some _ ht1, hfix⟩
      · subst ha
        rw [hk, hlen] at hd
        simp at hd
        subst hd
        refine ⟨e, newAtomType K a e m topo.atomTypes.length, he, ?_, rfl⟩
        simp [makeAtom]
    · intro n typ hn
      rcases getElem?_snoc hn with hn | ⟨hk, hn⟩
      · obtain ⟨c, a1, atom, e1, m1, hd, ha, hty, hfirst, he1, hm1, htyp⟩ := htypes n typ hn
        refine ⟨c, a1, atom, e1, m1, getElem?_append_of_some _ hd, getElem?_append_of_some _ ha,
          hty, ?_, he1, hm1, htyp⟩
        intro k atomk hk hak
        have hc : c < topo.atoms.length := lt_length_of_getElem? ha
        rw [List.getElem?_append_left (by omega)] at hak
        exact hfirst k atomk hk hak
      · subst hn
        subst hk
        refine ⟨done.length, a,
          makeAtom K a e topo.atomTypes.length (newAtomType K a e m topo.atomTypes.length),
          e, m, by simp, by simp [← hlen], rfl, ?_, he, hm, rfl⟩
        intro k atomk hk hak
        rw [List.getElem?_append_left (by omega)] at hak
        have hkd : k < done.length := hk
        obtain ⟨e1, t1, -, ht1, -⟩ := hatoms k done[k] atomk (List.getElem?_eq_getElem hkd) hak
        have := lt_length_of_getElem? ht1
        omega

/-- The atom loop keeps `AtomLoopInv`. -/
theorem addAtoms_atomLoopInv {K : Constant} {masses : List mass_index}
    {electrostatics : List electrostatic_index} :
    ∀ (rest done : List PDBAtom) (topo topo1 : GenericTopology) (i : Nat),
      AtomLoopInv K masses electrostatics done topo →
      addAtoms K masses electrostatics topo i rest = .ok topo1 →
      AtomLoopInv K masses electrostatics (done ++ rest) topo1
  | [], done, topo, topo1, i, hinv, h => by
    simp only [addAtoms] at h
    cases h
    simpa using hinv
  | a :: rest, done, topo, topo1, i, hinv, h => by
    simp only [addAtoms] at h
    split at h
    · cases h
    · rename_i topo2 h2
      have := addAtoms_atomLoopInv rest (done ++ [a]) topo2 topo1 (i + 1)
        (addAtom_atomLoopInv hinv h2) h
      simpa using this

theorem fixed_of_map_eq {l1 l2 : List Atom} (h : l1.map Atom.fixed = l2.map Atom.fixed)
    {n : Nat} {a : Atom} (ha : l1[n]? = some a) :
    ∃ a0, l2[n]? = some a0 ∧ a0.fixed = a.fixed := by
  have h1 : (l1.map Atom.fixed)[n]? = (l2.map Atom.fixed)[n]? := by rw [h]
  simp only [List.getElem?_map, ha, Option.map_some'] at h1
  cases h2 : l2[n]? with
  | none =>
    rw [h2] at h1
    cases h1
  | some a0 =>
    rw [h2] at h1
    simp only [Option.map_some', Option.some.injEq] at h1
    exact ⟨a0, rfl, h1.symm⟩

theorem type_eq_of_fixed {a b : Atom} (h : a.fixed = b.fixed) : a.type = b.type := by
  simp only [Atom.fixed, Prod.mk.injEq] at h
  exact h.2.1

/-- `AtomLoopInv` looks only at the part of the topology that the force loop
leaves alone. -/
theorem atomLoopInv_of_core {K : Constant} {masses : List mass_index}
    {electrostatics : List electrostatic_index} {done : List PDBAtom}
    {t0 t1 : GenericTopology} (htypes : t1.atomTypes = t0.atomTypes)
    (hfixed : t1.atoms.map Atom.fixed = t0.atoms.map Atom.fixed)
    (h : AtomLoopInv K masses electrostatics done t0) :
    AtomLoopInv K masses electrostatics done t1 := by
  obtain ⟨hlen, hatoms, hty⟩ := h
  refine ⟨?_, ?_, ?_⟩
  · have := congrArg List.length hfixed
    simp only [List.length_map] at this
    omega
  · intro i a atom hd ha
    obtain ⟨a0, ha0, hfix⟩ := fixed_of_map_eq hfixed ha
    obtain ⟨e, t, he, ht, hf⟩ := hatoms i a a0 hd ha0
    have htype := type_eq_of_fixed hfix
    rw [htype] at ht hf
    rw [hfix] at hf
    exact ⟨e, t, he, htypes ▸ ht, hf⟩
  · intro n typ hn
    rw [htypes] at hn
    obtain ⟨c, a, atom, e, m, hd, ha, htype, hfirst, he, hm, htyp⟩ := hty n typ hn
    obtain ⟨a1, ha1, hfix⟩ := fixed_of_map_eq hfixed.symm ha
    refine ⟨c, a, a1, e, m, hd, ha1, ?_, ?_, he, hm, htyp⟩
    · rw [type_eq_of_fixed hfix]
      exact htype
    · intro k atomk hk hak
      obtain ⟨a0, ha0, hfix0⟩ := fixed_of_map_eq hfixed hak
      rw [← type_eq_of_fixed hfix0]
      exact hfirst k a0 hk ha0

/-- The topology of a successful build satisfies `AtomLoopInv` for the whole
input. -/
theorem build_atomLoopInv {K : Constant} {doc : XMLDocument} {atoms : List PDBAtom}
    {topo : GenericTopology} (hb : buildTopologyFromXML K doc atoms = .ok topo) :
    AtomLoopInv K doc.masses (allParticles doc.forces) atoms topo := by
  unfold buildTopologyFromXML at hb
  split at hb
  · cases hb
  · rename_i st hst
    cases hb
    obtain ⟨es, topo0, hes, htopo, hloop⟩ := buildForces_ok hst
    have hes1 := readElectrostatics_eq _ _ _ hes
    simp only [List.nil_append] at hes1
    subst hes1
    have h0 := addAtoms_atomLoopInv atoms [] {} topo0 0
      (atomLoopInv_nil K doc.masses (allParticles doc.forces)) htopo
    simp only [List.nil_append] at h0
    obtain ⟨hcore, -, -⟩ := forces_ok _ _ _ hloop
    simp only [ForceState.core, Prod.mk.injEq] at hcore
    exact atomLoopInv_of_core hcore.1 hcore.2 h0

/-! ## Decimal numerals -/

theorem digitChar_value (k : Nat) (hk : k < 10) : (Nat.digitChar k).toNat - 48 = k := by
  interval_cases k <;> decide

theorem digitChar_ne_separator (k : Nat) (hk : k < 10) : Nat.digitChar k ≠ '_' := by
  interval_cases k <;> decide

theorem toDigitsCore_value :
    ∀ (fuel n : Nat) (ds : List Char), n < fuel →
      (Nat.toDigitsCore 10 fuel n ds).foldl (fun acc c => 10 * acc + (c.toNat - 48)) 0 =
        ds.foldl (fun acc c => 10 * acc + (c.toNat - 48)) n
  | 0, n, ds, h => by omega
  | fuel + 1, n, ds, h => by
    simp only [Nat.toDigitsCore]
    split
    · rename_i h0
      simp only [List.foldl_cons, Nat.mul_zero, Nat.zero_add]
      rw [digitChar_value _ (Nat.mod_lt _ (by decide))]
      have : n % 10 = n := by omega
      rw [this]
    · rename_i h0
      rw [toDigitsCore_value fuel (n / 10) _ (by omega)]
      simp only [List.foldl_cons]
      rw [digitChar_value _ (Nat.mod_lt _ (by decide))]
      have : 10 * (n / 10) + n % 10 = n := Nat.div_add_mod n 10
      rw [this]

theorem toDigitsCore_chars :
    ∀ (fuel n : Nat) (ds : List Char), (∀ c ∈ ds, c ≠ '_') →
      ∀ c ∈ Nat.toDigitsCore 10 fuel n ds, c ≠ '_'
  | 0, n, ds, h => by
    simpa [Nat.toDigitsCore] using h
  | fuel + 1, n, ds, h => by
    have hcons : ∀ c ∈ Nat.digitChar (n % 10) :: ds, c ≠ '_' := by
      intro c hc
      rcases List.mem_cons.1 hc with rfl | hc
      · exact digitChar_ne_separator _ (Nat.mod_lt _ (by decide))
      · exact h c hc
    simp only [Nat.toDigitsCore]
    split
    · exact hcons
    · exact toDigitsCore_chars fuel (n / 10) _ hcons

/-- Reading the decimal numeral of `n` digit by digit gives back `n`. -/
theorem decimal_value (n : Nat) :
    (decimal n).foldl (fun acc c => 10 * acc + (c.toNat - 48)) 0 = n := by
  show (Nat.toDigitsCore 10 (n + 1) n []).foldl (fun acc c => 10 * acc + (c.toNat - 48)) 0 = n
  rw [toDigitsCore_value _ _ _ (Nat.lt_succ_self n)]
  rfl

theorem decimal_injective {m n : Nat} (h : decimal m = decimal n) : m = n := by
  rw [← decimal_value m, ← decimal_value n, h]

theorem decimal_no_separator (n : Nat) : ∀ c ∈ decimal n, c ≠ '_' := by
  show ∀ c ∈ Nat.toDigitsCore 10 (n + 1) n [], c ≠ '_'
  exact toDigitsCore_chars _ _ _ (by simp)

theorem takeWhile_separator (sep : Char) :
    ∀ (d r : List Char), (∀ c ∈ d, c ≠ sep) →
      (d ++ sep :: r).takeWhile (fun c => decide (c ≠ sep)) = d
  | [], r, _ => by simp
  | x :: d, r, h => by
    have hx : x ≠ sep := h x (List.mem_cons_self _ _)
    simp only [List.cons_append, List.takeWhile_cons, hx, ne_eq, not_false_eq_true,
      decide_True, if_true]
    rw [takeWhile_separator sep d r (fun c hc => h c (List.mem_cons_of_mem _ hc))]

/-- A name `<elementName>_<t>` determines `t`, whatever the element name. -/
theorem typeName_index {n1 n2 : Str} {t1 t2 : Nat}
    (h : n1 ++ ['_'] ++ decimal t1 = n2 ++ ['_'] ++ decimal t2) : t1 = t2 := by
  have hr := congrArg List.reverse h
  simp only [List.reverse_append, List.reverse_cons, List.reverse_nil, List.nil_append,
    List.append_assoc, List.singleton_append] at hr
  have h1 := takeWhile_separator '_' (decimal t1).reverse n1.reverse
    (fun c hc => decimal_no_separator t1 c (List.mem_reverse.1 hc))
  have h2 := takeWhile_separator '_' (decimal t2).reverse n2.reverse
    (fun c hc => decimal_no_separator t2 c (List.mem_reverse.1 hc))
  rw [hr, h2] at h1
  exact (decimal_injective (List.reverse_injective h1)).symm

/-! ## Type names, charges and masses -/

/-- C18: in every successful build the type at index `t` is named
`<elementName>_<t>` (the decimal numeral of `t`), where `elementName` is the
element name of the first input atom whose atom record points to type `t`;
and no two entries of the type list have the same name, whatever characters
the element names contain. -/
theorem type_names (K : Constant) (doc : XMLDocument) (atoms : List PDBAtom)
    (topo : GenericTopology) (hb : buildTopologyFromXML K doc atoms = .ok topo) :
    (∀ (t : Nat) (typ : AtomType), topo.atomTypes[t]? = some typ →
        ∃ c a atom, atoms[c]? = some a ∧ topo.atoms[c]? = some atom ∧ atom.type = t ∧
          (∀ (k : Nat) (atomk : Atom), k < c → topo.atoms[k]? = some atomk → atomk.type ≠ t) ∧
          typ.name = a.elementName ++ ['_'] ++ decimal t) ∧
      (topo.atomTypes.map (fun t => t.name)).Nodup := by
  obtain ⟨-, -, htypes⟩ := build_atomLoopInv hb
  have hname : ∀ (t : Nat) (typ : AtomType), topo.atomTypes[t]? = some typ →
      ∃ c a atom, atoms[c]? = some a ∧ topo.atoms[c]? = some atom ∧ atom.type = t ∧
        (∀ (k : Nat) (atomk : Atom), k < c → topo.atoms[k]? = some atomk → atomk.type ≠ t) ∧
        typ.name = a.elementName ++ ['_'] ++ decimal t := by
    intro t typ ht
    obtain ⟨c, a, atom, e, m, hd, ha, hty, hfirst, -, -, htyp⟩ := htypes t typ ht
    exact ⟨c, a, atom, hd, ha, hty, hfirst, by rw [htyp]; rfl⟩
  refine ⟨hname, ?_⟩
  rw [List.nodup_iff_getElem?_ne_getElem?]
  intro i j hij hj heq
  simp only [List.length_map] at hj
  have hi : i < topo.atomTypes.length := by omega
  simp only [List.getElem?_map, List.getElem?_eq_getElem hi, List.getElem?_eq_getElem hj,
    Option.map_some', Option.some.injEq] at heq
  obtain ⟨-, a1, -, -, -, -, -, h1⟩ := hname i _ (List.getElem?_eq_getElem hi)
  obtain ⟨-, a2, -, -, -, -, -, h2⟩ := hname j _ (List.getElem?_eq_getElem hj)
  rw [h1, h2] at heq
  have := typeName_index heq
  omega

theorem type_names_witness :
    buildTopologyFromXML sampleConstant docPlain atomsTwo = .ok topoPlain ∧
      topoPlain.atomTypes.map (fun t => t.name) = ["CA_0".toList, "HB2_1".toList] ∧
      topoPlain.atoms.map (fun a => a.type) = [0, 1] ∧
      (∀ (t : Nat) (typ : AtomType), topoPlain.atomTypes[t]? = some typ →
        ∃ c a atom, atomsTwo[c]? = some a ∧ topoPlain.atoms[c]? = some atom ∧ atom.type = t ∧
          (∀ (k : Nat) (atomk : Atom), k < c → topoPlain.atoms[k]? = some atomk →
            atomk.type ≠ t) ∧
          typ.name = a.elementName ++ ['_'] ++ decimal t) ∧
      (topoPlain.atomTypes.map (fun t => t.name)).Nodup :=
  ⟨by decide!, by decide!, by decide!,
    type_names sampleConstant docPlain atomsTwo topoPlain (by decide!)⟩

/-- C19: in every successful build there is one atom per input record, and
for the atom at position `i`, made from input record `a`: `scaledCharge` is
the charge of the first electrostatic record with index `a.elementNum - 1`
times `SQRTCOULOMBCONSTANT`; `scaledMass` is the mass field of the type at
`atoms[i].type`; and that mass is the mass of the first mass record with
index `first.elementNum - 1`, where `first` is the first input record whose
atom points to that type. -/
theorem atom_charge_and_mass (K : Constant) (doc : XMLDocument) (atoms : List PDBAtom)
    (topo : GenericTopology) (hb : buildTopologyFromXML K doc atoms = .ok topo) :
    topo.atoms.length = atoms.length ∧
      ∀ (i : Nat) (a : PDBAtom) (atom : Atom), atoms[i]? = some a → topo.atoms[i]? = some atom →
        ∃ e typ, findElectrostatics (allParticles doc.forces) (a.elementNum - 1) = some e ∧
          atom.scaledCharge = e.charge * K.SQRTCOULOMBCONSTANT ∧
          topo.atomTypes[atom.type]? = some typ ∧
          atom.scaledMass = typ.mass ∧
          ∃ c first atomc m, atoms[c]? = some first ∧ topo.atoms[c]? = some atomc ∧
            atomc.type = atom.type ∧
            (∀ (k : Nat) (atomk : Atom), k < c → topo.atoms[k]? = some atomk →
              atomk.type ≠ atom.type) ∧
            findMass doc.masses (first.elementNum - 1) = some m ∧
            typ.mass = m.mass := by
  obtain ⟨hlen, hatoms, htypes⟩ := build_atomLoopInv hb
  refine ⟨hlen, ?_⟩
  intro i a atom hd ha
  obtain ⟨e, typ, he, ht, hfix⟩ := hatoms i a atom hd ha
  obtain ⟨c, first, atomc, e1, m, hd1, ha1, hty, hfirst, -, hm, htyp⟩ := htypes _ typ ht
  simp only [Atom.fixed, makeAtom, Prod.mk.injEq] at hfix
  refine ⟨e, typ, he, hfix.2.2.2.2.1, ht, hfix.2.2.2.2.2.1, c, first, atomc, m, hd1, ha1, hty,
    hfirst, hm, by rw [htyp]; rfl⟩

theorem atom_charge_and_mass_witness :
    buildTopologyFromXML sampleConstant docOneMass atomsSameName = .ok topoOneMass ∧
      topoOneMass.atoms.map (fun a => (a.type, a.scaledCharge, a.scaledMass)) =
        [(0, 1 / 2 * sampleConstant.SQRTCOULOMBCONSTANT, 12),
          (0, 1 / 2 * sampleConstant.SQRTCOULOMBCONSTANT, 12)] ∧
      topoOneMass.atoms.length = atomsSameName.length ∧
      ∀ (i : Nat) (a : PDBAtom) (atom : Atom), atomsSameName[i]? = some a →
        topoOneMass.atoms[i]? = some atom →
        ∃ e typ, findElectrostatics (allParticles docOneMass.forces) (a.elementNum - 1) = some e ∧
          atom.scaledCharge = e.charge * sampleConstant.SQRTCOULOMBCONSTANT ∧
          topoOneMass.atomTypes[atom.type]? = some typ ∧
          atom.scaledMass = typ.mass ∧
          ∃ c first atomc m, atomsSameName[c]? = some first ∧
            topoOneMass.atoms[c]? = some atomc ∧
            atomc.type = atom.type ∧
            (∀ (k : Nat) (atomk : Atom), k < c → topoOneMass.atoms[k]? = some atomk →
              atomk.type ≠ atom.type) ∧
            findMass docOneMass.masses (first.elementNum - 1) = some m ∧
            typ.mass = m.mass :=
  ⟨by decide!, by decide!,
    atom_charge_and_mass sampleConstant docOneMass atomsSameName topoOneMass (by decide!)⟩

/-! ## Torsions -/

/-- The torsion loop cannot fail: it appends the record of every child. -/
theorem forEach_addTorsion_eq (K : Constant) :
    ∀ (l : List XMLTorsion) (st : ForceState),
      forEach (addTorsion K) st l =
        .ok { st with
              topo := { st.topo with
                        dihedrals := st.topo.dihedrals ++ l.map (torsionRecord K) } }
  | [], st => by
    simp [forEach]
  | x :: xs, st => by
    simp only [forEach, addTorsion]
    rw [forEach_addTorsion_eq K xs]
    simp [torsionRecord]

theorem addGBSAParticle_dihedrals {K : Constant} {n : Nat} {st st1 : ForceState}
    {x : XMLGBSAParticle} (h : addGBSAParticle K n st x = .ok st1) :
    st1.topo.dihedrals = st.topo.dihedrals := by
  unfold addGBSAParticle at h
  simp only [] at h
  split at h
  · cases h
  · split at h
    · cases h
    · cases h
      rfl

theorem addBond_dihedrals {K : Constant} {st st1 : ForceState} {x : XMLBond}
    (h : addBond K st x = .ok st1) : st1.topo.dihedrals = st.topo.dihedrals := by
  unfold addBond at h
  simp only [] at h
  split at h
  · cases h
  · split at h
    · cases h
    · cases h
      rfl

theorem processForce_dihedrals {K : Constant} {n : Nat} {st st1 : ForceState} {f : XMLForce}
    (h : processForce K n st f = .ok st1) :
    st1.topo.dihedrals = st.topo.dihedrals ++ f.torsionEntries.map (torsionRecord K) := by
  cases f with
  | NonbondedForce pc ps c es =>
    simp only [processForce, addExceptions] at h
    split at h
    · cases h
    · split at h
      · cases h
      · cases h
        simp [XMLForce.torsionEntries]
  | HarmonicBondForce c l =>
    simp only [processForce] at h
    split at h
    · cases h
    · rename_i s2 hs2
      split at h
      · cases h
      · cases h
        have := forEach_invariant (addBond K) (fun s => s.topo.dihedrals = st.topo.dihedrals)
          (fun s x s1 hb hs => (addBond_dihedrals hb).trans hs) l st _ hs2 rfl
        simp [XMLForce.torsionEntries, this]
  | HarmonicAngleForce c l =>
    simp only [processForce] at h
    split at h
    · cases h
    · rename_i s2 hs2
      split at h
      · cases h
      · cases h
        have := forEach_invariant (addAngle K) (fun s => s.topo.dihedrals = st.topo.dihedrals)
          (fun s x s1 hb hs => by
            unfold addAngle at hb
            cases hb
            exact hs) l st _ hs2 rfl
        simp [XMLForce.torsionEntries, this]
  | PeriodicTorsionForce c l =>
    simp only [processForce, forEach_addTorsion_eq] at h
    split at h
    · cases h
    · cases h
      rfl
  | GBSAOBCForce c l =>
    simp only [processForce, addGBSA] at h
    split at h
    · cases h
    · have := forEach_invariant (addGBSAParticle K n)
        (fun s => s.topo.dihedrals = st.topo.dihedrals)
        (fun s x s1 hb hs => (addGBSAParticle_dihedrals hb).trans hs) l _ _ h
        (by split <;> rfl)
      simp [XMLForce.torsionEntries, this]
  | other =>
    simp only [processForce] at h
    cases h
    simp [XMLForce.torsionEntries]

theorem forces_dihedrals {K : Constant} {n : Nat} :
    ∀ (l : List XMLForce) (st st1 : ForceState),
      forEach (processForce K n) st l = .ok st1 →
      st1.topo.dihedrals = st.topo.dihedrals ++ (allTorsions l).map (torsionRecord K)
  | [], st, st1, h => by
    simp only [forEach] at h
    cases h
    simp [allTorsions]
  | f :: fs, st, st1, h => by
    simp only [forEach] at h
    cases hf : processForce K n st f with
    | error err => rw [hf] at h; cases h
    | ok st2 =>
      rw [hf] at h
      rw [forces_dihedrals fs st2 st1 h, processForce_dihedrals hf]
      simp [allTorsions]

/-- C21: the torsion loop appends one `Torsion` record per child of the
container, in document order, each with multiplicity 1 and one periodicity,
one phase shift and one force constant; the pass for the container ends
without error exactly when the count is the size of the vector after it.  In
every successful build the torsion vector is the list of the records of all
torsion children of the document: it has one entry per child, also for
children with the same four atom indices, and every entry has multiplicity 1
and lists of length 1. -/
theorem torsion_records (K : Constant) :
    (∀ (st : ForceState) (torsions : List XMLTorsion),
      ∃ st1, forEach (addTorsion K) st torsions = .ok st1 ∧
        st1.topo.dihedrals = st.topo.dihedrals ++ torsions.map (torsionRecord K) ∧
        ∀ (n : Nat) (count : Int),
          processForce K n st (.PeriodicTorsionForce count torsions) =
            if count = ((st.topo.dihedrals.length + torsions.length : Nat) : Int) then .ok st1
            else .error .dihedralsCount) ∧
    (∀ x : XMLTorsion,
      (torsionRecord K x).multiplicity = 1 ∧
        (torsionRecord K x).periodicity = [x.periodicity] ∧
        (torsionRecord K x).phaseShift = [x.phase] ∧
        (torsionRecord K x).forceConstant = [x.k * K.KJ_KCAL] ∧
        ((torsionRecord K x).atom1, (torsionRecord K x).atom2, (torsionRecord K x).atom3,
          (torsionRecord K x).atom4) = (x.particle1, x.particle2, x.particle3, x.particle4)) ∧
    (∀ (doc : XMLDocument) (atoms : List PDBAtom) (topo : GenericTopology),
      buildTopologyFromXML K doc atoms = .ok topo →
      topo.dihedrals = (allTorsions doc.forces).map (torsionRecord K) ∧
        topo.dihedrals.length = (allTorsions doc.forces).length ∧
        ∀ t ∈ topo.dihedrals, t.multiplicity = 1 ∧ t.periodicity.length = 1 ∧
          t.phaseShift.length = 1 ∧ t.forceConstant.length = 1) := by
  refine ⟨?_, ?_, ?_⟩
  · intro st torsions
    refine ⟨_, forEach_addTorsion_eq K torsions st, rfl, ?_⟩
    intro n count
    simp only [processForce, forEach_addTorsion_eq, List.length_append, List.length_map]
    by_cases hc : count = ((st.topo.dihedrals.length + torsions.length : Nat) : Int)
    · rw [if_pos hc, if_neg]
      rw [hc]
      simp
    · rw [if_neg hc, if_pos]
      intro h
      exact hc (by rw [← h])
  · intro x
    exact ⟨rfl, rfl, rfl, rfl, rfl⟩
  · intro doc atoms topo hb
    unfold buildTopologyFromXML at hb
    split at hb
    · cases hb
    · rename_i st hst
      cases hb
      obtain ⟨es, topo0, hes, htopo, hloop⟩ := buildForces_ok hst
      obtain ⟨_, _, _, hd0, _⟩ := addAtoms_initial htopo
      have h1 := forces_dihedrals _ _ _ hloop
      simp only [hd0, List.nil_append] at h1
      refine ⟨h1, by simp [h1], ?_⟩
      intro t ht
      simp only [h1, List.mem_map] at ht
      obtain ⟨x, -, rfl⟩ := ht
      exact ⟨rfl, rfl, rfl, rfl⟩

theorem torsion_records_witness :
    buildTopologyFromXML sampleConstant docTwoTorsions atomsThree = .ok topoTwoTorsions ∧
      topoTwoTorsions.dihedrals.map (fun t => (t.atom1, t.atom2, t.atom3, t.atom4,
          t.multiplicity, t.periodicity)) =
        [(0, 1, 2, 0, 1, [1]), (0, 1, 2, 0, 1, [3])] ∧
      topoTwoTorsions.dihedrals =
        (allTorsions docTwoTorsions.forces).map (torsionRecord sampleConstant) ∧
      topoTwoTorsions.dihedrals.length = (allTorsions docTwoTorsions.forces).length ∧
      ∀ t ∈ topoTwoTorsions.dihedrals, t.multiplicity = 1 ∧ t.periodicity.length = 1 ∧
        t.phaseShift.length = 1 ∧ t.forceConstant.length = 1 :=
  ⟨by decide!, by decide!,
    (torsion_records sampleConstant).2.2 docTwoTorsions atomsThree topoTwoTorsions
      (by decide!)⟩

/-! ## Heavy-atom group size: the positions read -/

/-- A type that the scan selects passes the test of lines 212-214. -/
theorem scanTypes_matches {atomTypes : List AtomType} {elementName : Str}
    {tempepsilon tempsigma : ℚ}
    (h : scanTypes atomTypes elementName tempepsilon tempsigma < atomTypes.length) :
    ∃ t, atomTypes[scanTypes atomTypes elementName tempepsilon tempsigma]? = some t ∧
      elementName = namePart t.name ∧ t.epsilon = tempepsilon ∧ t.sigma = tempsigma := by
  refine ⟨_, List.getElem?_eq_getElem h, ?_⟩
  have hm : typeMatches elementName tempepsilon tempsigma
      (atomTypes[scanTypes atomTypes elementName tempepsilon tempsigma]) = true := by
    unfold scanTypes
    exact List.findIdx_getElem
  simp only [typeMatches, Bool.and_eq_true, decide_eq_true_eq] at hm
  exact ⟨hm.1.1, hm.1.2, hm.2⟩

theorem updateType_no_mismatch {K : Constant} {masses : List mass_index} {a : PDBAtom}
    {e : electrostatic_index} {atype : Nat} {t : AtomType} {err : BuildError}
    (ht : t.name = [] ∨ (t.epsilon = e.epsilon * K.KJ_KCAL ∧ t.sigma = e.sigma * K.NM_ANGSTROM))
    (h : updateType K masses a e atype t = .error err) : err.isTypeMismatch = false := by
  unfold updateType at h
  split at h
  · split at h
    · cases h; rfl
    · cases h
  · rename_i hname
    rcases ht with ht | ⟨h1, h2⟩
    · rw [ht] at hname
      exact absurd rfl hname
    · rw [if_neg (not_not.2 h1), if_neg (not_not.2 h2)] at h
      cases h

/-- No pass of the atom loop ends with "Epsilon error" or "Sigma error",
whatever the topology it starts from. -/
theorem addAtom_no_mismatch {K : Constant} {masses : List mass_index}
    {electrostatics : List electrostatic_index} {topo : GenericTopology}
    {i : Nat} {a : PDBAtom} {err : BuildError}
    (h : addAtom K masses electrostatics topo i a = .error err) :
    err.isTypeMismatch = false := by
  cases he : findElectrostatics electrostatics (a.elementNum - 1) with
  | none =>
    unfold addAtom at h
    simp only [he] at h
    cases h
    rfl
  | some e =>
    unfold addAtom at h
    simp only [he, tempEpsilonSigma] at h
    split at h
    · rename_i err1 hup
      cases h
      refine updateType_no_mismatch ?_ hup
      by_cases hscan : scanTypes topo.atomTypes a.elementName (e.epsilon * K.KJ_KCAL)
          (e.sigma * K.NM_ANGSTROM) = topo.atomTypes.length
      · left
        simp [hscan, List.getD_eq_getElem?_getD]
      · right
        have hle : scanTypes topo.atomTypes a.elementName (e.epsilon * K.KJ_KCAL)
            (e.sigma * K.NM_ANGSTROM) ≤ topo.atomTypes.length := by
          unfold scanTypes
          exact List.findIdx_le_length _
        obtain ⟨t, ht, -, h1, h2⟩ := scanTypes_matches (Nat.lt_of_le_of_ne hle hscan)
        simp only [hscan, if_false, List.getD_eq_getElem?_getD, ht, Option.getD_some]
        exact ⟨h1, h2⟩
    · split at h
      · cases h
        rfl
      · cases h

theorem addAtoms_no_mismatch {K : Constant} {masses : List mass_index}
    {electrostatics : List electrostatic_index} :
    ∀ (rest : List PDBAtom) (topo : GenericTopology) (i : Nat) (err : BuildError),
      addAtoms K masses electrostatics topo i rest = .error err →
      err.isTypeMismatch = false
  | [], topo, i, err, h => by simp [addAtoms] at h
  | a :: rest, topo, i, err, h => by
    simp only [addAtoms] at h
    cases ha : addAtom K masses electrostatics topo i a with
    | error e =>
      rw [ha] at h
      cases h
      exact addAtom_no_mismatch ha
    | ok topo2 =>
      rw [ha] at h
      exact addAtoms_no_mismatch rest topo2 (i + 1) err h

theorem readElectrostatics_no_mismatch :
    ∀ (l : List XMLForce) (acc : List electrostatic_index) (err : BuildError),
      readElectrostatics l acc = .error err → err.isTypeMismatch = false
  | [], acc, err, h => by simp [readElectrostatics] at h
  | f :: rest, acc, err, h => by
    cases f with
    | NonbondedForce pc ps ec es =>
      simp only [readElectrostatics] at h
      split at h
      · cases h
        rfl
      · exact readElectrostatics_no_mismatch rest _ err h
    | HarmonicBondForce c l =>
      simp only [readElectrostatics] at h
      exact readElectrostatics_no_mismatch rest _ err h
    | HarmonicAngleForce c l =>
      simp only [readElectrostatics] at h
      exact readElectrostatics_no_mismatch rest _ err h
    | PeriodicTorsionForce c l =>
      simp only [readElectrostatics] at h
      exact readElectrostatics_no_mismatch rest _ err h
    | GBSAOBCForce c l =>
      simp only [readElectrostatics] at h
      exact readElectrostatics_no_mismatch rest _ err h
    | other =>
      simp only [readElectrostatics] at h
      exact readElectrostatics_no_mismatch rest _ err h

theorem processForce_no_mismatch {K : Constant} {n : Nat} {st : ForceState} {f : XMLForce}
    {err : BuildError} (h : processForce K n st f = .error err) :
    err.isTypeMismatch = false := by
  cases f with
  | NonbondedForce pc ps c es =>
    simp only [processForce, addExceptions] at h
    split at h
    · rename_i e he
      cases h
      rw [forEach_error _ (fun e => e = BuildError.outOfRange)
        (fun _ _ _ hb => addException_error hb) _ _ _ he]
      rfl
    · split at h
      · cases h; rfl
      · cases h
  | HarmonicBondForce c l =>
    simp only [processForce] at h
    split at h
    · rename_i e he
      cases h
      rw [forEach_error _ (fun e => e = BuildError.outOfRange)
        (fun _ _ _ hb => addBond_error hb) _ _ _ he]
      rfl
    · split at h
      · cases h; rfl
      · cases h
  | HarmonicAngleForce c l =>
    simp only [processForce] at h
    split at h
    · rename_i e he
      have := forEach_error (addAngle K) (fun _ => False)
        (fun s x e1 hb => by simp [addAngle] at hb) _ _ _ he
      exact this.elim
    · split at h
      · cases h; rfl
      · cases h
  | PeriodicTorsionForce c l =>
    simp only [processForce, forEach_addTorsion_eq] at h
    split at h
    · cases h; rfl
    · cases h
  | GBSAOBCForce c l =>
    simp only [processForce, addGBSA] at h
    split at h
    · cases h; rfl
    · have := forEach_error (addGBSAParticle K n)
        (fun e => e = BuildError.gbsaBounds ∨ e = BuildError.outOfRange)
        (fun _ _ _ hb => addGBSAParticle_error hb) _ _ _ h
      rcases this with rfl | rfl <;> rfl
  | other =>
    simp only [processForce] at h
    cases h

theorem forces_no_mismatch {K : Constant} {n : Nat} :
    ∀ (l : List XMLForce) (st : ForceState) (err : BuildError),
      forEach (processForce K n) st l = .error err → err.isTypeMismatch = false :=
  fun l st err h =>
    forEach_error (processForce K n) (fun e => e.isTypeMismatch = false)
      (fun _ _ _ hb => processForce_no_mismatch hb) l st err h

/-- Induction over the atom loop for a property of the records read so far
and the topology, next to `AtomLoopInv`. -/
theorem addAtoms_induction {K : Constant} {masses : List mass_index}
    {electrostatics : List electrostatic_index}
    (P : List PDBAtom → GenericTopology → Prop)
    (hstep : ∀ (done : List PDBAtom) (topo topo1 : GenericTopology) (i : Nat) (a : PDBAtom),
      AtomLoopInv K masses electrostatics done topo → P done topo →
      addAtom K masses electrostatics topo i a = .ok topo1 → P (done ++ [a]) topo1) :
    ∀ (rest done : List PDBAtom) (topo topo1 : GenericTopology) (i : Nat),
      AtomLoopInv K masses electrostatics done topo → P done topo →
      addAtoms K masses electrostatics topo i rest = .ok topo1 →
      P (done ++ rest) topo1
  | [], done, topo, topo1, i, _, hP, h => by
    simp only [addAtoms] at h
    cases h
    simpa using hP
  | a :: rest, done, topo, topo1, i, hinv, hP, h => by
    simp only [addAtoms] at h
    split at h
    · cases h
    · rename_i topo2 h2
      have := addAtoms_induction P hstep rest (done ++ [a]) topo2 topo1 (i + 1)
        (addAtom_atomLoopInv hinv h2) (hstep done topo topo2 i a hinv hP h2) h
      simpa using this

/-- A successful build has run the atom loop on the particle entries of the
document, and its types and the fixed fields of its atoms are those the atom
loop left. -/
theorem build_atom_loop {K : Constant} {doc : XMLDocument} {atoms : List PDBAtom}
    {topo : GenericTopology} (hb : buildTopologyFromXML K doc atoms = .ok topo) :
    ∃ topo0, addAtoms K doc.masses (allParticles doc.forces) {} 0 atoms = .ok topo0 ∧
      topo.atomTypes = topo0.atomTypes ∧
      topo.atoms.map Atom.fixed = topo0.atoms.map Atom.fixed := by
  unfold buildTopologyFromXML at hb
  split at hb
  · cases hb
  · rename_i st hst
    cases hb
    obtain ⟨es, topo0, hes, htopo, hloop⟩ := buildForces_ok hst
    have hes1 := readElectrostatics_eq _ _ _ hes
    simp only [List.nil_append] at hes1
    subst hes1
    obtain ⟨hcore, -, -⟩ := forces_ok _ _ _ hloop
    simp only [ForceState.core, Prod.mk.injEq] at hcore
    exact ⟨topo0, htopo, hcore.1, hcore.2⟩

theorem addAtom_typeParamsAgree {K : Constant} {masses : List mass_index}
    {electrostatics : List electrostatic_index} (done : List PDBAtom)
    (topo topo1 : GenericTopology) (i : Nat) (a : PDBAtom)
    (hinv : AtomLoopInv K masses electrostatics done topo)
    (hP : TypeParamsAgree K electrostatics done topo)
    (h : addAtom K masses electrostatics topo i a = .ok topo1) :
    TypeParamsAgree K electrostatics (done ++ [a]) topo1 := by
  obtain ⟨e, he, hcase⟩ := addAtom_spec (atomLoopInv_names hinv) h
  have hlen := hinv.1
  rcases hcase with ⟨t, ht, heps, hsig, h1⟩ | ⟨m, hscan, hm, h1⟩
  · subst h1
    intro k a1 atom hd ha
    rcases getElem?_snoc ha with ha | ⟨hk, ha⟩
    · have hk : k < done.length := hlen ▸ lt_length_of_getElem? ha
      rw [List.getElem?_append_left hk] at hd
      exact hP k a1 atom hd ha
    · subst ha
      rw [hk, hlen] at hd
      simp at hd
      subst hd
      exact ⟨e, t, he, ht, heps, hsig⟩
  · subst h1
    intro k a1 atom hd ha
    rcases getElem?_snoc ha with ha | ⟨hk, ha⟩
    · have hk : k < done.length := hlen ▸ lt_length_of_getElem? ha
      rw [List.getElem?_append_left hk] at hd
      obtain ⟨e1, t1, he1, ht1, hp⟩ := hP k a1 atom hd ha
      exact ⟨e1, t1, he1, getElem?_append_of_some _ ht1, hp⟩
    · subst ha
      rw [hk, hlen] at hd
      simp at hd
      subst hd
      refine ⟨e, newAtomType K a e m topo.atomTypes.length, he, ?_, rfl, rfl⟩
      simp [makeAtom]

/-- C23: a type that the scan selects has the epsilon and sigma the scan was
given, which for an atom with an electrostatic record are its unit-converted
epsilon and sigma; so no pass of the atom loop, and no build, ends with
"Epsilon error" or "Sigma error", and in every successful build the type of
every atom has the converted epsilon and sigma of the atom's electrostatic
record. -/
theorem reused_type_check_unreachable (K : Constant) :
    (∀ (atomTypes : List AtomType) (a : PDBAtom) (e : electrostatic_index),
      scanTypes atomTypes a.elementName (e.epsilon * K.KJ_KCAL) (e.sigma * K.NM_ANGSTROM) <
        atomTypes.length →
      ∃ t, atomTypes[scanTypes atomTypes a.elementName (e.epsilon * K.KJ_KCAL)
          (e.sigma * K.NM_ANGSTROM)]? = some t ∧
        t.epsilon = e.epsilon * K.KJ_KCAL ∧ t.sigma = e.sigma * K.NM_ANGSTROM) ∧
    (∀ (masses : List mass_index) (electrostatics : List electrostatic_index)
      (topo : GenericTopology) (i : Nat) (a : PDBAtom),
      addAtom K masses electrostatics topo i a ≠ .error .epsilonError ∧
        addAtom K masses electrostatics topo i a ≠ .error .sigmaError) ∧
    (∀ (doc : XMLDocument) (atoms : List PDBAtom),
      buildTopologyFromXML K doc atoms ≠ .error .epsilonError ∧
        buildTopologyFromXML K doc atoms ≠ .error .sigmaError) ∧
    (∀ (doc : XMLDocument) (atoms : List PDBAtom) (topo : GenericTopology),
      buildTopologyFromXML K doc atoms = .ok topo →
      ∀ (i : Nat) (a : PDBAtom) (atom : Atom), atoms[i]? = some a → topo.atoms[i]? = some atom →
        ∃ e t, findElectrostatics (allParticles doc.forces) (a.elementNum - 1) = some e ∧
          topo.atomTypes[atom.type]? = some t ∧
          t.epsilon = e.epsilon * K.KJ_KCAL ∧ t.sigma = e.sigma * K.NM_ANGSTROM) := by
  refine ⟨?_, ?_, ?_, ?_⟩
  · intro atomTypes a e h
    obtain ⟨t, ht, -, h1, h2⟩ := scanTypes_matches h
    exact ⟨t, ht, h1, h2⟩
  · intro masses electrostatics topo i a
    constructor
    · intro h
      have := addAtom_no_mismatch h
      simp [BuildError.isTypeMismatch] at this
    · intro h
      have := addAtom_no_mismatch h
      simp [BuildError.isTypeMismatch] at this
  · intro doc atoms
    have key : ∀ err, buildTopologyFromXML K doc atoms = .error err →
        err.isTypeMismatch = false := by
      intro err h
      unfold buildTopologyFromXML buildForces at h
      split at h
      · rename_i err1 h1
        cases h
        split at h1
        · rename_i err2 h2
          cases h1
          exact readElectrostatics_no_mismatch _ _ _ h2
        · split at h1
          · rename_i err2 h2
            cases h1
            exact addAtoms_no_mismatch _ _ _ _ h2
          · exact forces_no_mismatch _ _ _ h1
      · cases h
    constructor
    · intro h
      have := key _ h
      simp [BuildError.isTypeMismatch] at this
    · intro h
      have := key _ h
      simp [BuildError.isTypeMismatch] at this
  · intro doc atoms topo hb i a atom hd ha
    obtain ⟨topo0, h0, htypes, hfixed⟩ := build_atom_loop hb
    have hP := addAtoms_induction (TypeParamsAgree K (allParticles doc.forces))
      addAtom_typeParamsAgree atoms [] {} topo0 0
      (atomLoopInv_nil K doc.masses (allParticles doc.forces))
      (fun i a atom h => by simp at h) h0
    simp only [List.nil_append] at hP
    obtain ⟨a0, ha0, hfix⟩ := fixed_of_map_eq hfixed ha
    obtain ⟨e, t, he, ht, hp⟩ := hP i a a0 hd ha0
    rw [type_eq_of_fixed hfix] at ht
    exact ⟨e, t, he, htypes ▸ ht, hp⟩

theorem reused_type_check_unreachable_witness :
    buildTopologyFromXML sampleConstant docOneMass atomsSameName = .ok topoOneMass ∧
      topoOneMass.atoms.map (fun a => a.type) = [0, 0] ∧
      ∀ (i : Nat) (a : PDBAtom) (atom : Atom), atomsSameName[i]? = some a →
        topoOneMass.atoms[i]? = some atom →
        ∃ e t, findElectrostatics (allParticles docOneMass.forces) (a.elementNum - 1) = some e ∧
          topoOneMass.atomTypes[atom.type]? = some t ∧
          t.epsilon = e.epsilon * sampleConstant.KJ_KCAL ∧
          t.sigma = e.sigma * sampleConstant.NM_ANGSTROM :=
  ⟨by decide!, by decide!,
    (reused_type_check_unreachable sampleConstant).2.2.2 docOneMass atomsSameName topoOneMass
      (by decide!)⟩

/-! ## Type indices for names without separator -/

theorem firstOccurrences_snoc {α : Type} [DecidableEq α] (l : List α) (x : α) :
    firstOccurrences (l ++ [x]) =
      if x ∈ firstOccurrences l then firstOccurrences l else firstOccurrences l ++ [x] := by
  simp [firstOccurrences, List.foldl_append]

theorem mem_firstOccurrences {α : Type} [DecidableEq α] (l : List α) (x : α) :
    x ∈ firstOccurrences l ↔ x ∈ l := by
  induction l using List.reverseRecOn with
  | nil => simp [firstOccurrences]
  | append_singleton l y ih =>
    rw [firstOccurrences_snoc]
    by_cases hy : y ∈ firstOccurrences l
    · rw [if_pos hy]
      constructor
      · intro h
        exact List.mem_append_left _ (ih.1 h)
      · intro h
        rcases List.mem_append.1 h with h | h
        · exact ih.2 h
        · simp at h
          subst h
          exact hy
    · rw [if_neg hy]
      simp [ih]

theorem nodup_firstOccurrences {α : Type} [DecidableEq α] (l : List α) :
    (firstOccurrences l).Nodup := by
  induction l using List.reverseRecOn with
  | nil => simp [firstOccurrences]
  | append_singleton l y ih =>
    rw [firstOccurrences_snoc]
    by_cases hy : y ∈ firstOccurrences l
    · rw [if_pos hy]
      exact ih
    · rw [if_neg hy]
      exact List.Nodup.append ih (List.nodup_singleton y) (by simpa using hy)

/-- The scan returns the position of the key among the keys of the types. -/
theorem scanTypes_eq_indexOf (elementName : Str) (tempepsilon tempsigma : ℚ) :
    ∀ atomTypes : List AtomType,
      scanTypes atomTypes elementName tempepsilon tempsigma =
        positionOf (atomTypes.map typeKey) (elementName, tempepsilon, tempsigma)
  | [] => rfl
  | t :: ts => by
    have ih := scanTypes_eq_indexOf elementName tempepsilon tempsigma ts
    unfold scanTypes positionOf at ih ⊢
    rw [List.findIdx_cons, List.map_cons]
    by_cases hk : typeKey t = (elementName, tempepsilon, tempsigma)
    · rw [List.indexOf_cons_eq _ hk]
      simp only [typeKey, Prod.mk.injEq] at hk
      simp [typeMatches, hk.1, hk.2.1, hk.2.2]
    · rw [List.indexOf_cons_ne _ hk, ← ih]
      have hm : typeMatches elementName tempepsilon tempsigma t = false := by
        rw [Bool.eq_false_iff]
        intro hm
        simp only [typeMatches, Bool.and_eq_true, decide_eq_true_eq] at hm
        apply hk
        simp only [typeKey, Prod.mk.injEq]
        exact ⟨hm.1.1.symm, hm.1.2, hm.2⟩
      simp [hm]

theorem namePart_newAtomType (K : Constant) (a : PDBAtom) (e : electrostatic_index)
    (m : mass_index) (atype : Nat) (hsep : '_' ∉ a.elementName) :
    typeKey (newAtomType K a e m atype) =
      (a.elementName, e.epsilon * K.KJ_KCAL, e.sigma * K.NM_ANGSTROM) := by
  simp only [typeKey, newAtomType, namePart, Prod.mk.injEq, and_true]
  have := takeWhile_separator '_' a.elementName (decimal atype)
    (fun c hc hcs => hsep (hcs ▸ hc))
  simpa using this

theorem addAtom_keysInOrder {K : Constant} {masses : List mass_index}
    {electrostatics : List electrostatic_index} (done : List PDBAtom)
    (topo topo1 : GenericTopology) (i : Nat) (a : PDBAtom)
    (hinv : AtomLoopInv K masses electrostatics done topo)
    (hP : (∀ x ∈ done, '_' ∉ x.elementName) → KeysInOrder K electrostatics done topo)
    (h : addAtom K masses electrostatics topo i a = .ok topo1) :
    (∀ x ∈ done ++ [a], '_' ∉ x.elementName) →
      KeysInOrder K electrostatics (done ++ [a]) topo1 := by
  intro hsep
  obtain ⟨htypes, hatoms⟩ := hP (fun x hx => hsep x (List.mem_append_left _ hx))
  have hsepa : '_' ∉ a.elementName := hsep a (by simp)
  obtain ⟨e, he, hcase⟩ := addAtom_spec (atomLoopInv_names hinv) h
  have hkey : atomKey K electrostatics a =
      (a.elementName, e.epsilon * K.KJ_KCAL, e.sigma * K.NM_ANGSTROM) := by
    simp [atomKey, he, tempEpsilonSigma]
  have hscan := scanTypes_eq_indexOf a.elementName (e.epsilon * K.KJ_KCAL)
    (e.sigma * K.NM_ANGSTROM) topo.atomTypes
  rw [← hkey, htypes] at hscan
  unfold positionOf at hscan hatoms
  rcases hcase with ⟨t, ht, -, -, h1⟩ | ⟨m, hlen, hm, h1⟩
  · subst h1
    have hmem : atomKey K electrostatics a ∈
        firstOccurrences (done.map (atomKey K electrostatics)) := by
      rw [← List.indexOf_lt_length, ← hscan, ← htypes, List.length_map]
      exact lt_length_of_getElem? ht
    constructor
    · simp only [List.map_append, List.map_cons, List.map_nil]
      rw [firstOccurrences_snoc, if_pos hmem]
      exact htypes
    · simp only [List.map_append, List.map_cons, List.map_nil]
      unfold positionOf
      rw [firstOccurrences_snoc, if_pos hmem, hatoms, hscan]
      rfl
  · subst h1
    have hnot : atomKey K electrostatics a ∉
        firstOccurrences (done.map (atomKey K electrostatics)) := by
      rw [← List.indexOf_eq_length, ← hscan, hlen, ← htypes, List.length_map]
    constructor
    · simp only [List.map_append, List.map_cons, List.map_nil]
      rw [firstOccurrences_snoc, if_neg hnot, htypes, namePart_newAtomType K a e m _ hsepa, hkey]
    · simp only [List.map_append, List.map_cons, List.map_nil]
      unfold positionOf
      rw [firstOccurrences_snoc, if_neg hnot, hatoms]
      congr 1
      · apply List.map_congr_left
        intro k hk
        rw [List.indexOf_append_of_mem ((mem_firstOccurrences _ _).2 hk)]
      · rw [List.indexOf_append_of_not_mem hnot, List.indexOf_cons_self, ← htypes]
        simp [makeAtom]

theorem map_type_of_fixed {l1 l2 : List Atom} (h : l1.map Atom.fixed = l2.map Atom.fixed) :
    l1.map (fun a => a.type) = l2.map (fun a => a.type) := by
  have := congrArg (List.map (fun f : Str × Nat × Str × Int × ℚ × ℚ × Int × Int => f.2.1)) h
  simpa [List.map_map, Function.comp, Atom.fixed] using this

/-- C24: when no element name contains '_', in a successful build the keys
of the types (name part, epsilon, sigma) are the distinct keys of the input
records (element name, converted epsilon, converted sigma) in the order of
their first occurrence, and every atom points to the position of its own key
in that list.  Hence two atoms have the same type index exactly when their
records have the same key, every type index is below the number of types,
and the number of types is the number of distinct keys. -/
theorem dedup_characterisation (K : Constant) (doc : XMLDocument) (atoms : List PDBAtom)
    (topo : GenericTopology) (hsep : ∀ a ∈ atoms, '_' ∉ a.elementName)
    (hb : buildTopologyFromXML K doc atoms = .ok topo) :
    topo.atomTypes.map typeKey =
        firstOccurrences (atoms.map (atomKey K (allParticles doc.forces))) ∧
      topo.atoms.map (fun a => a.type) =
        (atoms.map (atomKey K (allParticles doc.forces))).map
          (positionOf (firstOccurrences (atoms.map (atomKey K (allParticles doc.forces))))) ∧
      (∀ (i j : Nat) (a b : PDBAtom) (ai aj : Atom),
        atoms[i]? = some a → atoms[j]? = some b →
        topo.atoms[i]? = some ai → topo.atoms[j]? = some aj →
        (ai.type = aj.type ↔
          atomKey K (allParticles doc.forces) a = atomKey K (allParticles doc.forces) b)) ∧
      (∀ a ∈ topo.atoms, a.type < topo.atomTypes.length) ∧
      topo.atomTypes.length =
        (atoms.map (atomKey K (allParticles doc.forces))).toFinset.card := by
  obtain ⟨topo0, h0, htypes, hfixed⟩ := build_atom_loop hb
  have hP := addAtoms_induction
    (fun done t => (∀ x ∈ done, '_' ∉ x.elementName) →
      KeysInOrder K (allParticles doc.forces) done t)
    addAtom_keysInOrder atoms [] {} topo0 0
    (atomLoopInv_nil K doc.masses (allParticles doc.forces))
    (fun _ => ⟨rfl, rfl⟩) h0
  simp only [List.nil_append] at hP
  obtain ⟨h1, h2⟩ := hP hsep
  rw [← htypes] at h1
  rw [← map_type_of_fixed hfixed] at h2
  have hlen : topo.atomTypes.length =
      (firstOccurrences (atoms.map (atomKey K (allParticles doc.forces)))).length := by
    rw [← h1, List.length_map]
  have hat : ∀ (i : Nat) (a : PDBAtom) (ai : Atom), atoms[i]? = some a →
      topo.atoms[i]? = some ai →
      ai.type = positionOf (firstOccurrences (atoms.map (atomKey K (allParticles doc.forces))))
        (atomKey K (allParticles doc.forces) a) := by
    intro i a ai ha hai
    have := congrArg (fun l => l[i]?) h2
    simp only [List.getElem?_map, ha, hai, Option.map_some', Option.some.injEq] at this
    exact this
  have hmem : ∀ (i : Nat) (a : PDBAtom), atoms[i]? = some a →
      atomKey K (allParticles doc.forces) a ∈
        firstOccurrences (atoms.map (atomKey K (allParticles doc.forces))) := by
    intro i a ha
    rw [mem_firstOccurrences]
    obtain ⟨hlt, rfl⟩ := List.getElem?_eq_some_iff.1 ha
    exact List.mem_map.2 ⟨_, List.getElem_mem hlt, rfl⟩
  refine ⟨h1, h2, ?_, ?_, ?_⟩
  · intro i j a b ai aj ha hb1 hai haj
    rw [hat i a ai ha hai, hat j b aj hb1 haj]
    unfold positionOf
    exact List.indexOf_inj (hmem i a ha) (hmem j b hb1)
  · intro ai hai
    obtain ⟨i, hi⟩ := List.getElem?_of_mem hai
    have hlt : i < atoms.length := by
      have := congrArg List.length h2
      simp only [List.length_map] at this
      rw [← this]
      exact lt_length_of_getElem? hi
    rw [hat i atoms[i] ai (List.getElem?_eq_getElem hlt) hi, hlen]
    unfold positionOf
    exact List.indexOf_lt_length.2 (hmem i atoms[i] (List.getElem?_eq_getElem hlt))
  · rw [hlen, ← List.toFinset_card_of_nodup (nodup_firstOccurrences _)]
    congr 1
    ext x
    simp only [List.mem_toFinset]
    exact mem_firstOccurrences _ x

theorem dedup_characterisation_witness :
    (∀ a ∈ atomsRepeated, '_' ∉ a.elementName) ∧
      buildTopologyFromXML sampleConstant docRepeated atomsRepeated = .ok topoRepeated ∧
      topoRepeated.atoms.map (fun a => (a.type, a.scaledMass)) = [(0, 12), (1, 1), (0, 12)] ∧
      topoRepeated.atomTypes.map (fun t => t.name) = ["CA_0".toList, "HB2_1".toList] ∧
      topoRepeated.atomTypes.map typeKey =
        firstOccurrences (atomsRepeated.map
          (atomKey sampleConstant (allParticles docRepeated.forces))) ∧
      topoRepeated.atoms.map (fun a => a.type) =
        (atomsRepeated.map (atomKey sampleConstant (allParticles docRepeated.forces))).map
          (positionOf (firstOccurrences (atomsRepeated.map
            (atomKey sampleConstant (allParticles docRepeated.forces))))) ∧
      (∀ (i j : Nat) (a b : PDBAtom) (ai aj : Atom),
        atomsRepeated[i]? = some a → atomsRepeated[j]? = some b →
        topoRepeated.atoms[i]? = some ai → topoRepeated.atoms[j]? = some aj →
        (ai.type = aj.type ↔
          atomKey sampleConstant (allParticles docRepeated.forces) a =
            atomKey sampleConstant (allParticles docRepeated.forces) b)) ∧
      (∀ a ∈ topoRepeated.atoms, a.type < topoRepeated.atomTypes.length) ∧
      topoRepeated.atomTypes.length =
        (atomsRepeated.map
          (atomKey sampleConstant (allParticles docRepeated.forces))).toFinset.card :=
  ⟨by decide, by decide!, by decide!, by decide!,
    dedup_characterisation sampleConstant docRepeated atomsRepeated topoRepeated (by decide)
      (by decide!)⟩

/-! ## `AnalysisCollection::run` -/

theorem runLoop_append {σ : Type} (step : Int) :
    ∀ (l1 l2 : List (Analysis σ)) (i : Nat) (st : RunState σ),
      AnalysisCollection.runLoop step (l1 ++ l2) i st =
        AnalysisCollection.runLoop step l2 (i + l1.length)
          (AnalysisCollection.runLoop step l1 i st)
  | [], l2, i, st => by
    simp [AnalysisCollection.runLoop]
  | a :: l1, l2, i, st => by
    have hi : i + (l1.length + 1) = i + 1 + l1.length := by omega
    simp only [List.cons_append, AnalysisCollection.runLoop, List.length_cons, hi]
    split
    · exact runLoop_append step l1 l2 (i + 1) _
    · exact runLoop_append step l1 l2 (i + 1) _

/-- The run over a list with one more analysis at the end. -/
theorem run_snoc {σ : Type} (uncache : σ → σ) (l : List (Analysis σ)) (a : Analysis σ)
    (step : Int) (app : σ) :
    AnalysisCollection.run uncache (l ++ [a]) step app =
      if a.isOnOutput (AnalysisCollection.run uncache l step app).app then
        { app := (a.run step (AnalysisCollection.run uncache l step app).app).2
          outputRan := (AnalysisCollection.run uncache l step app).outputRan ||
            (a.run step (AnalysisCollection.run uncache l step app).app).1
          calls := (AnalysisCollection.run uncache l step app).calls ++
            [(l.length, (a.run step (AnalysisCollection.run uncache l step app).app).1)] }
      else AnalysisCollection.run uncache l step app := by
  unfold AnalysisCollection.run
  rw [runLoop_append]
  simp only [AnalysisCollection.runLoop, Nat.zero_add]

theorem stateBefore_snoc {σ : Type} (uncache : σ → σ) (l : List (Analysis σ))
    (a : Analysis σ) (step : Int) (app : σ) (i : Nat) (hi : i ≤ l.length) :
    AnalysisCollection.stateBefore uncache (l ++ [a]) step app i =
      AnalysisCollection.stateBefore uncache l step app i := by
  unfold AnalysisCollection.stateBefore
  rw [List.take_append_of_le_length hi]

theorem onOutputAt_snoc {σ : Type} (uncache : σ → σ) (l : List (Analysis σ))
    (a : Analysis σ) (step : Int) (app : σ) (i : Nat) (hi : i < l.length) :
    AnalysisCollection.onOutputAt uncache (l ++ [a]) step app i =
      AnalysisCollection.onOutputAt uncache l step app i := by
  unfold AnalysisCollection.onOutputAt
  rw [List.getElem?_append_left hi, stateBefore_snoc _ _ _ _ _ _ (Nat.le_of_lt hi)]

theorem onOutputAt_length {σ : Type} (uncache : σ → σ) (l : List (Analysis σ))
    (a : Analysis σ) (step : Int) (app : σ) :
    AnalysisCollection.onOutputAt uncache (l ++ [a]) step app l.length =
      a.isOnOutput (AnalysisCollection.run uncache l step app).app := by
  unfold AnalysisCollection.onOutputAt AnalysisCollection.stateBefore
  simp

/-- The calls of a run, the values they returned and the value of
`outputRan`. -/
theorem run_calls {σ : Type} (uncache : σ → σ) (step : Int) (app : σ) :
    ∀ l : List (Analysis σ),
      (AnalysisCollection.run uncache l step app).calls.map Prod.fst =
          (List.range l.length).filter (AnalysisCollection.onOutputAt uncache l step app) ∧
        (∀ (i : Nat) (r : Bool), (i, r) ∈ (AnalysisCollection.run uncache l step app).calls →
          ∃ a, l[i]? = some a ∧
            r = (a.run step (AnalysisCollection.stateBefore uncache l step app i)).1) ∧
        (AnalysisCollection.run uncache l step app).outputRan =
          (AnalysisCollection.run uncache l step app).calls.any (fun c => c.2) := by
  intro l
  induction l using List.reverseRecOn with
  | nil =>
    refine ⟨rfl, ?_, rfl⟩
    intro i r h
    simp [AnalysisCollection.run, AnalysisCollection.runLoop] at h
  | append_singleton l a ih =>
    obtain ⟨h1, h2, h3⟩ := ih
    have hfilter : (List.range l.length).filter
        (AnalysisCollection.onOutputAt uncache (l ++ [a]) step app) =
        (List.range l.length).filter (AnalysisCollection.onOutputAt uncache l step app) := by
      apply List.filter_congr
      intro i hi
      exact onOutputAt_snoc uncache l a step app i (List.mem_range.1 hi)
    have hold : ∀ (i : Nat) (r : Bool),
        (i, r) ∈ (AnalysisCollection.run uncache l step app).calls →
        ∃ b, (l ++ [a])[i]? = some b ∧
          r = (b.run step (AnalysisCollection.stateBefore uncache (l ++ [a]) step app i)).1 := by
      intro i r hir
      obtain ⟨b, hb, hr⟩ := h2 i r hir
      have hlt : i < l.length := lt_length_of_getElem? hb
      refine ⟨b, ?_, ?_⟩
      · rw [List.getElem?_append_left hlt]
        exact hb
      · rw [stateBefore_snoc _ _ _ _ _ _ (Nat.le_of_lt hlt)]
        exact hr
    rw [run_snoc]
    simp only [List.length_append, List.length_singleton, List.range_succ, List.filter_append,
      hfilter]
    by_cases hon : a.isOnOutput (AnalysisCollection.run uncache l step app).app = true
    · simp only [hon, if_true, List.map_append, List.map_cons, List.map_nil, h1,
        List.filter_cons, List.filter_nil, onOutputAt_length]
      refine ⟨trivial, ?_, ?_⟩
      · intro i r hir
        rcases List.mem_append.1 hir with hir | hir
        · exact hold i r hir
        · simp only [List.mem_singleton, Prod.mk.injEq] at hir
          obtain ⟨rfl, rfl⟩ := hir
          refine ⟨a, by simp, ?_⟩
          simp [AnalysisCollection.stateBefore]
      · rw [h3]
        simp [List.any_append]
    · simp only [hon, if_false, h1, List.filter_cons, List.filter_nil, onOutputAt_length,
        List.append_nil, Bool.false_eq_true]
      exact ⟨trivial, hold, h3⟩

/-- C25: `AnalysisCollection::run` calls `run(step)` on the analyses whose
`isOnOutput()` holds when the loop reaches them, and on no other: the
positions of the calls are the positions below the length of the list at
which `isOnOutput()` holds, in increasing order, so each at most once and in
list order, whatever the calls return.  Each call is made with `step` on the
state the loop has reached, and the value returned by the method is true
exactly when one of the calls returned true; for the empty collection it is
false. -/
theorem analysisCollection_run {σ : Type} (uncache : σ → σ) (l : List (Analysis σ))
    (step : Int) (app : σ) :
    (AnalysisCollection.run uncache l step app).calls.map Prod.fst =
        (List.range l.length).filter (AnalysisCollection.onOutputAt uncache l step app) ∧
      ((AnalysisCollection.run uncache l step app).calls.map Prod.fst).Pairwise
        (fun i j => i < j) ∧
      (∀ i : Nat, i ∈ (AnalysisCollection.run uncache l step app).calls.map Prod.fst ↔
        i < l.length ∧ AnalysisCollection.onOutputAt uncache l step app i = true) ∧
      (∀ (i : Nat) (r : Bool), (i, r) ∈ (AnalysisCollection.run uncache l step app).calls →
        ∃ a, l[i]? = some a ∧
          r = (a.run step (AnalysisCollection.stateBefore uncache l step app i)).1) ∧
      ((AnalysisCollection.run uncache l step app).outputRan = true ↔
        ∃ c ∈ (AnalysisCollection.run uncache l step app).calls, c.2 = true) ∧
      (AnalysisCollection.run uncache [] step app).outputRan = false := by
  obtain ⟨h1, h2, h3⟩ := run_calls uncache step app l
  refine ⟨h1, ?_, ?_, h2, ?_, rfl⟩
  · rw [h1]
    exact List.Pairwise.filter _ (List.pairwise_lt_range _)
  · intro i
    rw [h1, List.mem_filter, List.mem_range]
  · rw [h3, List.any_eq_true]

/-- A run over `analysesThree`: the first analysis is skipped, the other two
are called in order although the second has returned true, and the result is
true. -/
theorem analysisCollection_run_witness :
    (AnalysisCollection.run id analysesThree 7 0).calls = [(1, true), (2, false)] ∧
      (AnalysisCollection.run id analysesThree 7 0).outputRan = true ∧
      (AnalysisCollection.run id analysesThree 7 0).app = 11 ∧
      (∃ c ∈ (AnalysisCollection.run id analysesThree 7 0).calls, c.2 = true) ∧
      (∀ i : Nat, i ∈ (AnalysisCollection.run id analysesThree 7 0).calls.map Prod.fst ↔
        i < analysesThree.length ∧
          AnalysisCollection.onOutputAt id analysesThree 7 0 i = true) :=
  ⟨by decide, by decide, by decide,
    (analysisCollection_run id analysesThree 7 0).2.2.2.2.1.1 (by decide),
    (analysisCollection_run id analysesThree 7 0).2.2.1⟩

end ProtoMol
